import Mathlib

/-!
Triangle drawers (`r_triangle.cpp`): clipping, matrix algebra and the two rasterizers.

A shallow embedding of `src/src/r_triangle.cpp`.

* Floating point values (`float`, `double`) are embedded as elements of an exact
  ordered field (or commutative ring) `α`; concrete evaluations use `ℚ`.
* C `int` values are embedded as unbounded `Int`.
* The pair `(clippedvert, numclipvert)` is embedded as the list of the first
  `numclipvert` entries of `clippedvert`, so `numclipvert` is the length of the list.
* The macros `MIN` and `MAX` of `templates.h` are `min` and `max`.
* A `for` loop with a constant stride is embedded as a structural recursion on the number
  of iterations left, the loop variable and the accumulators being arguments.
* The stores of the rasterizer are collected in program order (`fillwrites`); the
  framebuffer after the call (`fill`) is obtained by performing them. The textured
  rasterizer is embedded the same way (`drawwrites`, `draw`).
* The reads of `cliptop` and `clipbottom` made by `fill` are collected in program order
  (`fillreads`); an operand of `||` or `&&` is read only when the operands before it do
  not decide the result.
* `uint32_t` values are embedded as `Nat`, reduced modulo `2^32` where the code computes
  them.
* The library functions `cosf` and `sinf` are parameters of `rotate`; the statement over
  the reals takes the real cosine and sine.
-/

set_option autoImplicit false

/-! Part 1: definitions (the embedding of the source and the predicates of the statements). -/

/-- Modelled from the spec: the constant `TriVertex::NumVarying` is declared in
`r_triangle.h`, which is not part of the sources; the spec gives `NumVarying = 8`. -/
def NumVarying : Nat := 8

/-- Modelled from the spec: the declaration of `TriVertex` is in `r_triangle.h`, which is
not part of the sources. The fields are the ones `r_triangle.cpp` reads and writes: four
homogeneous coordinates and the array `varying[NumVarying]`. -/
@[ext]
structure TriVertex (α : Type) where
  x : α
  y : α
  z : α
  w : α
  varying : Fin NumVarying → α

/-- Modelled from the spec: the declaration of `TriMatrix` is in `r_triangle.h`, which is
not part of the sources. Its one field is the array `matrix[16]` of `r_triangle.cpp`,
indexed `matrix[col * 4 + row]` by the code below. -/
structure TriMatrix (α : Type) where
  matrix : Fin 16 → α

namespace TriMatrix

variable {α : Type} [CommRing α]

/-- The entry `matrix[col * 4 + row]` for `col, row < 4`. -/
def entry (m : TriMatrix α) (col row : Fin 4) : α :=
  m.matrix ⟨col.val * 4 + row.val, by omega⟩

/-- Embeds `TriMatrix::null`. -/
def null : TriMatrix α := ⟨fun _ => 0⟩

/-- Embeds `TriMatrix::identity`. -/
def identity : TriMatrix α :=
  ⟨fun i => if i = 0 ∨ i = 5 ∨ i = 10 ∨ i = 15 then 1 else 0⟩

/-- Embeds `TriMatrix::operator*(const TriMatrix &mult)`: the loops over `x` and `y` assign
`result.matrix[x + y * 4]`, so the entry at index `i` is the one for `x = i % 4`, `y = i / 4`. -/
def mul (m mult : TriMatrix α) : TriMatrix α :=
  ⟨fun i =>
    let x : Fin 4 := ⟨i.val % 4, by omega⟩
    let y : Fin 4 := ⟨i.val / 4, by omega⟩
    m.entry 0 x * mult.entry y 0 +
    m.entry 1 x * mult.entry y 1 +
    m.entry 2 x * mult.entry y 2 +
    m.entry 3 x * mult.entry y 3⟩

/-- Embeds `TriMatrix::operator*(TriVertex v)`: the varyings of `v` are kept. -/
def mulVertex (m : TriMatrix α) (v : TriVertex α) : TriVertex α :=
  let vx := m.entry 0 0 * v.x + m.entry 1 0 * v.y + m.entry 2 0 * v.z + m.entry 3 0 * v.w
  let vy := m.entry 0 1 * v.x + m.entry 1 1 * v.y + m.entry 2 1 * v.z + m.entry 3 1 * v.w
  let vz := m.entry 0 2 * v.x + m.entry 1 2 * v.y + m.entry 2 2 * v.z + m.entry 3 2 * v.w
  let vw := m.entry 0 3 * v.x + m.entry 1 3 * v.y + m.entry 2 3 * v.z + m.entry 3 3 * v.w
  { v with x := vx, y := vy, z := vz, w := vw }

/-- Embeds `TriMatrix::rotate`; the library functions `cosf` and `sinf` are parameters.
The matrix starts as `null()`, then the listed entries `matrix[row + col * 4]` are
assigned. -/
def rotate (cosf sinf : α → α) (angle x y z : α) : TriMatrix α :=
  let c := cosf angle
  let s := sinf angle
  ⟨fun i =>
    match i.val with
    | 0 => x * x * (1 - c) + c
    | 4 => x * y * (1 - c) - z * s
    | 8 => x * z * (1 - c) + y * s
    | 1 => y * x * (1 - c) + z * s
    | 5 => y * y * (1 - c) + c
    | 9 => y * z * (1 - c) - x * s
    | 2 => x * z * (1 - c) - y * s
    | 6 => y * z * (1 - c) + x * s
    | 10 => z * z * (1 - c) + c
    | 15 => 1
    | _ => 0⟩

end TriMatrix

/-- The renderer globals read by `draw_any` (`ViewPos`, `ViewSin`, `ViewCos`, `ViewTanCos`,
`ViewTanSin`, `CenterX`, `CenterY`, `InvZtoScale`), taken as parameters. -/
structure ViewState (α : Type) where
  ViewPosX : α
  ViewPosY : α
  ViewPosZ : α
  ViewSin : α
  ViewCos : α
  ViewTanCos : α
  ViewTanSin : α
  CenterX : α
  CenterY : α
  InvZtoScale : α

namespace TriangleDrawer

variable {α : Type} [LinearOrderedField α]

/-- Embeds `TriangleDrawer::cullhalfspace`: the result is `(culled, t1, t2)`, the two
reference parameters being returned with their final values. -/
def cullhalfspace (clipdistance1 clipdistance2 : α) (t1 t2 : α) : Bool × α × α :=
  let d1 := clipdistance1 * (1 - t1) + clipdistance2 * t1
  let d2 := clipdistance1 * (1 - t2) + clipdistance2 * t2
  if d1 < 0 ∧ d2 < 0 then (true, t1, t2)
  else
    let t1' := if d1 < 0 then max (-clipdistance1 / (clipdistance2 - clipdistance1)) t1 else t1
    let t2' := if d2 < 0 then min (1 + clipdistance2 / (clipdistance1 - clipdistance2)) t2 else t2
    (false, t1', t2')

/-- One disjunct of the short-circuit chain `cullhalfspace(..) || cullhalfspace(..) || ..`
of `clipedge`: `none` once an earlier call has culled the edge, otherwise the call is made
on the current `t1`, `t2`. -/
def cullstep (clipdistance1 clipdistance2 : α) (st : Option (α × α)) : Option (α × α) :=
  match st with
  | none => none
  | some (t1, t2) =>
    match cullhalfspace clipdistance1 clipdistance2 t1 t2 with
    | (true, _, _) => none
    | (false, t1', t2') => some (t1', t2')

/-- The six half-space tests of `clipedge`, started from `t1 = 0`, `t2 = 1`;
`none` when `culled` is true. -/
def cullall (v1 v2 : TriVertex α) : Option (α × α) :=
  cullstep (v1.w - v1.z) (v2.w - v2.z)
    (cullstep (v1.z + v1.w) (v2.z + v2.w)
      (cullstep (v1.w - v1.y) (v2.w - v2.y)
        (cullstep (v1.y + v1.w) (v2.y + v2.w)
          (cullstep (v1.w - v1.x) (v2.w - v2.x)
            (cullstep (v1.x + v1.w) (v2.x + v2.w) (some (0, 1)))))))

/-- The vertex written by the two interpolation branches of `clipedge`. -/
def lerpvert (v1 v2 : TriVertex α) (t : α) : TriVertex α :=
  { x := v1.x * (1 - t) + v2.x * t
    y := v1.y * (1 - t) + v2.y * t
    z := v1.z * (1 - t) + v2.z * t
    w := v1.w * (1 - t) + v2.w * t
    varying := fun i => v1.varying i * (1 - t) + v2.varying i * t }

/-- Embeds `TriangleDrawer::clipedge`: returns the extended `clippedvert`. -/
def clipedge (v1 v2 : TriVertex α) (clippedvert : List (TriVertex α)) : List (TriVertex α) :=
  match cullall v1 v2 with
  | none => clippedvert
  | some (t1, t2) =>
    let out1 := clippedvert ++ [if t1 = 0 then v1 else lerpvert v1 v2 t1]
    if t2 ≠ 1 then out1 ++ [lerpvert v1 v2 t2] else out1

/-- The clip stage of `draw_any`: three `clipedge` calls starting from `numclipvert = 0`. -/
def clipstage (vert0 vert1 vert2 : TriVertex α) : List (TriVertex α) :=
  clipedge vert2 vert0 (clipedge vert1 vert2 (clipedge vert0 vert1 []))

/-- The clip volume `-w ≤ x, y, z ≤ w` stated in the comment of `clipedge`. -/
def InClipVolume (v : TriVertex α) : Prop :=
  -v.w ≤ v.x ∧ v.x ≤ v.w ∧ -v.w ≤ v.y ∧ v.y ≤ v.w ∧ -v.w ≤ v.z ∧ v.z ≤ v.w

/-- The plane distance at parameter `t` along an edge, the expression `cullhalfspace`
evaluates for `d1` and `d2`. -/
def distAt (c1 c2 t : α) : α := c1 * (1 - t) + c2 * t

/-- The six pairs of clip distances `clipedge` passes to `cullhalfspace`, in call order. -/
def clipplanes (v1 v2 : TriVertex α) : List (α × α) :=
  [(v1.x + v1.w, v2.x + v2.w), (v1.w - v1.x, v2.w - v2.x),
   (v1.y + v1.w, v2.y + v2.w), (v1.w - v1.y, v2.w - v2.y),
   (v1.z + v1.w, v2.z + v2.w), (v1.w - v1.z, v2.w - v2.z)]

/-- The vertex shader of `draw_any` (the body of its first inner loop), in exact
arithmetic. -/
def vertexshader (objectToWorld : TriMatrix α) (view : ViewState α) (vin : TriVertex α) :
    TriVertex α :=
  let v := objectToWorld.mulVertex vin
  let nearp : α := 5
  let farp : α := 65536
  let tr_x := v.x - view.ViewPosX
  let tr_y := v.y - view.ViewPosY
  let tr_z := v.z - view.ViewPosZ
  let tx := tr_x * view.ViewSin - tr_y * view.ViewCos
  let tz := tr_x * view.ViewTanCos + tr_y * view.ViewTanSin
  { v with
    x := tx * (1 / 2)
    y := tr_z * (1 / 2)
    z := -tz * (farp + nearp) / (nearp - farp) + (2 * farp * nearp) / (nearp - farp)
    w := tz }

/-- The body of the "map to 2D viewport" loop of `draw_any`. -/
def viewportmap (view : ViewState α) (v : TriVertex α) : TriVertex α :=
  let w := 1 / v.w
  let x := v.x * w
  let y := v.y * w
  let z := v.z * w
  { v with
    x := view.CenterX + x * 2 * view.CenterX
    y := view.CenterY - y * 2 * view.InvZtoScale
    z := z
    w := w }

/-- The front end of `draw_any` for one triangle, up to and including the clip stage. -/
def clipfrontend (objectToWorld : TriMatrix α) (view : ViewState α)
    (vin0 vin1 vin2 : TriVertex α) : List (TriVertex α) :=
  clipstage (vertexshader objectToWorld view vin0) (vertexshader objectToWorld view vin1)
    (vertexshader objectToWorld view vin2)

/-- The vertices `draw_any` hands to the rasterizer for one triangle: the clipped
vertices after the viewport loop. -/
def screenverts (objectToWorld : TriMatrix α) (view : ViewState α)
    (vin0 vin1 vin2 : TriVertex α) : List (TriVertex α) :=
  (clipfrontend objectToWorld view vin0 vin1 vin2).map (viewportmap view)

/-- Invariant of the interval `[t1, t2]` kept by the chain of `cullhalfspace` calls:
it stays inside `[0, 1]`, is non-empty, and both ends are on the inner side of every
plane already processed. -/
def IntervalOk (planes : List (α × α)) (st : Option (α × α)) : Prop :=
  ∀ t1 t2, st = some (t1, t2) →
    0 ≤ t1 ∧ t1 ≤ t2 ∧ t2 ≤ 1 ∧
      ∀ p ∈ planes, 0 ≤ distAt p.1 p.2 t1 ∧ 0 ≤ distAt p.1 p.2 t2

/-- The vertex lies on one of the six planes bounding the clip volume. -/
def OnClipBoundary (v : TriVertex α) : Prop :=
  v.x + v.w = 0 ∨ v.w - v.x = 0 ∨ v.y + v.w = 0 ∨ v.w - v.y = 0 ∨ v.z + v.w = 0 ∨
    v.w - v.z = 0

/-- Second invariant of the chain of `cullhalfspace` calls: an end of the interval
that has moved away from its initial value (`0` for `t1`, `1` for `t2`) is a zero of
the distance to one of the planes already processed. -/
def IntervalTight (planes : List (α × α)) (st : Option (α × α)) : Prop :=
  ∀ t1 t2, st = some (t1, t2) →
    (t1 = 0 ∨ ∃ p ∈ planes, distAt p.1 p.2 t1 = 0) ∧
    (t2 = 1 ∨ ∃ p ∈ planes, distAt p.1 p.2 t2 = 0)

end TriangleDrawer

/-- A vertex with rational coordinates and all varyings zero, for concrete evaluations. -/
def vert4 (x y z w : ℚ) : TriVertex ℚ := ⟨x, y, z, w, fun _ => 0⟩

/-- Modelled from the spec: the declaration of `ScreenTriangleDrawerArgs` is in
`r_triangle.h`, which is not part of the sources. The fields are the ones `draw_any`
assigns and `draw` and `fill` read. The framebuffer `dest` and the texture are embedded as
maps from byte offsets to byte values, the clip arrays as maps from column indices to
rows. -/
structure ScreenTriangleDrawerArgs where
  dest : Int → Int
  pitch : Int
  v1 : TriVertex ℚ
  v2 : TriVertex ℚ
  v3 : TriVertex ℚ
  clipleft : Int
  clipright : Int
  cliptop : Int → Int
  clipbottom : Int → Int
  texturePixels : Int → Int
  textureWidth : Int
  textureHeight : Int
  solidcolor : Int

/-- One execution of the store `buffer[ix] = solidcolor`: `x` is the column `ix`,
`y` the row `y + iy` the loops are at, and `addr` the offset `buffer + ix` of the stored
byte from `args->dest`. -/
structure PixelWrite where
  x : Int
  y : Int
  addr : Int
deriving DecidableEq, Repr

/-- One half-edge of the rasterizer setup: the deltas `DXij`, `DYij` and the constant
`Ck` after the fill-convention correction. -/
structure HalfEdge where
  DX : Int
  DY : Int
  C : Int
deriving DecidableEq, Repr

/-- The 28.4 coordinates `X1, Y1, X2, Y2, X3, Y3` of the three vertices. -/
structure Snapped where
  X1 : Int
  Y1 : Int
  X2 : Int
  Y2 : Int
  X3 : Int
  Y3 : Int
deriving DecidableEq, Repr

/-- The bounding rectangle of the rasterizer, as computed before `minx` and `miny`
are rounded down to a multiple of the block size. -/
structure BoundingRect where
  clipymin : Int
  clipymax : Int
  minx : Int
  maxx : Int
  miny : Int
  maxy : Int
deriving DecidableEq, Repr

namespace ScreenTriangleDrawer

/-- C `round` in exact arithmetic: the nearest integer, halves away from zero. -/
def cround (q : ℚ) : Int := if 0 ≤ q then ⌊q + 1 / 2⌋ else -⌊-q + 1 / 2⌋

/-- The 28.4 fixed-point coordinates: `(int)round(16.0f * v.x)` and so on. -/
def snap (args : ScreenTriangleDrawerArgs) : Snapped :=
  { Y1 := cround (16 * args.v1.y)
    Y2 := cround (16 * args.v2.y)
    Y3 := cround (16 * args.v3.y)
    X1 := cround (16 * args.v1.x)
    X2 := cround (16 * args.v2.x)
    X3 := cround (16 * args.v3.x) }

/-- The deltas `DXij = Xi - Xj`, `DYij = Yi - Yj`, the half-edge constant
`Ck = DYij * Xi - DXij * Yi` and its fill-convention correction
`if (DYij < 0 || (DYij == 0 && DXij > 0)) Ck++`, for the edge from vertex `i` to vertex `j`.
The values are unbounded integers: they are the values of the source's 32-bit `int`
variables as long as no operation overflows. -/
def halfedge (Xi Yi Xj Yj : Int) : HalfEdge :=
  let DX := Xi - Xj
  let DY := Yi - Yj
  let C := DY * Xi - DX * Yi
  { DX := DX, DY := DY, C := if DY < 0 ∨ (DY = 0 ∧ DX > 0) then C + 1 else C }

end ScreenTriangleDrawer

/-- The fixed-point delta `FDXij = DXij << 4`. -/
def HalfEdge.FDX (e : HalfEdge) : Int := e.DX * 16

/-- The fixed-point delta `FDYij = DYij << 4`. -/
def HalfEdge.FDY (e : HalfEdge) : Int := e.DY * 16

/-- The half-space function `Ck + DXij * y0 - DYij * x0` at the 28.4 point `(x0, y0)`,
as an unbounded integer (the value of the source's `int` expression as long as no
operation overflows). -/
def HalfEdge.eval (e : HalfEdge) (x0 y0 : Int) : Int := e.C + e.DX * y0 - e.DY * x0

/-- The half-space function at the integer pixel `(px, py)`, that is at the 28.4 point
`(px << 4, py << 4)`. -/
def HalfEdge.atPixel (e : HalfEdge) (px py : Int) : Int := e.eval (px * 16) (py * 16)

/-- Edge 1 of the setup, from vertex 1 to vertex 2 (`DX12`, `DY12`, `C1`). -/
def Snapped.e12 (s : Snapped) : HalfEdge := ScreenTriangleDrawer.halfedge s.X1 s.Y1 s.X2 s.Y2

/-- Edge 2 of the setup, from vertex 2 to vertex 3 (`DX23`, `DY23`, `C2`). -/
def Snapped.e23 (s : Snapped) : HalfEdge := ScreenTriangleDrawer.halfedge s.X2 s.Y2 s.X3 s.Y3

/-- Edge 3 of the setup, from vertex 3 to vertex 1 (`DX31`, `DY31`, `C3`). -/
def Snapped.e31 (s : Snapped) : HalfEdge := ScreenTriangleDrawer.halfedge s.X3 s.Y3 s.X1 s.Y1

/-- The three directed edges of the snapped triangle, as pairs of end points. -/
def Snapped.edges (s : Snapped) : List ((Int × Int) × (Int × Int)) :=
  [((s.X1, s.Y1), (s.X2, s.Y2)), ((s.X2, s.Y2), (s.X3, s.Y3)), ((s.X3, s.Y3), (s.X1, s.Y1))]

/-- The three-edge coverage test `CX1 > 0 && CX2 > 0 && CX3 > 0` at the pixel `(px, py)`. -/
def Snapped.Covered (s : Snapped) (px py : Int) : Prop :=
  0 < s.e12.atPixel px py ∧ 0 < s.e23.atPixel px py ∧ 0 < s.e31.atPixel px py

instance (s : Snapped) (px py : Int) : Decidable (s.Covered px py) := by
  unfold Snapped.Covered; infer_instance

/-- Twice the signed area of the snapped triangle: the sum `C1 + C2 + C3` of the
half-edge constants before the fill-convention correction. -/
def Snapped.area2 (s : Snapped) : Int :=
  ((s.Y1 - s.Y2) * s.X1 - (s.X1 - s.X2) * s.Y1) + ((s.Y2 - s.Y3) * s.X2 - (s.X2 - s.X3) * s.Y2) +
    ((s.Y3 - s.Y1) * s.X3 - (s.X3 - s.X1) * s.Y3)

namespace ScreenTriangleDrawer

/-- The per-pixel clip predicate `visible` of the partial-block loop. -/
def Visible (args : ScreenTriangleDrawerArgs) (ix row : Int) : Prop :=
  ix ≥ args.clipleft ∧ ix ≤ args.clipright ∧ args.cliptop ix ≤ row ∧ args.clipbottom ix > row

instance (args : ScreenTriangleDrawerArgs) (ix row : Int) : Decidable (Visible args ix row) := by
  unfold Visible; infer_instance

/-- Embeds `(v + 0xF) >> 4`, the shift being the arithmetic one (floor division by 16). -/
def ceil16 (v : Int) : Int := (v + 15) / 16

/-- Embeds `v & ~(q - 1)` for `q = 8`: `v` rounded down to a multiple of 8. -/
def alignblock (v : Int) : Int := v - v % 8

/-- Number of iterations of `for (v = lo; v < hi; v += q)` with `q = 8`. -/
def blockcount (lo hi : Int) : Nat := ((hi - lo + 7) / 8).toNat

/-- The loop `for (i = clipleft + 1; i <= clipright; i++)` over `clipymin`, `clipymax`:
`n` is the number of iterations left, `i` the loop variable. -/
def clipscan (cliptop clipbottom : Int → Int) : Nat → Int → Int × Int → Int × Int
  | 0, _, acc => acc
  | n + 1, i, (clipymin, clipymax) =>
    clipscan cliptop clipbottom n (i + 1) (min clipymin (cliptop i), max clipymax (clipbottom i))

/-- The bounding rectangle computation of `fill` (and of `draw`). -/
def boundingrect (args : ScreenTriangleDrawerArgs) (s : Snapped) : BoundingRect :=
  let clipy := clipscan args.cliptop args.clipbottom (args.clipright - args.clipleft).toNat
    (args.clipleft + 1) (args.cliptop args.clipleft, args.clipbottom args.clipleft)
  let clipymin := clipy.1
  let clipymax := clipy.2
  { clipymin := clipymin
    clipymax := clipymax
    minx := max (ceil16 (min (min s.X1 s.X2) s.X3)) args.clipleft
    maxx := min (ceil16 (max (max s.X1 s.X2) s.X3)) args.clipright
    miny := max (ceil16 (min (min s.Y1 s.Y2) s.Y3)) clipymin
    maxy := min (ceil16 (max (max s.Y1 s.Y2) s.Y3)) (clipymax - 1) }

/-- The packed corner mask `(a00 << 0) | (a10 << 1) | (a01 << 2) | (a11 << 3)`. -/
def cornermask (a00 a10 a01 a11 : Bool) : Nat :=
  (a00.toNat <<< 0) ||| (a10.toNat <<< 1) ||| (a01.toNat <<< 2) ||| (a11.toNat <<< 3)

/-- The mask of one half-edge for the block with origin `(x, y)`: the half-space
function at the four corners `x0 = x << 4`, `x1 = (x + q - 1) << 4`, `y0 = y << 4`,
`y1 = (y + q - 1) << 4`. -/
def blockmask (e : HalfEdge) (x y : Int) : Nat :=
  let x0 := x * 16
  let x1 := (x + 8 - 1) * 16
  let y0 := y * 16
  let y1 := (y + 8 - 1) * 16
  cornermask (decide (e.eval x0 y0 > 0)) (decide (e.eval x1 y0 > 0))
    (decide (e.eval x0 y1 > 0)) (decide (e.eval x1 y1 > 0))

/-- The `clipcount` loop `for (ix = x; ix < x + q; ix++)`: `n` iterations left. -/
def clipcountloop (args : ScreenTriangleDrawerArgs) (y : Int) : Nat → Int → Nat → Nat
  | 0, _, clipcount => clipcount
  | n + 1, ix, clipcount =>
    clipcountloop args y n (ix + 1)
      (clipcount + if args.clipleft > ix ∨ args.clipright < ix ∨ args.cliptop ix > y ∨
        args.clipbottom ix ≤ y + 8 - 1 then 1 else 0)

/-- Inner loop of the fully covered block: `for (ix = x; ix < x + q; ix++) buffer[ix] =
solidcolor`, in the row `row` whose first byte is at offset `buffer`. -/
def acceptcols (row buffer : Int) : Nat → Int → List PixelWrite
  | 0, _ => []
  | n + 1, ix => { x := ix, y := row, addr := buffer + ix } :: acceptcols row buffer n (ix + 1)

/-- Outer loop of the fully covered block: `for (iy = 0; iy < q; iy++) { ...;
buffer += pitch; }`. -/
def acceptrows (pitch x y : Int) : Nat → Int → Int → List PixelWrite
  | 0, _, _ => []
  | n + 1, iy, buffer =>
    acceptcols (y + iy) buffer 8 x ++ acceptrows pitch x y n (iy + 1) (buffer + pitch)

/-- Inner loop of the partially covered block, with the accumulators `CX1, CX2, CX3`
stepped by `FDY12, FDY23, FDY31` after each pixel. -/
def partialcols (args : ScreenTriangleDrawerArgs) (s : Snapped) (row buffer : Int) :
    Nat → Int → Int → Int → Int → List PixelWrite
  | 0, _, _, _, _ => []
  | n + 1, ix, CX1, CX2, CX3 =>
    (if CX1 > 0 ∧ CX2 > 0 ∧ CX3 > 0 ∧ Visible args ix row then
      [{ x := ix, y := row, addr := buffer + ix }] else []) ++
    partialcols args s row buffer n (ix + 1) (CX1 - s.e12.FDY) (CX2 - s.e23.FDY)
      (CX3 - s.e31.FDY)

/-- Outer loop of the partially covered block, with the accumulators `CY1, CY2, CY3`
stepped by `FDX12, FDX23, FDX31` after each row. -/
def partialrows (args : ScreenTriangleDrawerArgs) (s : Snapped) (x y : Int) :
    Nat → Int → Int → Int → Int → Int → List PixelWrite
  | 0, _, _, _, _, _ => []
  | n + 1, iy, CY1, CY2, CY3, buffer =>
    partialcols args s (y + iy) buffer 8 x CY1 CY2 CY3 ++
    partialrows args s x y n (iy + 1) (CY1 + s.e12.FDX) (CY2 + s.e23.FDX) (CY3 + s.e31.FDX)
      (buffer + args.pitch)

/-- The body of the block loops of `fill` for the block with origin `(x, y)`; `dest` is
the offset of the first byte of row `y`. -/
def fillblock (args : ScreenTriangleDrawerArgs) (s : Snapped) (x y dest : Int) :
    List PixelWrite :=
  let x0 := x * 16
  let y0 := y * 16
  let a := blockmask s.e12 x y
  let b := blockmask s.e23 x y
  let c := blockmask s.e31 x y
  if a = 0x0 ∨ b = 0x0 ∨ c = 0x0 then []
  else
    let clipcount := clipcountloop args y 8 x 0
    let buffer := dest
    if a = 0xF ∧ b = 0xF ∧ c = 0xF ∧ clipcount = 0 then
      acceptrows args.pitch x y 8 0 buffer
    else
      partialrows args s x y 8 0 (s.e12.eval x0 y0) (s.e23.eval x0 y0) (s.e31.eval x0 y0) buffer

/-- The loop `for (x = minx; x < maxx; x += q)` of `fill`: `n` iterations left. -/
def blockcols (args : ScreenTriangleDrawerArgs) (s : Snapped) (y dest : Int) :
    Nat → Int → List PixelWrite
  | 0, _ => []
  | n + 1, x => fillblock args s x y dest ++ blockcols args s y dest n (x + 8)

/-- The loop `for (y = miny; y < maxy; y += q) { ...; dest += q * pitch; }` of `fill`:
`n` iterations left. -/
def blockrows (args : ScreenTriangleDrawerArgs) (s : Snapped) (minx maxx : Int) :
    Nat → Int → Int → List PixelWrite
  | 0, _, _ => []
  | n + 1, y, dest =>
    blockcols args s y dest (blockcount minx maxx) minx ++
    blockrows args s minx maxx n (y + 8) (dest + 8 * args.pitch)

/-- The stores made by `ScreenTriangleDrawer::fill`, in program order. -/
def fillwrites (args : ScreenTriangleDrawerArgs) : List PixelWrite :=
  let s := snap args
  let r := boundingrect args s
  if r.minx ≥ r.maxx ∨ r.miny ≥ r.maxy then []
  else
    let minx := alignblock r.minx
    let miny := alignblock r.miny
    let dest := miny * args.pitch
    blockrows args s minx r.maxx (blockcount miny r.maxy) miny dest

/-- The effect of the stores on the framebuffer: each one puts `solidcolor`, converted
to `uint8_t`, at its offset. -/
def store (solidcolor : Int) (fb : Int → Int) (w : PixelWrite) : Int → Int :=
  fun a => if a = w.addr then solidcolor % 256 else fb a

/-- Embeds `ScreenTriangleDrawer::fill`: the framebuffer after the call. -/
def fill (args : ScreenTriangleDrawerArgs) : Int → Int :=
  (fillwrites args).foldl (store args.solidcolor) args.dest

end ScreenTriangleDrawer

namespace ScreenTriangleDrawer

/-- The pixel `(px, py)` lies in one of the 8x8 blocks the loops of `fill` go through:
the bounding rectangle is not empty and the pixel is in the block grid that starts at the
aligned `minx`, `miny` and is stepped while `x < maxx`, `y < maxy`. -/
def Traversed (args : ScreenTriangleDrawerArgs) (px py : Int) : Prop :=
  let r := boundingrect args (snap args)
  r.minx < r.maxx ∧ r.miny < r.maxy ∧
    alignblock r.minx ≤ px ∧
    px < alignblock r.minx + 8 * (blockcount (alignblock r.minx) r.maxx : Int) ∧
    alignblock r.miny ≤ py ∧
    py < alignblock r.miny + 8 * (blockcount (alignblock r.miny) r.maxy : Int)

end ScreenTriangleDrawer

/-- The snapped vertices lie on one line (this includes coinciding vertices). -/
def Snapped.Collinear (s : Snapped) : Prop :=
  (s.X2 - s.X1) * (s.Y3 - s.Y1) = (s.X3 - s.X1) * (s.Y2 - s.Y1)

/-- The argument bundle of the concrete scenarios of the specification: a zeroed
framebuffer with pitch 64, `clipleft = 0`, `cliptop[i] = 0`, `solidcolor = 7`, no texture,
and three screen vertices with integer coordinates and `w = 1`; `clipright` and the
common value of `clipbottom[i]` are parameters. -/
def scenario (x1 y1 x2 y2 x3 y3 : Int) (clipright clipbottom : Int) :
    ScreenTriangleDrawerArgs :=
  { dest := fun _ => 0
    pitch := 64
    v1 := vert4 x1 y1 0 1
    v2 := vert4 x2 y2 0 1
    v3 := vert4 x3 y3 0 1
    clipleft := 0
    clipright := clipright
    cliptop := fun _ => 0
    clipbottom := fun _ => clipbottom
    texturePixels := fun _ => 0
    textureWidth := 0
    textureHeight := 0
    solidcolor := 7 }

namespace ScreenTriangleDrawer

/-- Conversion of an `int` to `uint32_t`: the value modulo `2^32`. -/
def toUInt32 (v : Int) : Nat := (v % 4294967296).toNat

/-- The texture fraction `(uint32_t)((varying - floor(varying)) * 0x100000000LL)` of
`draw`, in exact arithmetic. -/
def texfrac (varying : ℚ) : Nat := toUInt32 ⌊(varying - ⌊varying⌋) * 4294967296⌋

/-- The texel coordinate `((frac >> 16) * textureSize) >> 16` of `draw`, computed in
`uint32_t` (the `int` texture size is converted to unsigned, the product wraps modulo
`2^32`); it is `upos` for `ufrac`, `textureWidth` and `vpos` for `vfrac`,
`textureHeight`. -/
def texpos (frac : Nat) (textureSize : Int) : Nat :=
  (((frac >>> 16) * toUInt32 textureSize) % 4294967296) >>> 16

/-- The texel index `uvoffset = upos * textureHeight + vpos` of `draw`, computed in
`uint32_t`. -/
def uvoffset (upos vpos : Nat) (textureHeight : Int) : Nat :=
  (upos * toUInt32 textureHeight + vpos) % 4294967296

end ScreenTriangleDrawer

/-- One execution of the store `buffer[ix] = texturePixels[uvoffset]` of `draw`: the
column `x`, the row `y`, the offset `addr = buffer + ix` of the stored byte and the texel
index `uvoffset` that is read. -/
structure TexelWrite where
  x : Int
  y : Int
  addr : Int
  uvoffset : Nat
deriving DecidableEq, Repr

/-- The position part of a texel store. -/
def TexelWrite.pixel (w : TexelWrite) : PixelWrite := { x := w.x, y := w.y, addr := w.addr }

/-- The gradient setup of `draw`: `gradWX`, `gradWY`, `startW` and, per varying,
`gradVaryingX`, `gradVaryingY`, `startVarying`. -/
structure GradientSetup where
  gradWX : ℚ
  gradWY : ℚ
  startW : ℚ
  gradVaryingX : Fin NumVarying → ℚ
  gradVaryingY : Fin NumVarying → ℚ
  startVarying : Fin NumVarying → ℚ

/-- The per-block arrays `varyingTL`, `varyingTR`, `varyingBL`, `varyingBR` of `draw`. -/
structure BlockVaryings where
  varyingTL : Fin NumVarying → ℚ
  varyingTR : Fin NumVarying → ℚ
  varyingBL : Fin NumVarying → ℚ
  varyingBR : Fin NumVarying → ℚ

namespace ScreenTriangleDrawer

section Gradients

variable {α : Type} [Field α]

/-- Embeds `ScreenTriangleDrawer::gradx`, in exact arithmetic. -/
def gradx (x0 y0 x1 y1 x2 y2 c0 c1 c2 : α) : α :=
  let top := (c1 - c2) * (y0 - y2) - (c0 - c2) * (y1 - y2)
  let bottom := (x1 - x2) * (y0 - y2) - (x0 - x2) * (y1 - y2)
  top / bottom

/-- Embeds `ScreenTriangleDrawer::grady`, in exact arithmetic. -/
def grady (x0 y0 x1 y1 x2 y2 c0 c1 c2 : α) : α :=
  let top := (c1 - c2) * (x0 - x2) - (c0 - c2) * (x1 - x2)
  let bottom := -((x1 - x2) * (y0 - y2) - (x0 - x2) * (y1 - y2))
  top / bottom

/-- The plane `c0 + gradx * (x - x0) + grady * (y - y0)` that `draw` builds from the
two gradients, as a function of the point `(x, y)`. -/
def gradplane (x0 y0 x1 y1 x2 y2 c0 c1 c2 x y : α) : α :=
  c0 + gradx x0 y0 x1 y1 x2 y2 c0 c1 c2 * (x - x0) + grady x0 y0 x1 y1 x2 y2 c0 c1 c2 * (y - y0)

end Gradients

/-- The gradient setup of `draw`; `minx`, `miny` are the values after the rounding down
to a multiple of the block size. -/
def gradientsetup (args : ScreenTriangleDrawerArgs) (minx miny : Int) : GradientSetup :=
  let v1 := args.v1
  let v2 := args.v2
  let v3 := args.v3
  let gradWX := gradx v1.x v1.y v2.x v2.y v3.x v3.y v1.w v2.w v3.w
  let gradWY := grady v1.x v1.y v2.x v2.y v3.x v3.y v1.w v2.w v3.w
  let gradVaryingX := fun i => gradx v1.x v1.y v2.x v2.y v3.x v3.y
    (v1.varying i * v1.w) (v2.varying i * v2.w) (v3.varying i * v3.w)
  let gradVaryingY := fun i => grady v1.x v1.y v2.x v2.y v3.x v3.y
    (v1.varying i * v1.w) (v2.varying i * v2.w) (v3.varying i * v3.w)
  { gradWX := gradWX
    gradWY := gradWY
    startW := v1.w + gradWX * ((minx : ℚ) - v1.x) + gradWY * ((miny : ℚ) - v1.y)
    gradVaryingX := gradVaryingX
    gradVaryingY := gradVaryingY
    startVarying := fun i =>
      v1.varying i * v1.w + gradVaryingX i * ((minx : ℚ) - v1.x)
        + gradVaryingY i * ((miny : ℚ) - v1.y) }

/-- The "varying variables for affine block" of `draw` for the block with origin
`(x, y)`. -/
def blockvaryings (g : GradientSetup) (minx miny x y : Int) : BlockVaryings :=
  let offx0 : ℚ := ((x - minx : Int) : ℚ) + 1 / 2
  let offy0 : ℚ := ((y - miny : Int) : ℚ) + 1 / 2
  let offx1 : ℚ := offx0 + 8
  let offy1 : ℚ := offy0 + 8
  let rcpWTL := 1 / (g.startW + offx0 * g.gradWX + offy0 * g.gradWY)
  let rcpWTR := 1 / (g.startW + offx1 * g.gradWX + offy0 * g.gradWY)
  let rcpWBL := 1 / (g.startW + offx0 * g.gradWX + offy1 * g.gradWY)
  let rcpWBR := 1 / (g.startW + offx1 * g.gradWX + offy1 * g.gradWY)
  let varyingTL := fun i =>
    (g.startVarying i + offx0 * g.gradVaryingX i + offy0 * g.gradVaryingY i) * rcpWTL
  let varyingTR := fun i =>
    (g.startVarying i + offx1 * g.gradVaryingX i + offy0 * g.gradVaryingY i) * rcpWTR
  { varyingTL := varyingTL
    varyingTR := varyingTR
    varyingBL := fun i =>
      ((g.startVarying i + offx0 * g.gradVaryingX i + offy1 * g.gradVaryingY i) * rcpWBL
        - varyingTL i) * (1 / 8)
    varyingBR := fun i =>
      ((g.startVarying i + offx1 * g.gradVaryingX i + offy1 * g.gradVaryingY i) * rcpWBR
        - varyingTR i) * (1 / 8) }

/-- The row start `varying[i] = varyingTL[i] + varyingBL[i] * iy` of `draw`. -/
def rowvarying (b : BlockVaryings) (iy : Int) : Fin NumVarying → ℚ :=
  fun i => b.varyingTL i + b.varyingBL i * (iy : ℚ)

/-- The row step `varyingStep[i] = (varyingTR[i] + varyingBR[i] * iy - varying[i]) *
(1.0f / q)` of `draw`. -/
def rowvaryingstep (b : BlockVaryings) (iy : Int) : Fin NumVarying → ℚ :=
  fun i => (b.varyingTR i + b.varyingBR i * (iy : ℚ) - rowvarying b iy i) * (1 / 8)

/-- The texture sampling of `draw`: `ufrac`, `vfrac` from `varying[0]`, `varying[1]`,
then `upos`, `vpos` and `uvoffset`. -/
def texel (args : ScreenTriangleDrawerArgs) (varying : Fin NumVarying → ℚ) : Nat :=
  let ufrac := texfrac (varying ⟨0, by decide⟩)
  let vfrac := texfrac (varying ⟨1, by decide⟩)
  let upos := texpos ufrac args.textureWidth
  let vpos := texpos vfrac args.textureHeight
  uvoffset upos vpos args.textureHeight

/-- Inner loop of the fully covered block of `draw`. -/
def drawacceptcols (args : ScreenTriangleDrawerArgs) (row buffer : Int)
    (varyingStep : Fin NumVarying → ℚ) : Nat → Int → (Fin NumVarying → ℚ) → List TexelWrite
  | 0, _, _ => []
  | n + 1, ix, varying =>
    { x := ix, y := row, addr := buffer + ix, uvoffset := texel args varying } ::
      drawacceptcols args row buffer varyingStep n (ix + 1) (fun i => varying i + varyingStep i)

/-- Outer loop of the fully covered block of `draw`. -/
def drawacceptrows (args : ScreenTriangleDrawerArgs) (b : BlockVaryings) (x y : Int) :
    Nat → Int → Int → List TexelWrite
  | 0, _, _ => []
  | n + 1, iy, buffer =>
    drawacceptcols args (y + iy) buffer (rowvaryingstep b iy) 8 x (rowvarying b iy) ++
      drawacceptrows args b x y n (iy + 1) (buffer + args.pitch)

/-- Inner loop of the partially covered block of `draw`. -/
def drawpartialcols (args : ScreenTriangleDrawerArgs) (s : Snapped) (row buffer : Int)
    (varyingStep : Fin NumVarying → ℚ) :
    Nat → Int → Int → Int → Int → (Fin NumVarying → ℚ) → List TexelWrite
  | 0, _, _, _, _, _ => []
  | n + 1, ix, CX1, CX2, CX3, varying =>
    (if CX1 > 0 ∧ CX2 > 0 ∧ CX3 > 0 ∧ Visible args ix row then
      [{ x := ix, y := row, addr := buffer + ix, uvoffset := texel args varying }] else []) ++
    drawpartialcols args s row buffer varyingStep n (ix + 1) (CX1 - s.e12.FDY)
      (CX2 - s.e23.FDY) (CX3 - s.e31.FDY) (fun i => varying i + varyingStep i)

/-- Outer loop of the partially covered block of `draw`. -/
def drawpartialrows (args : ScreenTriangleDrawerArgs) (s : Snapped) (b : BlockVaryings)
    (x y : Int) : Nat → Int → Int → Int → Int → Int → List TexelWrite
  | 0, _, _, _, _, _ => []
  | n + 1, iy, CY1, CY2, CY3, buffer =>
    drawpartialcols args s (y + iy) buffer (rowvaryingstep b iy) 8 x CY1 CY2 CY3
      (rowvarying b iy) ++
    drawpartialrows args s b x y n (iy + 1) (CY1 + s.e12.FDX) (CY2 + s.e23.FDX)
      (CY3 + s.e31.FDX) (buffer + args.pitch)

/-- The body of the block loops of `draw` for the block with origin `(x, y)`. -/
def drawblock (args : ScreenTriangleDrawerArgs) (s : Snapped) (g : GradientSetup)
    (minx miny x y dest : Int) : List TexelWrite :=
  let x0 := x * 16
  let y0 := y * 16
  let a := blockmask s.e12 x y
  let b := blockmask s.e23 x y
  let c := blockmask s.e31 x y
  if a = 0x0 ∨ b = 0x0 ∨ c = 0x0 then []
  else
    let clipcount := clipcountloop args y 8 x 0
    let bv := blockvaryings g minx miny x y
    let buffer := dest
    if a = 0xF ∧ b = 0xF ∧ c = 0xF ∧ clipcount = 0 then
      drawacceptrows args bv x y 8 0 buffer
    else
      drawpartialrows args s bv x y 8 0 (s.e12.eval x0 y0) (s.e23.eval x0 y0)
        (s.e31.eval x0 y0) buffer

/-- The loop `for (x = minx; x < maxx; x += q)` of `draw`. -/
def drawblockcols (args : ScreenTriangleDrawerArgs) (s : Snapped) (g : GradientSetup)
    (minx miny y dest : Int) : Nat → Int → List TexelWrite
  | 0, _ => []
  | n + 1, x =>
    drawblock args s g minx miny x y dest ++ drawblockcols args s g minx miny y dest n (x + 8)

/-- The loop `for (y = miny; y < maxy; y += q) { ...; dest += q * pitch; }` of `draw`. -/
def drawblockrows (args : ScreenTriangleDrawerArgs) (s : Snapped) (g : GradientSetup)
    (minx maxx miny : Int) : Nat → Int → Int → List TexelWrite
  | 0, _, _ => []
  | n + 1, y, dest =>
    drawblockcols args s g minx miny y dest (blockcount minx maxx) minx ++
    drawblockrows args s g minx maxx miny n (y + 8) (dest + 8 * args.pitch)

/-- The stores made by `ScreenTriangleDrawer::draw`, in program order. -/
def drawwrites (args : ScreenTriangleDrawerArgs) : List TexelWrite :=
  let s := snap args
  let r := boundingrect args s
  if r.minx ≥ r.maxx ∨ r.miny ≥ r.maxy then []
  else
    let minx := alignblock r.minx
    let miny := alignblock r.miny
    let dest := miny * args.pitch
    let g := gradientsetup args minx miny
    drawblockrows args s g minx r.maxx miny (blockcount miny r.maxy) miny dest

/-- The effect of a texel store on the framebuffer. -/
def storetexel (texturePixels : Int → Int) (fb : Int → Int) (w : TexelWrite) : Int → Int :=
  fun a => if a = w.addr then texturePixels w.uvoffset else fb a

/-- Embeds `ScreenTriangleDrawer::draw`: the framebuffer after the call. -/
def draw (args : ScreenTriangleDrawerArgs) : Int → Int :=
  (drawwrites args).foldl (storetexel args.texturePixels) args.dest

end ScreenTriangleDrawer

namespace TriangleDrawer

/-- The argument bundle `draw_any` fills in before the fan loops; the globals
`dc_destorg` (the framebuffer, here its current content) and `dc_pitch` are parameters,
the texture is `none` for a null `texture` pointer and otherwise gives `GetWidth()`,
`GetHeight()` and `GetPixels()`. The three vertex fields are set by the fan loops. -/
def drawargs (dc_destorg : Int → Int) (dc_pitch : Int) (clipleft clipright : Int)
    (cliptop clipbottom : Int → Int) (texture : Option (Int × Int × (Int → Int)))
    (solidcolor : Int) (v1 v2 v3 : TriVertex ℚ) : ScreenTriangleDrawerArgs :=
  { dest := dc_destorg
    pitch := dc_pitch
    v1 := v1
    v2 := v2
    v3 := v3
    clipleft := clipleft
    clipright := clipright
    cliptop := cliptop
    clipbottom := clipbottom
    textureWidth := match texture with
      | some t => t.1
      | none => 0
    textureHeight := match texture with
      | some t => t.2.1
      | none => 0
    texturePixels := match texture with
      | some t => t.2.2
      | none => fun _ => 0
    solidcolor := solidcolor }

/-- The loop `for (int i = numclipvert; i > 1; i--)` of `draw_any` (the `ccw` branch):
`n` iterations left, `i` the loop variable, `fb` the framebuffer content so far; each
iteration calls `drawfunc` on `clippedvert[numclipvert - 1]`, `clippedvert[i - 1]`,
`clippedvert[i - 2]`. -/
def fanccw (drawfunc : ScreenTriangleDrawerArgs → Int → Int)
    (mkargs : (Int → Int) → TriVertex ℚ → TriVertex ℚ → TriVertex ℚ → ScreenTriangleDrawerArgs)
    (clippedvert : List (TriVertex ℚ)) : Nat → Nat → (Int → Int) → Int → Int
  | 0, _, fb => fb
  | n + 1, i, fb =>
    fanccw drawfunc mkargs clippedvert n (i - 1)
      (drawfunc (mkargs fb (clippedvert.getD (clippedvert.length - 1) (vert4 0 0 0 0))
        (clippedvert.getD (i - 1) (vert4 0 0 0 0)) (clippedvert.getD (i - 2) (vert4 0 0 0 0))))

/-- The loop `for (int i = 2; i < numclipvert; i++)` of `draw_any` (the other branch):
each iteration calls `drawfunc` on `clippedvert[0]`, `clippedvert[i - 1]`,
`clippedvert[i]`. -/
def fancw (drawfunc : ScreenTriangleDrawerArgs → Int → Int)
    (mkargs : (Int → Int) → TriVertex ℚ → TriVertex ℚ → TriVertex ℚ → ScreenTriangleDrawerArgs)
    (clippedvert : List (TriVertex ℚ)) : Nat → Nat → (Int → Int) → Int → Int
  | 0, _, fb => fb
  | n + 1, i, fb =>
    fancw drawfunc mkargs clippedvert n (i + 1)
      (drawfunc (mkargs fb (clippedvert.getD 0 (vert4 0 0 0 0))
        (clippedvert.getD (i - 1) (vert4 0 0 0 0)) (clippedvert.getD i (vert4 0 0 0 0))))

/-- The body of the triangle loop of `draw_any` for the input vertices `vin0, vin1,
vin2`: vertex shader, clip stage, viewport loop and the fan loop selected by `ccw`. -/
def drawtriangle (view : ViewState ℚ) (dc_pitch : Int) (objectToWorld : TriMatrix ℚ)
    (ccw : Bool) (clipleft clipright : Int) (cliptop clipbottom : Int → Int)
    (texture : Option (Int × Int × (Int → Int))) (solidcolor : Int)
    (drawfunc : ScreenTriangleDrawerArgs → Int → Int)
    (vin0 vin1 vin2 : TriVertex ℚ) (fb : Int → Int) : Int → Int :=
  let clippedvert := screenverts objectToWorld view vin0 vin1 vin2
  let numclipvert := clippedvert.length
  let mkargs := fun dest v1 v2 v3 =>
    drawargs dest dc_pitch clipleft clipright cliptop clipbottom texture solidcolor v1 v2 v3
  if ccw then
    fanccw drawfunc mkargs clippedvert (numclipvert - 1) numclipvert fb
  else
    fancw drawfunc mkargs clippedvert (numclipvert - 2) 2 fb

/-- The loop `for (int i = 0; i < vcount / 3; i++)` of `draw_any`: `n` triangles left,
`vinput` the vertices not yet read (the loop ends early when fewer than three are
left, where the code would read past the array). -/
def drawloop (view : ViewState ℚ) (dc_pitch : Int) (objectToWorld : TriMatrix ℚ)
    (ccw : Bool) (clipleft clipright : Int) (cliptop clipbottom : Int → Int)
    (texture : Option (Int × Int × (Int → Int))) (solidcolor : Int)
    (drawfunc : ScreenTriangleDrawerArgs → Int → Int) :
    Nat → List (TriVertex ℚ) → (Int → Int) → Int → Int
  | n + 1, vin0 :: vin1 :: vin2 :: rest, fb =>
    drawloop view dc_pitch objectToWorld ccw clipleft clipright cliptop clipbottom texture
      solidcolor drawfunc n rest
      (drawtriangle view dc_pitch objectToWorld ccw clipleft clipright cliptop clipbottom
        texture solidcolor drawfunc vin0 vin1 vin2 fb)
  | _, _, fb => fb

/-- Embeds `TriangleDrawer::draw_any`: the framebuffer after the call, `dc_destorg`
being its content before. -/
def draw_any (view : ViewState ℚ) (dc_destorg : Int → Int) (dc_pitch : Int)
    (objectToWorld : TriMatrix ℚ) (vinput : List (TriVertex ℚ)) (vcount : Nat) (ccw : Bool)
    (clipleft clipright : Int) (cliptop clipbottom : Int → Int)
    (texture : Option (Int × Int × (Int → Int))) (solidcolor : Int)
    (drawfunc : ScreenTriangleDrawerArgs → Int → Int) : Int → Int :=
  drawloop view dc_pitch objectToWorld ccw clipleft clipright cliptop clipbottom texture
    solidcolor drawfunc (vcount / 3) vinput dc_destorg

/-- Embeds `TriangleDrawer::fill`. -/
def fill (view : ViewState ℚ) (dc_destorg : Int → Int) (dc_pitch : Int)
    (objectToWorld : TriMatrix ℚ) (vinput : List (TriVertex ℚ)) (vcount : Nat) (ccw : Bool)
    (clipleft clipright : Int) (cliptop clipbottom : Int → Int) (solidcolor : Int) :
    Int → Int :=
  draw_any view dc_destorg dc_pitch objectToWorld vinput vcount ccw clipleft clipright
    cliptop clipbottom none solidcolor ScreenTriangleDrawer.fill

/-- Embeds `TriangleDrawer::draw`. -/
def draw (view : ViewState ℚ) (dc_destorg : Int → Int) (dc_pitch : Int)
    (objectToWorld : TriMatrix ℚ) (vinput : List (TriVertex ℚ)) (vcount : Nat) (ccw : Bool)
    (clipleft clipright : Int) (cliptop clipbottom : Int → Int)
    (texture : Int × Int × (Int → Int)) : Int → Int :=
  draw_any view dc_destorg dc_pitch objectToWorld vinput vcount ccw clipleft clipright
    cliptop clipbottom (some texture) 0 ScreenTriangleDrawer.draw

end TriangleDrawer

/-- The view state of the concrete evaluations of the pipeline: the viewer at the
origin looking along the world `y` axis (`ViewSin = ViewTanSin = 1`,
`ViewCos = ViewTanCos = 0`), `CenterX = 32`, `CenterY = 24`, `InvZtoScale = 385/32`. -/
def exampleview : ViewState ℚ :=
  { ViewPosX := 0
    ViewPosY := 0
    ViewPosZ := 0
    ViewSin := 1
    ViewCos := 0
    ViewTanCos := 0
    ViewTanSin := 1
    CenterX := 32
    CenterY := 24
    InvZtoScale := 385 / 32 }

/-- First vertex of the triangle used to compare the two fan loops of `draw_any` on a
clipped triangle (world coordinates, to be viewed through `exampleview`). -/
def fanA : TriVertex ℚ := vert4 12320 49280 (-97536) 1

/-- Second vertex of that triangle; it projects below the bottom clip plane `y = -w`. -/
def fanB : TriVertex ℚ := vert4 (-6545) 49280 (-99328) 1

/-- Third vertex of that triangle. -/
def fanC : TriVertex ℚ := vert4 385 49280 (-98464) 1

/-- One read of a clip array by the rasterizer: `cliptop[index]` when `bottom` is
false, `clipbottom[index]` when it is true. -/
structure ClipRead where
  bottom : Bool
  index : Int
deriving DecidableEq, Repr

namespace ScreenTriangleDrawer

/-- The reads of the loop `for (i = clipleft + 1; i <= clipright; i++)` of the bounding
rectangle computation: each iteration reads `cliptop[i]` and `clipbottom[i]`; `n` is the
number of iterations left, as in `clipscan`. -/
def clipscanreads : Nat → Int → List ClipRead
  | 0, _ => []
  | n + 1, i => { bottom := false, index := i } :: { bottom := true, index := i } ::
      clipscanreads n (i + 1)

/-- The reads of the bounding rectangle computation: `cliptop[clipleft]` and
`clipbottom[clipleft]` for the initial `clipymin`, `clipymax`, then the loop. -/
def boundingreads (args : ScreenTriangleDrawerArgs) : List ClipRead :=
  { bottom := false, index := args.clipleft } :: { bottom := true, index := args.clipleft } ::
    clipscanreads (args.clipright - args.clipleft).toNat (args.clipleft + 1)

/-- The reads of one evaluation of `(clipleft > ix) || (clipright < ix) ||
(cliptop[ix] > y) || (clipbottom[ix] <= y + q - 1)`: an operand of `||` is evaluated
only when the operands before it are false. -/
def clipcounttestreads (args : ScreenTriangleDrawerArgs) (y ix : Int) : List ClipRead :=
  if args.clipleft > ix then []
  else if args.clipright < ix then []
  else if args.cliptop ix > y then [{ bottom := false, index := ix }]
  else [{ bottom := false, index := ix }, { bottom := true, index := ix }]

/-- The reads of the `clipcount` loop `for (ix = x; ix < x + q; ix++)`: `n` iterations
left, as in `clipcountloop`. -/
def clipcountreads (args : ScreenTriangleDrawerArgs) (y : Int) : Nat → Int → List ClipRead
  | 0, _ => []
  | n + 1, ix => clipcounttestreads args y ix ++ clipcountreads args y n (ix + 1)

/-- The reads of one evaluation of `visible = ix >= clipleft && ix <= clipright &&
(cliptop[ix] <= y + iy) && (clipbottom[ix] > y + iy)`: an operand of `&&` is evaluated
only when the operands before it are true. -/
def visiblereads (args : ScreenTriangleDrawerArgs) (ix row : Int) : List ClipRead :=
  if ix ≥ args.clipleft then
    if ix ≤ args.clipright then
      if args.cliptop ix ≤ row then
        [{ bottom := false, index := ix }, { bottom := true, index := ix }]
      else [{ bottom := false, index := ix }]
    else []
  else []

/-- The reads of the inner loop of the partially covered block: `visible` is computed
for every pixel of the row, before the coverage test. -/
def partialcolsreads (args : ScreenTriangleDrawerArgs) (row : Int) : Nat → Int → List ClipRead
  | 0, _ => []
  | n + 1, ix => visiblereads args ix row ++ partialcolsreads args row n (ix + 1)

/-- The reads of the outer loop of the partially covered block. -/
def partialrowsreads (args : ScreenTriangleDrawerArgs) (x y : Int) : Nat → Int → List ClipRead
  | 0, _ => []
  | n + 1, iy => partialcolsreads args (y + iy) 8 x ++ partialrowsreads args x y n (iy + 1)

/-- The reads of the body of the block loops of `fill` for the block with origin
`(x, y)`: none when the block is skipped, else the `clipcount` loop, followed by the
reads of the partially covered block when the block is not accepted as a whole (the
fully covered block reads no clip array). -/
def fillblockreads (args : ScreenTriangleDrawerArgs) (s : Snapped) (x y : Int) :
    List ClipRead :=
  let a := blockmask s.e12 x y
  let b := blockmask s.e23 x y
  let c := blockmask s.e31 x y
  if a = 0x0 ∨ b = 0x0 ∨ c = 0x0 then []
  else
    let clipcount := clipcountloop args y 8 x 0
    clipcountreads args y 8 x ++
      if a = 0xF ∧ b = 0xF ∧ c = 0xF ∧ clipcount = 0 then []
      else partialrowsreads args x y 8 0

/-- The reads of the loop `for (x = minx; x < maxx; x += q)` of `fill`. -/
def blockcolsreads (args : ScreenTriangleDrawerArgs) (s : Snapped) (y : Int) :
    Nat → Int → List ClipRead
  | 0, _ => []
  | n + 1, x => fillblockreads args s x y ++ blockcolsreads args s y n (x + 8)

/-- The reads of the loop `for (y = miny; y < maxy; y += q)` of `fill`. -/
def blockrowsreads (args : ScreenTriangleDrawerArgs) (s : Snapped) (minx maxx : Int) :
    Nat → Int → List ClipRead
  | 0, _ => []
  | n + 1, y =>
    blockcolsreads args s y (blockcount minx maxx) minx ++
      blockrowsreads args s minx maxx n (y + 8)

/-- The reads of `cliptop` and `clipbottom` made by `ScreenTriangleDrawer::fill`, in
program order: the bounding rectangle computation, then, unless the function returns
early, the block loops. -/
def fillreads (args : ScreenTriangleDrawerArgs) : List ClipRead :=
  let s := snap args
  let r := boundingrect args s
  boundingreads args ++
    if r.minx ≥ r.maxx ∨ r.miny ≥ r.maxy then []
    else
      let minx := alignblock r.minx
      let miny := alignblock r.miny
      blockrowsreads args s minx r.maxx (blockcount miny r.maxy) miny

end ScreenTriangleDrawer

/-! Part 2: theorems. -/

open TriangleDrawer

namespace TriangleDrawer
variable {α : Type} [LinearOrderedField α]

theorem distAt_between (c1 c2 t1 t2 s : α) (h1 : t1 ≤ s) (h2 : s ≤ t2)
    (hd1 : 0 ≤ distAt c1 c2 t1) (hd2 : 0 ≤ distAt c1 c2 t2) : 0 ≤ distAt c1 c2 s := by
  unfold distAt at *
  rcases eq_or_lt_of_le (le_trans h1 h2) with h | h
  · have : s = t1 := le_antisymm (h ▸ h2) h1
    subst this; exact hd1
  · have key : (c1 * (1 - s) + c2 * s) * (t2 - t1)
        = (c1 * (1 - t1) + c2 * t1) * (t2 - s) + (c1 * (1 - t2) + c2 * t2) * (s - t1) := by ring
    have hpos : 0 < t2 - t1 := sub_pos.mpr h
    have hr : 0 ≤ (c1 * (1 - s) + c2 * s) * (t2 - t1) := by
      rw [key]
      exact add_nonneg (mul_nonneg hd1 (sub_nonneg.mpr h2)) (mul_nonneg hd2 (sub_nonneg.mpr h1))
    exact nonneg_of_mul_nonneg_left hr hpos

theorem cullhalfspace_spec (c1 c2 t1 t2 t1' t2' : α) (h12 : t1 ≤ t2)
    (h : cullhalfspace c1 c2 t1 t2 = (false, t1', t2')) :
    t1 ≤ t1' ∧ t1' ≤ t2' ∧ t2' ≤ t2 ∧ 0 ≤ distAt c1 c2 t1' ∧ 0 ≤ distAt c1 c2 t2' := by
  unfold distAt
  by_cases ha : c1 * (1 - t1) + c2 * t1 < 0
  · by_cases hb : c1 * (1 - t2) + c2 * t2 < 0
    · simp [cullhalfspace, ha, hb] at h
    · -- d1 < 0 ≤ d2
      simp only [cullhalfspace, ha, hb, and_false, if_false, if_true, Prod.mk.injEq,
        true_and] at h
      obtain ⟨h1, h2⟩ := h
      subst h2
      have hd2 : 0 ≤ c1 * (1 - t2) + c2 * t2 := not_lt.mp hb
      have hpos : 0 < c2 - c1 := by
        by_contra hn
        have hn' : c2 - c1 ≤ 0 := not_lt.mp hn
        nlinarith
      have hstar1 : t1 < -c1 / (c2 - c1) := by
        rw [lt_div_iff₀ hpos]; nlinarith
      have hstar2 : -c1 / (c2 - c1) ≤ t2 := by
        rw [div_le_iff₀ hpos]; nlinarith
      have hmax : max (-c1 / (c2 - c1)) t1 = -c1 / (c2 - c1) := max_eq_left hstar1.le
      rw [hmax] at h1
      subst h1
      refine ⟨hstar1.le, hstar2, le_refl _, ?_, hd2⟩
      have : c1 * (1 - -c1 / (c2 - c1)) + c2 * (-c1 / (c2 - c1)) = 0 := by
        field_simp; ring
      rw [this]
  · by_cases hb : c1 * (1 - t2) + c2 * t2 < 0
    · -- d2 < 0 ≤ d1
      simp only [cullhalfspace, ha, hb, false_and, if_false, if_true, Prod.mk.injEq,
        true_and] at h
      obtain ⟨h1, h2⟩ := h
      subst h1
      have hd1 : 0 ≤ c1 * (1 - t1) + c2 * t1 := not_lt.mp ha
      have hpos : 0 < c1 - c2 := by
        by_contra hn
        have hn' : c1 - c2 ≤ 0 := not_lt.mp hn
        nlinarith
      have hstar1 : t1 ≤ 1 + c2 / (c1 - c2) := by
        have : t1 - 1 ≤ c2 / (c1 - c2) := by
          rw [le_div_iff₀ hpos]; nlinarith
        linarith
      have hstar2 : 1 + c2 / (c1 - c2) < t2 := by
        have : c2 / (c1 - c2) < t2 - 1 := by
          rw [div_lt_iff₀ hpos]; nlinarith
        linarith
      have hmin : min (1 + c2 / (c1 - c2)) t2 = 1 + c2 / (c1 - c2) := min_eq_left hstar2.le
      rw [hmin] at h2
      subst h2
      refine ⟨le_refl _, hstar1, hstar2.le, hd1, ?_⟩
      have : c1 * (1 - (1 + c2 / (c1 - c2))) + c2 * (1 + c2 / (c1 - c2)) = 0 := by
        field_simp; ring
      rw [this]
    · simp only [cullhalfspace, ha, hb, and_false, if_false, Prod.mk.injEq,
        true_and] at h
      obtain ⟨h1, h2⟩ := h
      subst h1; subst h2
      exact ⟨le_refl _, h12, le_refl _, not_lt.mp ha, not_lt.mp hb⟩

theorem intervalOk_start : IntervalOk ([] : List (α × α)) (some (0, 1)) := by
  intro t1 t2 h
  simp only [Option.some.injEq, Prod.mk.injEq] at h
  obtain ⟨h1, h2⟩ := h
  subst h1; subst h2
  simp

theorem cullstep_ok (c1 c2 : α) (planes : List (α × α)) (st : Option (α × α))
    (h : IntervalOk planes st) : IntervalOk ((c1, c2) :: planes) (cullstep c1 c2 st) := by
  intro t1' t2' hst
  cases st with
  | none => simp [cullstep] at hst
  | some p =>
    obtain ⟨t1, t2⟩ := p
    obtain ⟨h0, h12, h1, hp⟩ := h t1 t2 rfl
    rcases hc : cullhalfspace c1 c2 t1 t2 with ⟨b, s1, s2⟩
    cases b with
    | true => simp [cullstep, hc] at hst
    | false =>
      simp only [cullstep, hc, Option.some.injEq, Prod.mk.injEq] at hst
      obtain ⟨e1, e2⟩ := hst
      subst e1; subst e2
      obtain ⟨g1, g2, g3, g4, g5⟩ := cullhalfspace_spec c1 c2 t1 t2 s1 s2 h12 hc
      refine ⟨le_trans h0 g1, g2, le_trans g3 h1, ?_⟩
      intro p hmem
      rcases List.mem_cons.mp hmem with e | hmem
      · subst e; exact ⟨g4, g5⟩
      · obtain ⟨q1, q2⟩ := hp p hmem
        exact ⟨distAt_between _ _ t1 t2 s1 g1 (le_trans g2 g3) q1 q2,
          distAt_between _ _ t1 t2 s2 (le_trans g1 g2) g3 q1 q2⟩

theorem cullall_ok (v1 v2 : TriVertex α) (t1 t2 : α) (h : cullall v1 v2 = some (t1, t2)) :
    0 ≤ t1 ∧ t1 ≤ t2 ∧ t2 ≤ 1 ∧
      ∀ p ∈ clipplanes v1 v2, 0 ≤ distAt p.1 p.2 t1 ∧ 0 ≤ distAt p.1 p.2 t2 := by
  have h6 := cullstep_ok (v1.w - v1.z) (v2.w - v2.z) _ _
    (cullstep_ok (v1.z + v1.w) (v2.z + v2.w) _ _
      (cullstep_ok (v1.w - v1.y) (v2.w - v2.y) _ _
        (cullstep_ok (v1.y + v1.w) (v2.y + v2.w) _ _
          (cullstep_ok (v1.w - v1.x) (v2.w - v2.x) _ _
            (cullstep_ok (v1.x + v1.w) (v2.x + v2.w) _ _ intervalOk_start)))))
  obtain ⟨a, b, c, d⟩ := h6 t1 t2 h
  refine ⟨a, b, c, ?_⟩
  intro p hp
  apply d
  simp only [clipplanes, List.mem_cons, List.mem_singleton, List.not_mem_nil, or_false] at hp
  simp only [List.mem_cons, List.mem_singleton, List.not_mem_nil, or_false]
  tauto

theorem lerpvert_inClipVolume (v1 v2 : TriVertex α) (t : α)
    (h : ∀ p ∈ clipplanes v1 v2, 0 ≤ distAt p.1 p.2 t) : InClipVolume (lerpvert v1 v2 t) := by
  have hx1 := h (v1.x + v1.w, v2.x + v2.w) (by simp [clipplanes])
  have hx2 := h (v1.w - v1.x, v2.w - v2.x) (by simp [clipplanes])
  have hy1 := h (v1.y + v1.w, v2.y + v2.w) (by simp [clipplanes])
  have hy2 := h (v1.w - v1.y, v2.w - v2.y) (by simp [clipplanes])
  have hz1 := h (v1.z + v1.w, v2.z + v2.w) (by simp [clipplanes])
  have hz2 := h (v1.w - v1.z, v2.w - v2.z) (by simp [clipplanes])
  simp only [distAt] at hx1 hx2 hy1 hy2 hz1 hz2
  simp only [InClipVolume, lerpvert]
  refine ⟨?_, ?_, ?_, ?_, ?_, ?_⟩ <;> linarith

theorem lerpvert_zero (v1 v2 : TriVertex α) : lerpvert v1 v2 0 = v1 := by
  cases v1
  simp [lerpvert]

/-- What one `clipedge` call appends: nothing when culled, otherwise the vertex at `t1`
(`v1` itself when `t1 = 0`) followed by the vertex at `t2` unless `t2 = 1`. -/
theorem clipedge_eq_append (v1 v2 : TriVertex α) (clippedvert : List (TriVertex α)) :
    clipedge v1 v2 clippedvert = clippedvert ++ clipedge v1 v2 [] := by
  unfold clipedge
  cases cullall v1 v2 with
  | none => simp
  | some p =>
    obtain ⟨t1, t2⟩ := p
    by_cases h2 : t2 = 1 <;> simp [h2]

theorem clipedge_nil_mem (v1 v2 v : TriVertex α) (hv : v ∈ clipedge v1 v2 []) :
    ∃ t1 t2 t, cullall v1 v2 = some (t1, t2) ∧ (t = t1 ∨ t = t2) ∧ v = lerpvert v1 v2 t := by
  unfold clipedge at hv
  cases hc : cullall v1 v2 with
  | none => simp [hc] at hv
  | some p =>
    obtain ⟨t1, t2⟩ := p
    simp only [hc] at hv
    have h1 : (if t1 = 0 then v1 else lerpvert v1 v2 t1) = lerpvert v1 v2 t1 := by
      by_cases h0 : t1 = 0
      · simp [h0, lerpvert_zero]
      · simp [h0]
    rw [h1] at hv
    by_cases h2 : t2 = 1
    · simp only [h2, ne_eq, not_true_eq_false, if_false, List.nil_append,
        List.mem_singleton] at hv
      exact ⟨t1, t2, t1, rfl, Or.inl rfl, hv⟩
    · simp only [h2, ne_eq, not_false_eq_true, if_true, List.nil_append, List.mem_append,
        List.mem_singleton] at hv
      rcases hv with hv | hv
      · exact ⟨t1, t2, t1, rfl, Or.inl rfl, hv⟩
      · exact ⟨t1, t2, t2, rfl, Or.inr rfl, hv⟩

theorem clipedge_nil_inClipVolume (v1 v2 v : TriVertex α) (hv : v ∈ clipedge v1 v2 []) :
    InClipVolume v := by
  obtain ⟨t1, t2, t, hc, ht, rfl⟩ := clipedge_nil_mem v1 v2 v hv
  obtain ⟨_, _, _, hp⟩ := cullall_ok v1 v2 t1 t2 hc
  apply lerpvert_inClipVolume
  intro p hmem
  rcases ht with e | e
  · subst e; exact (hp p hmem).1
  · subst e; exact (hp p hmem).2

theorem clipedge_nil_length_le (v1 v2 : TriVertex α) : (clipedge v1 v2 []).length ≤ 2 := by
  unfold clipedge
  cases cullall v1 v2 with
  | none => simp
  | some p =>
    obtain ⟨t1, t2⟩ := p
    by_cases h2 : t2 = 1 <;> simp [h2]

/-- C1 (clip closure): one `clipedge` call leaves the vertices already in `clippedvert`
in place and appends at most two vertices, each of which satisfies `-w ≤ x ≤ w`,
`-w ≤ y ≤ w` and `-w ≤ z ≤ w`; when it appends nothing the output is the input. -/
theorem clipedge_clip_closure (v1 v2 : TriVertex α) (clippedvert : List (TriVertex α)) :
    ∃ added : List (TriVertex α),
      clipedge v1 v2 clippedvert = clippedvert ++ added ∧ added.length ≤ 2 ∧
      (∀ v ∈ added, InClipVolume v) ∧
      (added = [] → clipedge v1 v2 clippedvert = clippedvert) := by
  refine ⟨clipedge v1 v2 [], clipedge_eq_append v1 v2 clippedvert,
    clipedge_nil_length_le v1 v2, clipedge_nil_inClipVolume v1 v2, ?_⟩
  intro h
  rw [clipedge_eq_append, h, List.append_nil]

theorem cullstep_from_zero (c1 c2 t2 : α) (h : 0 ≤ c1) :
    ∃ t2', cullstep c1 c2 (some (0, t2)) = some (0, t2') := by
  have hd : ¬ (c1 < 0) := not_lt.mpr h
  by_cases hb : c1 * (1 - t2) + c2 * t2 < 0
  · exact ⟨min (1 + c2 / (c1 - c2)) t2, by simp [cullstep, cullhalfspace, hd, hb]⟩
  · exact ⟨t2, by simp [cullstep, cullhalfspace, hd, hb]⟩

theorem cullall_of_inClipVolume (v1 v2 : TriVertex α) (h : InClipVolume v1) :
    ∃ t2, cullall v1 v2 = some (0, t2) := by
  obtain ⟨hx1, hx2, hy1, hy2, hz1, hz2⟩ := h
  unfold cullall
  obtain ⟨a, ha⟩ := cullstep_from_zero (v1.x + v1.w) (v2.x + v2.w) 1 (by linarith)
  rw [ha]
  obtain ⟨b, hb⟩ := cullstep_from_zero (v1.w - v1.x) (v2.w - v2.x) a (by linarith)
  rw [hb]
  obtain ⟨c, hc⟩ := cullstep_from_zero (v1.y + v1.w) (v2.y + v2.w) b (by linarith)
  rw [hc]
  obtain ⟨d, hd⟩ := cullstep_from_zero (v1.w - v1.y) (v2.w - v2.y) c (by linarith)
  rw [hd]
  obtain ⟨e, he⟩ := cullstep_from_zero (v1.z + v1.w) (v2.z + v2.w) d (by linarith)
  rw [he]
  exact cullstep_from_zero (v1.w - v1.z) (v2.w - v2.z) e (by linarith)

theorem inClipVolume_of_cullall_one (v1 v2 : TriVertex α) (t1 : α)
    (h : cullall v1 v2 = some (t1, 1)) : InClipVolume v2 := by
  obtain ⟨_, _, _, hp⟩ := cullall_ok v1 v2 t1 1 h
  have hv := lerpvert_inClipVolume v1 v2 1 (fun p hmem => (hp p hmem).2)
  simpa [InClipVolume, lerpvert] using hv

theorem clipedge_nil_length_pos (v1 v2 : TriVertex α) (h : InClipVolume v1) :
    1 ≤ (clipedge v1 v2 []).length := by
  obtain ⟨t2, ht⟩ := cullall_of_inClipVolume v1 v2 h
  unfold clipedge
  rw [ht]
  by_cases h2 : t2 = 1 <;> simp [h2]

theorem clipedge_nil_length_one (v1 v2 : TriVertex α) (h : (clipedge v1 v2 []).length = 1) :
    InClipVolume v2 := by
  unfold clipedge at h
  cases hc : cullall v1 v2 with
  | none => simp [hc] at h
  | some p =>
    obtain ⟨t1, t2⟩ := p
    by_cases h2 : t2 = 1
    · subst h2; exact inClipVolume_of_cullall_one v1 v2 t1 hc
    · simp [hc, h2] at h

theorem clipstage_length (vert0 vert1 vert2 : TriVertex α) :
    (clipstage vert0 vert1 vert2).length =
      (clipedge vert0 vert1 []).length + (clipedge vert1 vert2 []).length +
        (clipedge vert2 vert0 []).length := by
  unfold clipstage
  rw [clipedge_eq_append vert2 vert0, clipedge_eq_append vert1 vert2]
  simp only [List.length_append]

/-- C9 (as amended): the three `clipedge` calls of the clip stage, started from
`numclipvert = 0`, leave `numclipvert` in `{0, 2, 3, 4, 5, 6}`; it is never 1 and never
exceeds the six entries of `clippedvert`. -/
theorem clipstage_numclipvert (vert0 vert1 vert2 : TriVertex α) :
    (clipstage vert0 vert1 vert2).length = 0 ∨ (clipstage vert0 vert1 vert2).length = 2 ∨
    (clipstage vert0 vert1 vert2).length = 3 ∨ (clipstage vert0 vert1 vert2).length = 4 ∨
    (clipstage vert0 vert1 vert2).length = 5 ∨ (clipstage vert0 vert1 vert2).length = 6 := by
  rw [clipstage_length]
  have a2 := clipedge_nil_length_le vert0 vert1
  have b2 := clipedge_nil_length_le vert1 vert2
  have c2 := clipedge_nil_length_le vert2 vert0
  have ab : (clipedge vert0 vert1 []).length = 1 → 1 ≤ (clipedge vert1 vert2 []).length :=
    fun h => clipedge_nil_length_pos vert1 vert2 (clipedge_nil_length_one vert0 vert1 h)
  have bc : (clipedge vert1 vert2 []).length = 1 → 1 ≤ (clipedge vert2 vert0 []).length :=
    fun h => clipedge_nil_length_pos vert2 vert0 (clipedge_nil_length_one vert1 vert2 h)
  have ca : (clipedge vert2 vert0 []).length = 1 → 1 ≤ (clipedge vert0 vert1 []).length :=
    fun h => clipedge_nil_length_pos vert0 vert1 (clipedge_nil_length_one vert2 vert0 h)
  omega

end TriangleDrawer

section ClipExamples

open TriangleDrawer

theorem cullall_example_cross :
    cullall (vert4 (-2) 0 0 1) (vert4 2 0 0 1) = some (1 / 4, 3 / 4) := by
  norm_num [cullall, cullstep, cullhalfspace, vert4]

theorem cullall_example_miss1 : cullall (vert4 2 0 0 1) (vert4 0 (-100) 0 1) = none := by
  norm_num [cullall, cullstep, cullhalfspace, vert4]

theorem cullall_example_miss2 : cullall (vert4 0 (-100) 0 1) (vert4 (-2) 0 0 1) = none := by
  norm_num [cullall, cullstep, cullhalfspace, vert4]

theorem clipstage_example_length :
    (clipstage (vert4 (-2) 0 0 1) (vert4 2 0 0 1) (vert4 0 (-100) 0 1)).length = 2 := by
  norm_num [clipstage, clipedge, cullall_example_cross, cullall_example_miss1,
    cullall_example_miss2]

/-- C9 (counterexample): for the clip-space triangle `(-2,0,0,1)`, `(2,0,0,1)`,
`(0,-100,0,1)` only the first edge meets the clip volume, entering and leaving it
between its endpoints, so the clip stage ends with `numclipvert = 2`, which is not in
`{0, 3, 4, 5, 6}`. -/
theorem clipstage_numclipvert_two :
    ¬ ((clipstage (vert4 (-2) 0 0 1) (vert4 2 0 0 1) (vert4 0 (-100) 0 1)).length = 0 ∨
       (clipstage (vert4 (-2) 0 0 1) (vert4 2 0 0 1) (vert4 0 (-100) 0 1)).length = 3 ∨
       (clipstage (vert4 (-2) 0 0 1) (vert4 2 0 0 1) (vert4 0 (-100) 0 1)).length = 4 ∨
       (clipstage (vert4 (-2) 0 0 1) (vert4 2 0 0 1) (vert4 0 (-100) 0 1)).length = 5 ∨
       (clipstage (vert4 (-2) 0 0 1) (vert4 2 0 0 1) (vert4 0 (-100) 0 1)).length = 6) := by
  rw [clipstage_example_length]
  decide

end ClipExamples

namespace TriangleDrawer

variable {α : Type} [LinearOrderedField α]

theorem clipstage_mem (vert0 vert1 vert2 v : TriVertex α)
    (hv : v ∈ clipstage vert0 vert1 vert2) :
    v ∈ clipedge vert0 vert1 [] ∨ v ∈ clipedge vert1 vert2 [] ∨ v ∈ clipedge vert2 vert0 [] := by
  unfold clipstage at hv
  rw [clipedge_eq_append vert2 vert0, clipedge_eq_append vert1 vert2] at hv
  simp only [List.mem_append] at hv
  tauto

/-- The relation between `z` and `w` the vertex shader establishes (near 5, far 65536),
cleared of its denominator. -/
theorem vertexshader_zw (objectToWorld : TriMatrix α) (view : ViewState α)
    (vin : TriVertex α) :
    65531 * (vertexshader objectToWorld view vin).z
      = 65541 * (vertexshader objectToWorld view vin).w - 655360 := by
  simp only [vertexshader]
  have h : ((5 : α) - 65536) ≠ 0 := by norm_num
  field_simp
  ring

theorem lerpvert_zw (v1 v2 : TriVertex α) (t : α)
    (h1 : 65531 * v1.z = 65541 * v1.w - 655360) (h2 : 65531 * v2.z = 65541 * v2.w - 655360) :
    65531 * (lerpvert v1 v2 t).z = 65541 * (lerpvert v1 v2 t).w - 655360 := by
  simp only [lerpvert]
  linear_combination (1 - t) * h1 + t * h2

theorem clipedge_nil_w_ge (v1 v2 v : TriVertex α)
    (h1 : 65531 * v1.z = 65541 * v1.w - 655360) (h2 : 65531 * v2.z = 65541 * v2.w - 655360)
    (hv : v ∈ clipedge v1 v2 []) : 5 ≤ v.w := by
  have hin := clipedge_nil_inClipVolume v1 v2 v hv
  obtain ⟨t1, t2, t, _, _, rfl⟩ := clipedge_nil_mem v1 v2 v hv
  have hz := lerpvert_zw v1 v2 t h1 h2
  obtain ⟨_, _, _, _, hz1, _⟩ := hin
  linarith

/-- C10 (positive w after the front end): for every matrix, input triangle and view
state, every vertex left in `clippedvert` by the clip stage of `draw_any` has `w ≥ 5`
(so `w ≠ 0` in the division `1 / w`), and every vertex handed to the rasterizer after
the viewport loop has `w > 0`. -/
theorem draw_any_positive_w (objectToWorld : TriMatrix α) (view : ViewState α)
    (vin0 vin1 vin2 : TriVertex α) :
    (∀ v ∈ clipfrontend objectToWorld view vin0 vin1 vin2, 5 ≤ v.w ∧ v.w ≠ 0) ∧
    (∀ v ∈ screenverts objectToWorld view vin0 vin1 vin2, 0 < v.w) := by
  have key : ∀ v ∈ clipfrontend objectToWorld view vin0 vin1 vin2, 5 ≤ v.w := by
    intro v hv
    have h0 := vertexshader_zw objectToWorld view vin0
    have h1 := vertexshader_zw objectToWorld view vin1
    have h2 := vertexshader_zw objectToWorld view vin2
    rcases clipstage_mem _ _ _ v hv with h | h | h
    · exact clipedge_nil_w_ge _ _ v h0 h1 h
    · exact clipedge_nil_w_ge _ _ v h1 h2 h
    · exact clipedge_nil_w_ge _ _ v h2 h0 h
  constructor
  · intro v hv
    have := key v hv
    exact ⟨this, by intro h0; rw [h0] at this; norm_num at this⟩
  · intro v hv
    simp only [screenverts, List.mem_map] at hv
    obtain ⟨u, hu, rfl⟩ := hv
    have := key u hu
    simp only [viewportmap]
    have hpos : (0 : α) < u.w := by linarith
    positivity

end TriangleDrawer

namespace TriMatrix

variable {α : Type} [CommRing α]

theorem entry_mul (A B : TriMatrix α) (c r : Fin 4) :
    (A.mul B).entry c r =
      A.entry 0 r * B.entry c 0 + A.entry 1 r * B.entry c 1 +
        A.entry 2 r * B.entry c 2 + A.entry 3 r * B.entry c 3 := by
  fin_cases c <;> fin_cases r <;> rfl

/-- C5 (matrix composition is compatible with the vertex transform): `(A * B) * v`
equals `A * (B * v)` for all matrices `A`, `B` and vertices `v` over a commutative ring,
and both sides carry the varyings of `v` unchanged. -/
theorem mul_mulVertex (A B : TriMatrix α) (v : TriVertex α) :
    (A.mul B).mulVertex v = A.mulVertex (B.mulVertex v) ∧
    ((A.mul B).mulVertex v).varying = v.varying ∧
    (A.mulVertex (B.mulVertex v)).varying = v.varying := by
  refine ⟨?_, rfl, rfl⟩
  ext
  · simp only [mulVertex, entry_mul]; ring
  · simp only [mulVertex, entry_mul]; ring
  · simp only [mulVertex, entry_mul]; ring
  · simp only [mulVertex, entry_mul]; ring
  · rfl

end TriMatrix

open ScreenTriangleDrawer

namespace ScreenTriangleDrawer

theorem mem_acceptcols (row buffer : Int) (w : PixelWrite) (n : Nat) (ix : Int) :
    w ∈ acceptcols row buffer n ix ↔
      ∃ j : Nat, j < n ∧ w = { x := ix + j, y := row, addr := buffer + (ix + j) } := by
  induction n generalizing ix with
  | zero => simp [acceptcols]
  | succ n ih =>
    simp only [acceptcols, List.mem_cons, ih]
    constructor
    · rintro (h | ⟨j, hj, h⟩)
      · exact ⟨0, by omega, by simpa using h⟩
      · refine ⟨j + 1, by omega, ?_⟩
        rw [h]; simp only [Nat.cast_add, Nat.cast_one, PixelWrite.mk.injEq]
        refine ⟨by ring, trivial, by ring⟩
    · rintro ⟨j, hj, h⟩
      cases j with
      | zero => left; simpa using h
      | succ j =>
        right
        refine ⟨j, by omega, ?_⟩
        rw [h]; simp only [Nat.cast_add, Nat.cast_one, PixelWrite.mk.injEq]
        refine ⟨by ring, trivial, by ring⟩

theorem mem_acceptrows (pitch x y : Int) (w : PixelWrite) (n : Nat) (iy buffer : Int) :
    w ∈ acceptrows pitch x y n iy buffer ↔
      ∃ i j : Nat, i < n ∧ j < 8 ∧
        w = { x := x + j, y := y + (iy + i), addr := buffer + i * pitch + (x + j) } := by
  induction n generalizing iy buffer with
  | zero => simp [acceptrows]
  | succ n ih =>
    simp only [acceptrows, List.mem_append, ih, mem_acceptcols]
    constructor
    · rintro (⟨j, hj, h⟩ | ⟨i, j, hi, hj, h⟩)
      · exact ⟨0, j, by omega, hj, by rw [h]; simp⟩
      · refine ⟨i + 1, j, by omega, hj, ?_⟩
        rw [h]; simp only [Nat.cast_add, Nat.cast_one, PixelWrite.mk.injEq]
        refine ⟨trivial, by ring, by ring⟩
    · rintro ⟨i, j, hi, hj, h⟩
      cases i with
      | zero => left; exact ⟨j, hj, by rw [h]; simp⟩
      | succ i =>
        right
        refine ⟨i, j, by omega, hj, ?_⟩
        rw [h]; simp only [Nat.cast_add, Nat.cast_one, PixelWrite.mk.injEq]
        refine ⟨trivial, by ring, by ring⟩

theorem mem_partialcols (args : ScreenTriangleDrawerArgs) (s : Snapped) (row buffer : Int)
    (w : PixelWrite) (n : Nat) (ix CX1 CX2 CX3 : Int) :
    w ∈ partialcols args s row buffer n ix CX1 CX2 CX3 ↔
      ∃ j : Nat, j < n ∧ w = { x := ix + j, y := row, addr := buffer + (ix + j) } ∧
        CX1 - j * s.e12.FDY > 0 ∧ CX2 - j * s.e23.FDY > 0 ∧ CX3 - j * s.e31.FDY > 0 ∧
        Visible args (ix + j) row := by
  induction n generalizing ix CX1 CX2 CX3 with
  | zero => simp [partialcols]
  | succ n ih =>
    simp only [partialcols, List.mem_append, ih]
    constructor
    · rintro (h | ⟨j, hj, h, h1, h2, h3, hv⟩)
      · split_ifs at h with hc
        · refine ⟨0, by omega, by simpa using h, ?_⟩
          simpa using hc
        · simp at h
      · refine ⟨j + 1, by omega, ?_, ?_, ?_, ?_, ?_⟩
        · rw [h]; simp only [Nat.cast_add, Nat.cast_one, PixelWrite.mk.injEq]
          refine ⟨by ring, trivial, by ring⟩
        · push_cast; linarith
        · push_cast; linarith
        · push_cast; linarith
        · push_cast
          rw [show ix + ((j : Int) + 1) = ix + 1 + j by ring]; exact hv
    · rintro ⟨j, hj, h, h1, h2, h3, hv⟩
      cases j with
      | zero =>
        left
        simp only [Nat.cast_zero, zero_mul, sub_zero, add_zero] at h h1 h2 h3 hv
        rw [if_pos ⟨h1, h2, h3, hv⟩]
        simpa using h
      | succ j =>
        right
        refine ⟨j, by omega, ?_, ?_, ?_, ?_, ?_⟩
        · rw [h]; simp only [Nat.cast_add, Nat.cast_one, PixelWrite.mk.injEq]
          refine ⟨by ring, trivial, by ring⟩
        · push_cast at h1; linarith
        · push_cast at h2; linarith
        · push_cast at h3; linarith
        · push_cast at hv
          rw [show ix + 1 + (j : Int) = ix + ((j : Int) + 1) by ring]; exact hv

theorem mem_partialrows (args : ScreenTriangleDrawerArgs) (s : Snapped) (x y : Int)
    (w : PixelWrite) (n : Nat) (iy CY1 CY2 CY3 buffer : Int) :
    w ∈ partialrows args s x y n iy CY1 CY2 CY3 buffer ↔
      ∃ i j : Nat, i < n ∧ j < 8 ∧
        w = { x := x + j, y := y + (iy + i), addr := buffer + i * args.pitch + (x + j) } ∧
        CY1 + i * s.e12.FDX - j * s.e12.FDY > 0 ∧ CY2 + i * s.e23.FDX - j * s.e23.FDY > 0 ∧
        CY3 + i * s.e31.FDX - j * s.e31.FDY > 0 ∧ Visible args (x + j) (y + (iy + i)) := by
  induction n generalizing iy CY1 CY2 CY3 buffer with
  | zero => simp [partialrows]
  | succ n ih =>
    simp only [partialrows, List.mem_append, ih, mem_partialcols]
    constructor
    · rintro (⟨j, hj, h, h1, h2, h3, hv⟩ | ⟨i, j, hi, hj, h, h1, h2, h3, hv⟩)
      · refine ⟨0, j, by omega, hj, by rw [h]; simp, ?_, ?_, ?_, ?_⟩
        · simpa using h1
        · simpa using h2
        · simpa using h3
        · simpa using hv
      · refine ⟨i + 1, j, by omega, hj, ?_, ?_, ?_, ?_, ?_⟩
        · rw [h]; simp only [Nat.cast_add, Nat.cast_one, PixelWrite.mk.injEq]
          refine ⟨trivial, by ring, by ring⟩
        · push_cast; linarith
        · push_cast; linarith
        · push_cast; linarith
        · push_cast
          rw [show y + (iy + ((i : Int) + 1)) = y + (iy + 1 + i) by ring]; exact hv
    · rintro ⟨i, j, hi, hj, h, h1, h2, h3, hv⟩
      cases i with
      | zero =>
        left
        simp only [Nat.cast_zero, zero_mul, add_zero] at h h1 h2 h3 hv
        exact ⟨j, hj, h, h1, h2, h3, hv⟩
      | succ i =>
        right
        refine ⟨i, j, by omega, hj, ?_, ?_, ?_, ?_, ?_⟩
        · rw [h]; simp only [Nat.cast_add, Nat.cast_one, PixelWrite.mk.injEq]
          refine ⟨trivial, by ring, by ring⟩
        · push_cast at h1; linarith
        · push_cast at h2; linarith
        · push_cast at h3; linarith
        · push_cast at hv
          rw [show y + (iy + 1 + (i : Int)) = y + (iy + ((i : Int) + 1)) by ring]; exact hv

theorem cornermask_eq_zero (a00 a10 a01 a11 : Bool) :
    cornermask a00 a10 a01 a11 = 0 ↔ a00 = false ∧ a10 = false ∧ a01 = false ∧ a11 = false := by
  cases a00 <;> cases a10 <;> cases a01 <;> cases a11 <;> decide

theorem cornermask_eq_full (a00 a10 a01 a11 : Bool) :
    cornermask a00 a10 a01 a11 = 15 ↔ a00 = true ∧ a10 = true ∧ a01 = true ∧ a11 = true := by
  cases a00 <;> cases a10 <;> cases a01 <;> cases a11 <;> decide

theorem blockmask_eq_zero (e : HalfEdge) (x y : Int) :
    blockmask e x y = 0 ↔
      e.atPixel x y ≤ 0 ∧ e.atPixel (x + 7) y ≤ 0 ∧ e.atPixel x (y + 7) ≤ 0 ∧
        e.atPixel (x + 7) (y + 7) ≤ 0 := by
  simp only [blockmask, cornermask_eq_zero, decide_eq_false_iff_not, gt_iff_lt, not_lt,
    HalfEdge.atPixel, show x + 8 - 1 = x + 7 by ring, show y + 8 - 1 = y + 7 by ring]

theorem blockmask_eq_full (e : HalfEdge) (x y : Int) :
    blockmask e x y = 15 ↔
      0 < e.atPixel x y ∧ 0 < e.atPixel (x + 7) y ∧ 0 < e.atPixel x (y + 7) ∧
        0 < e.atPixel (x + 7) (y + 7) := by
  simp only [blockmask, cornermask_eq_full, decide_eq_true_eq, gt_iff_lt,
    HalfEdge.atPixel, show x + 8 - 1 = x + 7 by ring, show y + 8 - 1 = y + 7 by ring]

/-- The half-space function is affine, so inside a block it lies between its values at
the four corners: it is positive everywhere when positive at the four corners. -/
theorem atPixel_pos_of_corners (e : HalfEdge) (x y : Int) (i j : Nat) (hi : i < 8) (hj : j < 8)
    (h00 : 0 < e.atPixel x y) (h10 : 0 < e.atPixel (x + 7) y) (h01 : 0 < e.atPixel x (y + 7))
    (h11 : 0 < e.atPixel (x + 7) (y + 7)) : 0 < e.atPixel (x + j) (y + i) := by
  simp only [HalfEdge.atPixel, HalfEdge.eval] at *
  have hi0 : (0 : Int) ≤ i := Int.natCast_nonneg i
  have hj0 : (0 : Int) ≤ j := Int.natCast_nonneg j
  have hi7 : (i : Int) ≤ 7 := by omega
  have hj7 : (j : Int) ≤ 7 := by omega
  have key : 49 * (e.C + e.DX * ((y + i) * 16) - e.DY * ((x + j) * 16)) =
      (7 - (i : Int)) * (7 - j) * (e.C + e.DX * (y * 16) - e.DY * (x * 16)) +
      (7 - (i : Int)) * j * (e.C + e.DX * (y * 16) - e.DY * ((x + 7) * 16)) +
      (i : Int) * (7 - j) * (e.C + e.DX * ((y + 7) * 16) - e.DY * (x * 16)) +
      (i : Int) * j * (e.C + e.DX * ((y + 7) * 16) - e.DY * ((x + 7) * 16)) := by ring
  have a1 : 0 ≤ (7 - (i : Int)) * (7 - j) := mul_nonneg (by omega) (by omega)
  have a2 : 0 ≤ (7 - (i : Int)) * j := mul_nonneg (by omega) (by omega)
  have a3 : 0 ≤ (i : Int) * (7 - j) := mul_nonneg (by omega) (by omega)
  have a4 : 0 ≤ (i : Int) * j := mul_nonneg (by omega) (by omega)
  have asum : (7 - (i : Int)) * (7 - j) + (7 - (i : Int)) * j + (i : Int) * (7 - j) + (i : Int) * j = 49 := by
    ring
  nlinarith [mul_nonneg a1 (le_of_lt h00), mul_nonneg a2 (le_of_lt h10),
    mul_nonneg a3 (le_of_lt h01), mul_nonneg a4 (le_of_lt h11),
    mul_nonneg a1 (Int.le_sub_one_of_lt h00), mul_nonneg a2 (Int.le_sub_one_of_lt h10),
    mul_nonneg a3 (Int.le_sub_one_of_lt h01), mul_nonneg a4 (Int.le_sub_one_of_lt h11)]

/-- Conversely the half-space function is non-positive everywhere in a block when it
is non-positive at the four corners. -/
theorem atPixel_nonpos_of_corners (e : HalfEdge) (x y : Int) (i j : Nat) (hi : i < 8)
    (hj : j < 8) (h00 : e.atPixel x y ≤ 0) (h10 : e.atPixel (x + 7) y ≤ 0)
    (h01 : e.atPixel x (y + 7) ≤ 0) (h11 : e.atPixel (x + 7) (y + 7) ≤ 0) :
    e.atPixel (x + j) (y + i) ≤ 0 := by
  simp only [HalfEdge.atPixel, HalfEdge.eval] at *
  have key : 49 * (e.C + e.DX * ((y + i) * 16) - e.DY * ((x + j) * 16)) =
      (7 - (i : Int)) * (7 - j) * (e.C + e.DX * (y * 16) - e.DY * (x * 16)) +
      (7 - (i : Int)) * j * (e.C + e.DX * (y * 16) - e.DY * ((x + 7) * 16)) +
      (i : Int) * (7 - j) * (e.C + e.DX * ((y + 7) * 16) - e.DY * (x * 16)) +
      (i : Int) * j * (e.C + e.DX * ((y + 7) * 16) - e.DY * ((x + 7) * 16)) := by ring
  have a1 : 0 ≤ (7 - (i : Int)) * (7 - j) := mul_nonneg (by omega) (by omega)
  have a2 : 0 ≤ (7 - (i : Int)) * j := mul_nonneg (by omega) (by omega)
  have a3 : 0 ≤ (i : Int) * (7 - j) := mul_nonneg (by omega) (by omega)
  have a4 : 0 ≤ (i : Int) * j := mul_nonneg (by omega) (by omega)
  nlinarith [mul_nonneg a1 (neg_nonneg.mpr h00), mul_nonneg a2 (neg_nonneg.mpr h10),
    mul_nonneg a3 (neg_nonneg.mpr h01), mul_nonneg a4 (neg_nonneg.mpr h11)]

theorem clipcountloop_eq_zero (args : ScreenTriangleDrawerArgs) (y : Int) (n : Nat)
    (ix : Int) (c : Nat) :
    clipcountloop args y n ix c = 0 ↔
      c = 0 ∧ ∀ j : Nat, j < n →
        ¬ (args.clipleft > ix + j ∨ args.clipright < ix + j ∨ args.cliptop (ix + j) > y ∨
          args.clipbottom (ix + j) ≤ y + 8 - 1) := by
  induction n generalizing ix c with
  | zero => simp [clipcountloop]
  | succ n ih =>
    simp only [clipcountloop, ih]
    constructor
    · rintro ⟨hc, h⟩
      have hc0 : c = 0 := by omega
      refine ⟨hc0, ?_⟩
      intro j hj
      cases j with
      | zero =>
        simp only [Nat.cast_zero, add_zero]
        intro hcond
        rw [if_pos hcond] at hc
        omega
      | succ j =>
        have := h j (by omega)
        rw [show ix + ((j + 1 : Nat) : Int) = ix + 1 + j by push_cast; ring]
        exact this
    · rintro ⟨hc, h⟩
      have h0 := h 0 (by omega)
      simp only [Nat.cast_zero, add_zero] at h0
      refine ⟨by rw [if_neg h0]; omega, ?_⟩
      intro j hj
      have := h (j + 1) (by omega)
      rw [show ix + ((j + 1 : Nat) : Int) = ix + 1 + j by push_cast; ring] at this
      exact this

theorem eval_step (e : HalfEdge) (x y : Int) (i j : Int) :
    e.eval (x * 16) (y * 16) + i * e.FDX - j * e.FDY = e.atPixel (x + j) (y + i) := by
  simp only [HalfEdge.atPixel, HalfEdge.eval, HalfEdge.FDX, HalfEdge.FDY]
  ring

/-- The stores of one block: exactly the pixels of the 8x8 block that pass the
three-edge coverage test and the per-column clip predicate. -/
theorem mem_fillblock (args : ScreenTriangleDrawerArgs) (s : Snapped) (x y dest : Int)
    (w : PixelWrite) :
    w ∈ fillblock args s x y dest ↔
      ∃ i j : Nat, i < 8 ∧ j < 8 ∧
        w = { x := x + j, y := y + i, addr := dest + i * args.pitch + (x + j) } ∧
        s.Covered (x + j) (y + i) ∧ Visible args (x + j) (y + i) := by
  unfold fillblock
  simp only
  by_cases hrej : blockmask s.e12 x y = 0 ∨ blockmask s.e23 x y = 0 ∨ blockmask s.e31 x y = 0
  · rw [if_pos hrej]
    simp only [List.not_mem_nil, false_iff]
    rintro ⟨i, j, hi, hj, _, ⟨c1, c2, c3⟩, _⟩
    rcases hrej with h | h | h
    · rw [blockmask_eq_zero] at h
      have := atPixel_nonpos_of_corners s.e12 x y i j hi hj h.1 h.2.1 h.2.2.1 h.2.2.2
      omega
    · rw [blockmask_eq_zero] at h
      have := atPixel_nonpos_of_corners s.e23 x y i j hi hj h.1 h.2.1 h.2.2.1 h.2.2.2
      omega
    · rw [blockmask_eq_zero] at h
      have := atPixel_nonpos_of_corners s.e31 x y i j hi hj h.1 h.2.1 h.2.2.1 h.2.2.2
      omega
  · rw [if_neg hrej]
    by_cases hacc : blockmask s.e12 x y = 15 ∧ blockmask s.e23 x y = 15 ∧
        blockmask s.e31 x y = 15 ∧ clipcountloop args y 8 x 0 = 0
    · rw [if_pos hacc, mem_acceptrows]
      obtain ⟨ha, hb, hc, hclip⟩ := hacc
      rw [blockmask_eq_full] at ha hb hc
      rw [clipcountloop_eq_zero] at hclip
      constructor
      · rintro ⟨i, j, hi, hj, h⟩
        refine ⟨i, j, hi, hj, by rw [h]; simp, ⟨?_, ?_, ?_⟩, ?_⟩
        · exact atPixel_pos_of_corners s.e12 x y i j hi hj ha.1 ha.2.1 ha.2.2.1 ha.2.2.2
        · exact atPixel_pos_of_corners s.e23 x y i j hi hj hb.1 hb.2.1 hb.2.2.1 hb.2.2.2
        · exact atPixel_pos_of_corners s.e31 x y i j hi hj hc.1 hc.2.1 hc.2.2.1 hc.2.2.2
        · have := hclip.2 j hj
          simp only [Visible]
          omega
      · rintro ⟨i, j, hi, hj, h, _, _⟩
        exact ⟨i, j, hi, hj, by rw [h]; simp⟩
    · rw [if_neg hacc, mem_partialrows]
      constructor
      · rintro ⟨i, j, hi, hj, h, h1, h2, h3, hv⟩
        rw [eval_step] at h1 h2 h3
        refine ⟨i, j, hi, hj, by rw [h]; simp, ⟨h1, h2, h3⟩, by simpa using hv⟩
      · rintro ⟨i, j, hi, hj, h, ⟨h1, h2, h3⟩, hv⟩
        refine ⟨i, j, hi, hj, by rw [h]; simp, ?_, ?_, ?_, by simpa using hv⟩
        · rw [eval_step]; exact h1
        · rw [eval_step]; exact h2
        · rw [eval_step]; exact h3

theorem mem_blockcols (args : ScreenTriangleDrawerArgs) (s : Snapped) (y dest : Int)
    (w : PixelWrite) (n : Nat) (x : Int) :
    w ∈ blockcols args s y dest n x ↔
      ∃ k : Nat, k < n ∧ w ∈ fillblock args s (x + 8 * k) y dest := by
  induction n generalizing x with
  | zero => simp [blockcols]
  | succ n ih =>
    simp only [blockcols, List.mem_append, ih]
    constructor
    · rintro (h | ⟨k, hk, h⟩)
      · exact ⟨0, by omega, by simpa using h⟩
      · refine ⟨k + 1, by omega, ?_⟩
        rw [show x + 8 * ((k + 1 : Nat) : Int) = x + 8 + 8 * k by push_cast; ring]
        exact h
    · rintro ⟨k, hk, h⟩
      cases k with
      | zero => left; simpa using h
      | succ k =>
        right
        refine ⟨k, by omega, ?_⟩
        rw [show x + 8 * ((k + 1 : Nat) : Int) = x + 8 + 8 * k by push_cast; ring] at h
        exact h

theorem mem_blockrows (args : ScreenTriangleDrawerArgs) (s : Snapped) (minx maxx : Int)
    (w : PixelWrite) (n : Nat) (y dest : Int) :
    w ∈ blockrows args s minx maxx n y dest ↔
      ∃ m : Nat, m < n ∧
        w ∈ blockcols args s (y + 8 * m) (dest + m * (8 * args.pitch))
          (blockcount minx maxx) minx := by
  induction n generalizing y dest with
  | zero => simp [blockrows]
  | succ n ih =>
    simp only [blockrows, List.mem_append, ih]
    constructor
    · rintro (h | ⟨m, hm, h⟩)
      · exact ⟨0, by omega, by simpa using h⟩
      · refine ⟨m + 1, by omega, ?_⟩
        rw [show y + 8 * ((m + 1 : Nat) : Int) = y + 8 + 8 * m by push_cast; ring,
          show dest + ((m + 1 : Nat) : Int) * (8 * args.pitch)
            = dest + 8 * args.pitch + m * (8 * args.pitch) by push_cast; ring]
        exact h
    · rintro ⟨m, hm, h⟩
      cases m with
      | zero => left; simpa using h
      | succ m =>
        right
        refine ⟨m, by omega, ?_⟩
        rw [show y + 8 * ((m + 1 : Nat) : Int) = y + 8 + 8 * m by push_cast; ring,
          show dest + ((m + 1 : Nat) : Int) * (8 * args.pitch)
            = dest + 8 * args.pitch + m * (8 * args.pitch) by push_cast; ring] at h
        exact h

/-- The stores of `fill`: a pixel is written exactly when it lies in a traversed block,
passes the three-edge coverage test and the per-column clip predicate; the byte stored
to is the one at `y * pitch + x`. -/
theorem mem_fillwrites (args : ScreenTriangleDrawerArgs) (w : PixelWrite) :
    w ∈ fillwrites args ↔
      Traversed args w.x w.y ∧ (snap args).Covered w.x w.y ∧ Visible args w.x w.y ∧
        w.addr = w.y * args.pitch + w.x := by
  unfold fillwrites Traversed
  simp only
  generalize boundingrect args (snap args) = r
  by_cases hbox : r.minx ≥ r.maxx ∨ r.miny ≥ r.maxy
  · rw [if_pos hbox]
    simp only [List.not_mem_nil, false_iff]
    rintro ⟨⟨h1, h2, _⟩, _⟩
    omega
  · rw [if_neg hbox]
    simp only [mem_blockrows, mem_blockcols, mem_fillblock]
    generalize alignblock r.minx = mx
    generalize alignblock r.miny = my
    generalize blockcount mx r.maxx = nx
    generalize blockcount my r.maxy = ny
    constructor
    · rintro ⟨m, hm, k, hk, i, j, hi, hj, h, hc, hv⟩
      subst h
      simp only
      refine ⟨⟨by omega, by omega, by omega, by omega, by omega, by omega⟩, hc, hv, by ring⟩
    · rintro ⟨⟨_, _, hx0, hx1, hy0, hy1⟩, hc, hv, ha⟩
      obtain ⟨wx, wy, wa⟩ := w
      simp only at hx0 hx1 hy0 hy1 hc hv ha
      have ex : wx = mx + 8 * (((wx - mx) / 8).toNat : Int) + (((wx - mx) % 8).toNat : Int) := by
        omega
      have ey : wy = my + 8 * (((wy - my) / 8).toNat : Int) + (((wy - my) % 8).toNat : Int) := by
        omega
      refine ⟨((wy - my) / 8).toNat, by omega, ((wx - mx) / 8).toNat, by omega,
        ((wy - my) % 8).toNat, ((wx - mx) % 8).toNat, by omega, by omega, ?_, ?_, ?_⟩
      · rw [← ex, ← ey, ha]
        simp only [PixelWrite.mk.injEq, true_and]
        linear_combination args.pitch * ey
      · rw [← ex, ← ey]; exact hc
      · rw [← ex, ← ey]; exact hv

theorem foldl_store_apply (c : Int) (l : List PixelWrite) (fb : Int → Int) (a : Int) :
    (l.foldl (store c) fb) a = if ∃ w ∈ l, w.addr = a then c % 256 else fb a := by
  induction l generalizing fb with
  | nil => simp
  | cons w l ih =>
    rw [List.foldl_cons, ih]
    by_cases h1 : ∃ u ∈ l, u.addr = a
    · have h2 : ∃ u ∈ w :: l, u.addr = a := by
        obtain ⟨u, hu, e⟩ := h1
        exact ⟨u, List.mem_cons_of_mem _ hu, e⟩
      rw [if_pos h1, if_pos h2]
    · rw [if_neg h1]
      by_cases h3 : w.addr = a
      · have h2 : ∃ u ∈ w :: l, u.addr = a := ⟨w, List.mem_cons_self _ _, h3⟩
        rw [if_pos h2]
        simp [store, h3]
      · have h2 : ¬ ∃ u ∈ w :: l, u.addr = a := by
          rintro ⟨u, hu, e⟩
          rcases List.mem_cons.mp hu with rfl | hu
          · exact h3 e
          · exact h1 ⟨u, hu, e⟩
        rw [if_neg h2]
        simp only [store]
        rw [if_neg (fun e => h3 e.symm)]

/-- The framebuffer after `fill`: `solidcolor` (as a byte) at the stored offsets, the old
content everywhere else. -/
theorem fill_apply (args : ScreenTriangleDrawerArgs) (a : Int) :
    fill args a =
      if ∃ w ∈ fillwrites args, w.addr = a then args.solidcolor % 256 else args.dest a :=
  foldl_store_apply args.solidcolor (fillwrites args) args.dest a

end ScreenTriangleDrawer

open ScreenTriangleDrawer

namespace ScreenTriangleDrawer

/-- The uncorrected half-space functions add up to twice the signed area, and at most
two of the three edges receive the fill-convention correction; so a pixel that passes
the three-edge coverage test forces a positive area. -/
theorem area2_pos_of_covered (s : Snapped) (px py : Int) (h : s.Covered px py) :
    1 ≤ s.area2 := by
  obtain ⟨h1, h2, h3⟩ := h
  simp only [Snapped.e12, Snapped.e23, Snapped.e31, halfedge, HalfEdge.atPixel,
    HalfEdge.eval] at h1 h2 h3
  unfold Snapped.area2
  split_ifs at h1 h2 h3
  · exfalso; omega
  all_goals nlinarith

theorem area2_eq_cross (s : Snapped) :
    s.area2 = (s.X3 - s.X1) * (s.Y2 - s.Y1) - (s.X2 - s.X1) * (s.Y3 - s.Y1) := by
  unfold Snapped.area2; ring

/-- A pixel that passes the coverage test lies in the closed bounding box of the
snapped triangle, in 28.4 units (barycentric argument). -/
theorem covered_bounds (s : Snapped) (px py : Int) (h : s.Covered px py) :
    min (min s.X1 s.X2) s.X3 ≤ px * 16 ∧ px * 16 ≤ max (max s.X1 s.X2) s.X3 ∧
    min (min s.Y1 s.Y2) s.Y3 ≤ py * 16 ∧ py * 16 ≤ max (max s.Y1 s.Y2) s.Y3 := by
  have harea := area2_pos_of_covered s px py h
  obtain ⟨h1, h2, h3⟩ := h
  simp only [Snapped.e12, Snapped.e23, Snapped.e31, halfedge, HalfEdge.atPixel,
    HalfEdge.eval] at h1 h2 h3
  unfold Snapped.area2 at harea
  -- the uncorrected half-space functions are non-negative
  have u1 : 0 ≤ (s.Y1 - s.Y2) * s.X1 - (s.X1 - s.X2) * s.Y1 + (s.X1 - s.X2) * (py * 16)
      - (s.Y1 - s.Y2) * (px * 16) := by
    split_ifs at h1 <;> omega
  have u2 : 0 ≤ (s.Y2 - s.Y3) * s.X2 - (s.X2 - s.X3) * s.Y2 + (s.X2 - s.X3) * (py * 16)
      - (s.Y2 - s.Y3) * (px * 16) := by
    split_ifs at h2 <;> omega
  have u3 : 0 ≤ (s.Y3 - s.Y1) * s.X3 - (s.X3 - s.X1) * s.Y3 + (s.X3 - s.X1) * (py * 16)
      - (s.Y3 - s.Y1) * (px * 16) := by
    split_ifs at h3 <;> omega
  clear h1 h2 h3
  generalize hE1 : (s.Y1 - s.Y2) * s.X1 - (s.X1 - s.X2) * s.Y1 + (s.X1 - s.X2) * (py * 16)
      - (s.Y1 - s.Y2) * (px * 16) = E1 at u1
  generalize hE2 : (s.Y2 - s.Y3) * s.X2 - (s.X2 - s.X3) * s.Y2 + (s.X2 - s.X3) * (py * 16)
      - (s.Y2 - s.Y3) * (px * 16) = E2 at u2
  generalize hE3 : (s.Y3 - s.Y1) * s.X3 - (s.X3 - s.X1) * s.Y3 + (s.X3 - s.X1) * (py * 16)
      - (s.Y3 - s.Y1) * (px * 16) = E3 at u3
  generalize hA : (s.Y1 - s.Y2) * s.X1 - (s.X1 - s.X2) * s.Y1
      + ((s.Y2 - s.Y3) * s.X2 - (s.X2 - s.X3) * s.Y2)
      + ((s.Y3 - s.Y1) * s.X3 - (s.X3 - s.X1) * s.Y3) = A at harea
  have hsum : E1 + E2 + E3 = A := by rw [← hE1, ← hE2, ← hE3, ← hA]; ring
  have hx : px * 16 * A = E2 * s.X1 + E3 * s.X2 + E1 * s.X3 := by
    rw [← hE1, ← hE2, ← hE3, ← hA]; ring
  have hy : py * 16 * A = E2 * s.Y1 + E3 * s.Y2 + E1 * s.Y3 := by
    rw [← hE1, ← hE2, ← hE3, ← hA]; ring
  have key : ∀ (p a b c lo hi : Int), p * A = E2 * a + E3 * b + E1 * c →
      lo ≤ a → lo ≤ b → lo ≤ c → a ≤ hi → b ≤ hi → c ≤ hi → lo ≤ p ∧ p ≤ hi := by
    intro p a b c lo hi hp la lb lc ha hb hc
    have e1 : (p - lo) * A = E2 * (a - lo) + E3 * (b - lo) + E1 * (c - lo) := by
      rw [← hsum] at hp ⊢; linear_combination hp
    have e2 : (hi - p) * A = E2 * (hi - a) + E3 * (hi - b) + E1 * (hi - c) := by
      rw [← hsum] at hp ⊢; linear_combination -hp
    have n1 : 0 ≤ (p - lo) * A := by
      rw [e1]
      exact add_nonneg (add_nonneg (mul_nonneg u2 (by omega)) (mul_nonneg u3 (by omega)))
        (mul_nonneg u1 (by omega))
    have n2 : 0 ≤ (hi - p) * A := by
      rw [e2]
      exact add_nonneg (add_nonneg (mul_nonneg u2 (by omega)) (mul_nonneg u3 (by omega)))
        (mul_nonneg u1 (by omega))
    have hA0 : 0 < A := by omega
    have := nonneg_of_mul_nonneg_left n1 hA0
    have := nonneg_of_mul_nonneg_left n2 hA0
    omega
  have bx := key (px * 16) s.X1 s.X2 s.X3 (min (min s.X1 s.X2) s.X3) (max (max s.X1 s.X2) s.X3)
    hx (by omega) (by omega) (by omega) (by omega) (by omega) (by omega)
  have by' := key (py * 16) s.Y1 s.Y2 s.Y3 (min (min s.Y1 s.Y2) s.Y3) (max (max s.Y1 s.Y2) s.Y3)
    hy (by omega) (by omega) (by omega) (by omega) (by omega) (by omega)
  exact ⟨bx.1, bx.2, by'.1, by'.2⟩

theorem clipscan_bounds (cliptop clipbottom : Int → Int) (n : Nat) (i a b : Int) :
    (clipscan cliptop clipbottom n i (a, b)).1 ≤ a ∧
    b ≤ (clipscan cliptop clipbottom n i (a, b)).2 ∧
    ∀ k : Nat, k < n →
      (clipscan cliptop clipbottom n i (a, b)).1 ≤ cliptop (i + k) ∧
      clipbottom (i + k) ≤ (clipscan cliptop clipbottom n i (a, b)).2 := by
  induction n generalizing i a b with
  | zero => simp [clipscan]
  | succ n ih =>
    simp only [clipscan]
    obtain ⟨h1, h2, h3⟩ := ih (i + 1) (min a (cliptop i)) (max b (clipbottom i))
    refine ⟨by omega, by omega, ?_⟩
    intro k hk
    cases k with
    | zero => simp only [Nat.cast_zero, add_zero]; omega
    | succ k =>
      have := h3 k (by omega)
      rw [show i + ((k + 1 : Nat) : Int) = i + 1 + k by push_cast; ring]
      exact this

/-- For a column inside `[clipleft, clipright]` the scanned `clipymin`, `clipymax`
enclose the clip window of the column. -/
theorem boundingrect_clipy (args : ScreenTriangleDrawerArgs) (s : Snapped) (x : Int)
    (h1 : args.clipleft ≤ x) (h2 : x ≤ args.clipright) :
    (boundingrect args s).clipymin ≤ args.cliptop x ∧
    args.clipbottom x ≤ (boundingrect args s).clipymax := by
  simp only [boundingrect]
  obtain ⟨b1, b2, b3⟩ := clipscan_bounds args.cliptop args.clipbottom
    (args.clipright - args.clipleft).toNat (args.clipleft + 1)
    (args.cliptop args.clipleft) (args.clipbottom args.clipleft)
  rcases eq_or_lt_of_le h1 with e | hlt
  · subst e; exact ⟨b1, b2⟩
  · have := b3 (x - args.clipleft - 1).toNat (by omega)
    rw [show args.clipleft + 1 + ((x - args.clipleft - 1).toNat : Int) = x by omega] at this
    exact this

end ScreenTriangleDrawer

open ScreenTriangleDrawer

namespace ScreenTriangleDrawer

theorem floor_intCast_add_half (n : Int) : ⌊(n : ℚ) + 1 / 2⌋ = n := by
  rw [Int.floor_eq_iff]
  constructor <;> norm_num

theorem cround_intCast (n : Int) : cround (n : ℚ) = n := by
  unfold cround
  split_ifs with h
  · exact floor_intCast_add_half n
  · have e : -(n : ℚ) = ((-n : Int) : ℚ) := by push_cast; ring
    rw [e, floor_intCast_add_half]
    omega

theorem snap_scenario (x1 y1 x2 y2 x3 y3 cr cb : Int) :
    snap (scenario x1 y1 x2 y2 x3 y3 cr cb) =
      { X1 := 16 * x1, Y1 := 16 * y1, X2 := 16 * x2, Y2 := 16 * y2, X3 := 16 * x3,
        Y3 := 16 * y3 } := by
  have h : ∀ n : Int, cround (16 * (n : ℚ)) = 16 * n := by
    intro n
    have : (16 : ℚ) * (n : ℚ) = ((16 * n : Int) : ℚ) := by push_cast; ring
    rw [this, cround_intCast]
  simp only [snap, scenario, vert4, h]

theorem clipscan_const (a b : Int) (n : Nat) (i : Int) :
    clipscan (fun _ => a) (fun _ => b) n i (a, b) = (a, b) := by
  induction n generalizing i with
  | zero => rfl
  | succ n ih => simp only [clipscan, min_self, max_self, ih]

theorem boundingrect_scenario (x1 y1 x2 y2 x3 y3 cr cb : Int) (s : Snapped) :
    boundingrect (scenario x1 y1 x2 y2 x3 y3 cr cb) s =
      { clipymin := 0
        clipymax := cb
        minx := max (ceil16 (min (min s.X1 s.X2) s.X3)) 0
        maxx := min (ceil16 (max (max s.X1 s.X2) s.X3)) cr
        miny := max (ceil16 (min (min s.Y1 s.Y2) s.Y3)) 0
        maxy := min (ceil16 (max (max s.Y1 s.Y2) s.Y3)) (cb - 1) } := by
  simp only [boundingrect, scenario, clipscan_const]

theorem fillwrites_eq_nil_of_area2_nonpos (args : ScreenTriangleDrawerArgs)
    (h : (snap args).area2 ≤ 0) : fillwrites args = [] := by
  rw [List.eq_nil_iff_forall_not_mem]
  intro w hw
  have := area2_pos_of_covered _ _ _ ((mem_fillwrites args w).mp hw).2.1
  omega

theorem fill_eq_dest_of_nil (args : ScreenTriangleDrawerArgs) (h : fillwrites args = []) :
    fill args = args.dest := by
  simp [fill, h]

/-- C2 (per-column clip is honoured): every byte `fill` stores to is the byte
`y * pitch + x` of a pixel `(x, y)` with `clipleft ≤ x ≤ clipright` and
`cliptop[x] ≤ y < clipbottom[x]`, and every byte that is not stored to keeps its
content. -/
theorem fill_honours_column_clip (args : ScreenTriangleDrawerArgs)
    (_hclip : args.clipleft ≤ args.clipright) :
    (∀ w ∈ fillwrites args,
      w.addr = w.y * args.pitch + w.x ∧ args.clipleft ≤ w.x ∧ w.x ≤ args.clipright ∧
        args.cliptop w.x ≤ w.y ∧ w.y < args.clipbottom w.x) ∧
    (∀ a : Int, (∀ w ∈ fillwrites args, w.addr ≠ a) → fill args a = args.dest a) := by
  constructor
  · intro w hw
    obtain ⟨_, _, ⟨v1, v2, v3, v4⟩, ha⟩ := (mem_fillwrites args w).mp hw
    exact ⟨ha, v1, v2, v3, v4⟩
  · intro a h
    rw [fill_apply, if_neg]
    rintro ⟨w, hw, e⟩
    exact h w hw e

/-- C2 (witness): scenario S3, the triangle of S1 with `clipbottom[i] = 20`, in the
listed vertex order and in the reverse order: every pixel of a row `y ≥ 20` keeps its
content on the 64x64 framebuffer. -/
theorem fill_honours_column_clip_s3 :
    ((0 : Int) ≤ 63) ∧
    (∀ x y : Int, 0 ≤ x → x < 64 → 20 ≤ y →
      fill (scenario 10 10 50 10 10 50 63 20) (y * 64 + x) = 0) ∧
    (∀ x y : Int, 0 ≤ x → x < 64 → 20 ≤ y →
      fill (scenario 10 10 10 50 50 10 63 20) (y * 64 + x) = 0) := by
  refine ⟨by decide, ?_, ?_⟩
  · intro x y hx0 hx1 hy
    have h := fill_honours_column_clip (scenario 10 10 50 10 10 50 63 20) (by decide)
    rw [h.2 (y * 64 + x)]
    · rfl
    · intro w hw
      have := h.1 w hw
      simp only [scenario] at this
      omega
  · intro x y hx0 hx1 hy
    have h := fill_honours_column_clip (scenario 10 10 10 50 50 10 63 20) (by decide)
    rw [h.2 (y * 64 + x)]
    · rfl
    · intro w hw
      have := h.1 w hw
      simp only [scenario] at this
      omega

theorem halfedge_reverse (A B : Int × Int) (hAB : A ≠ B) (px py : Int) :
    0 < (halfedge A.1 A.2 B.1 B.2).atPixel px py ↔
      ¬ 0 < (halfedge B.1 B.2 A.1 A.2).atPixel px py := by
  obtain ⟨a1, a2⟩ := A
  obtain ⟨b1, b2⟩ := B
  have hne : ¬ (a1 = b1 ∧ a2 = b2) := by
    rintro ⟨rfl, rfl⟩; exact hAB rfl
  simp only [halfedge, HalfEdge.atPixel, HalfEdge.eval]
  have e : (b2 - a2) * b1 - (b1 - a1) * b2 + (b1 - a1) * (py * 16) - (b2 - a2) * (px * 16)
      = -((a2 - b2) * a1 - (a1 - b1) * a2 + (a1 - b1) * (py * 16) - (a2 - b2) * (px * 16)) := by
    ring
  generalize (a2 - b2) * a1 - (a1 - b1) * a2 + (a1 - b1) * (py * 16) - (a2 - b2) * (px * 16)
    = E at e
  split_ifs with c1 c2 c2
  · exfalso; omega
  · have : (b2 - a2) * b1 - (b1 - a1) * b2 + (b1 - a1) * (py * 16) - (b2 - a2) * (px * 16)
        = -((a2 - b2) * a1 - (a1 - b1) * a2 + 1 + (a1 - b1) * (py * 16)
          - (a2 - b2) * (px * 16)) + 1 := by ring
    rw [this]; omega
  · have : (b2 - a2) * b1 - (b1 - a1) * b2 + 1 + (b1 - a1) * (py * 16) - (b2 - a2) * (px * 16)
        = -((a2 - b2) * a1 - (a1 - b1) * a2 + (a1 - b1) * (py * 16)
          - (a2 - b2) * (px * 16)) + 1 := by ring
    rw [this]; omega
  · exfalso; omega

theorem covered_edges (s : Snapped) (px py : Int) (h : s.Covered px py)
    (e : (Int × Int) × (Int × Int)) (he : e ∈ s.edges) :
    0 < (halfedge e.1.1 e.1.2 e.2.1 e.2.2).atPixel px py := by
  obtain ⟨h1, h2, h3⟩ := h
  simp only [Snapped.edges, List.mem_cons, List.mem_singleton, List.not_mem_nil,
    or_false] at he
  rcases he with rfl | rfl | rfl
  · exact h1
  · exact h2
  · exact h3

/-- C3 (fill-convention non-overlap): when the snapped triangles of two argument bundles
share an edge with distinct end points `A`, `B`, traversed from `A` to `B` in one and
from `B` to `A` in the other, then at every integer pixel exactly one of the two
corrected half-edge tests of that edge is strictly positive; hence no pixel passes the
three-edge coverage test of both triangles, and no pixel is written by both `fill`
calls. -/
theorem fill_convention_nonoverlap (args1 args2 : ScreenTriangleDrawerArgs)
    (A B : Int × Int) (hAB : A ≠ B) (h1 : (A, B) ∈ (snap args1).edges)
    (h2 : (B, A) ∈ (snap args2).edges) :
    (∀ px py : Int,
      (0 < (halfedge A.1 A.2 B.1 B.2).atPixel px py ∧
        ¬ 0 < (halfedge B.1 B.2 A.1 A.2).atPixel px py) ∨
      (¬ 0 < (halfedge A.1 A.2 B.1 B.2).atPixel px py ∧
        0 < (halfedge B.1 B.2 A.1 A.2).atPixel px py)) ∧
    (∀ px py : Int, ¬ ((snap args1).Covered px py ∧ (snap args2).Covered px py)) ∧
    (∀ w1 ∈ fillwrites args1, ∀ w2 ∈ fillwrites args2, ¬ (w1.x = w2.x ∧ w1.y = w2.y)) := by
  have key : ∀ px py : Int,
      ¬ ((snap args1).Covered px py ∧ (snap args2).Covered px py) := by
    rintro px py ⟨c1, c2⟩
    have p1 := covered_edges _ px py c1 (A, B) h1
    have p2 := covered_edges _ px py c2 (B, A) h2
    exact (halfedge_reverse A B hAB px py).mp p1 p2
  refine ⟨?_, key, ?_⟩
  · intro px py
    have := halfedge_reverse A B hAB px py
    by_cases hp : 0 < (halfedge A.1 A.2 B.1 B.2).atPixel px py
    · exact Or.inl ⟨hp, this.mp hp⟩
    · refine Or.inr ⟨hp, ?_⟩
      by_contra hq
      exact hp (this.mpr hq)
  · rintro w1 hw1 w2 hw2 ⟨ex, ey⟩
    have c1 := ((mem_fillwrites args1 w1).mp hw1).2.1
    have c2 := ((mem_fillwrites args2 w2).mp hw2).2.1
    rw [← ex, ← ey] at c2
    exact key _ _ ⟨c1, c2⟩

/-- C3 (witness): the triangles `(10,10), (10,50), (50,10)` and `(50,10), (10,50), (50,50)`
share the edge between `(10,50)` and `(50,10)`, traversed in opposite directions. -/
theorem fill_convention_nonoverlap_square :
    (∀ px py : Int,
      (0 < (halfedge 160 800 800 160).atPixel px py ∧
        ¬ 0 < (halfedge 800 160 160 800).atPixel px py) ∨
      (¬ 0 < (halfedge 160 800 800 160).atPixel px py ∧
        0 < (halfedge 800 160 160 800).atPixel px py)) ∧
    (∀ px py : Int, ¬ ((snap (scenario 10 10 10 50 50 10 63 64)).Covered px py ∧
      (snap (scenario 50 10 10 50 50 50 63 64)).Covered px py)) ∧
    (∀ w1 ∈ fillwrites (scenario 10 10 10 50 50 10 63 64),
      ∀ w2 ∈ fillwrites (scenario 50 10 10 50 50 50 63 64), ¬ (w1.x = w2.x ∧ w1.y = w2.y)) :=
  fill_convention_nonoverlap (scenario 10 10 10 50 50 10 63 64)
    (scenario 50 10 10 50 50 50 63 64) (160, 800) (800, 160) (by decide)
    (by rw [snap_scenario]; decide) (by rw [snap_scenario]; decide)

/-- C4 (zero-area triangles write nothing): when the snapped vertices `v1` and `v2`
coincide or the three snapped vertices are collinear, `fill` makes no store and returns
the framebuffer unchanged, whatever the clip arrays are. -/
theorem fill_zero_area (args : ScreenTriangleDrawerArgs)
    (h : ((snap args).X1 = (snap args).X2 ∧ (snap args).Y1 = (snap args).Y2) ∨
      (snap args).Collinear) :
    fillwrites args = [] ∧ fill args = args.dest := by
  have hcol : (snap args).Collinear := by
    rcases h with ⟨hx, hy⟩ | h
    · simp only [Snapped.Collinear, hx, hy, sub_self, zero_mul, mul_zero]
    · exact h
  have hnil : fillwrites args = [] := by
    apply fillwrites_eq_nil_of_area2_nonpos
    rw [area2_eq_cross]
    unfold Snapped.Collinear at hcol
    omega
  exact ⟨hnil, fill_eq_dest_of_nil args hnil⟩

/-- C4 (witness): the collinear triangle `(10,10), (20,20), (30,30)` on the full 64x64
clip window. -/
theorem fill_zero_area_diagonal :
    fillwrites (scenario 10 10 20 20 30 30 63 64) = [] ∧
      fill (scenario 10 10 20 20 30 30 63 64) = (scenario 10 10 20 20 30 30 63 64).dest :=
  fill_zero_area (scenario 10 10 20 20 30 30 63 64)
    (Or.inr (by rw [snap_scenario]; unfold Snapped.Collinear; decide))

/-- C6 (as amended): with the C `int` values taken as unbounded integers (no overflow in
the half-edge arithmetic), every pixel `(x, y)` written by `fill` satisfies
`minx ≤ x ≤ maxx` and `miny ≤ y ≤ maxy` for the bounding-rectangle values computed
before `minx`, `miny` are rounded down to a multiple of 8. -/
theorem fill_within_boundingrect (args : ScreenTriangleDrawerArgs) :
    ∀ w ∈ fillwrites args,
      (boundingrect args (snap args)).minx ≤ w.x ∧ w.x ≤ (boundingrect args (snap args)).maxx ∧
      (boundingrect args (snap args)).miny ≤ w.y ∧
      w.y ≤ (boundingrect args (snap args)).maxy := by
  intro w hw
  obtain ⟨_, hc, ⟨v1, v2, v3, v4⟩, _⟩ := (mem_fillwrites args w).mp hw
  obtain ⟨bx1, bx2, by1, by2⟩ := covered_bounds _ _ _ hc
  obtain ⟨cy1, cy2⟩ := boundingrect_clipy args (snap args) w.x v1 v2
  have e1 : (boundingrect args (snap args)).minx =
      max (ceil16 (min (min (snap args).X1 (snap args).X2) (snap args).X3)) args.clipleft := rfl
  have e2 : (boundingrect args (snap args)).maxx =
      min (ceil16 (max (max (snap args).X1 (snap args).X2) (snap args).X3)) args.clipright := rfl
  have e3 : (boundingrect args (snap args)).miny =
      max (ceil16 (min (min (snap args).Y1 (snap args).Y2) (snap args).Y3))
        (boundingrect args (snap args)).clipymin := rfl
  have e4 : (boundingrect args (snap args)).maxy =
      min (ceil16 (max (max (snap args).Y1 (snap args).Y2) (snap args).Y3))
        ((boundingrect args (snap args)).clipymax - 1) := rfl
  rw [e1, e2, e3, e4]
  unfold ceil16
  generalize min (min (snap args).X1 (snap args).X2) (snap args).X3 = mX at *
  generalize max (max (snap args).X1 (snap args).X2) (snap args).X3 = MX at *
  generalize min (min (snap args).Y1 (snap args).Y2) (snap args).Y3 = mY at *
  generalize max (max (snap args).Y1 (snap args).Y2) (snap args).Y3 = MY at *
  omega

theorem covered_front_facing (cr cb x y : Int) :
    (snap (scenario 10 10 10 50 50 10 cr cb)).Covered x y ↔ 10 ≤ x ∧ 10 ≤ y ∧ x + y < 60 := by
  simp only [snap_scenario, Snapped.Covered, Snapped.e12, Snapped.e23, Snapped.e31, halfedge,
    HalfEdge.atPixel, HalfEdge.eval]
  norm_num
  omega

theorem mem_fillwrites_s3 :
    ({ x := 10, y := 19, addr := 19 * 64 + 10 } : PixelWrite) ∈
      fillwrites (scenario 10 10 10 50 50 10 63 20) := by
  rw [mem_fillwrites]
  refine ⟨?_, ?_, ?_, ?_⟩
  · simp only [Traversed, snap_scenario, boundingrect_scenario]
    decide
  · rw [covered_front_facing]; decide
  · simp only [Visible, scenario]; decide
  · simp only [scenario]

theorem boundingrect_s3_maxy :
    (boundingrect (scenario 10 10 10 50 50 10 63 20)
      (snap (scenario 10 10 10 50 50 10 63 20))).maxy = 19 := by
  rw [snap_scenario, boundingrect_scenario]
  decide

/-- C6 (counterexample): in scenario S3 with the front-facing vertex order
`(10,10), (10,50), (50,10)` and `clipbottom[i] = 20` the rectangle has `maxy = 19`, and
`fill` writes the pixel `(10, 19)`; so not every written pixel has `y < maxy`. -/
theorem fill_writes_row_maxy :
    ¬ (∀ w ∈ fillwrites (scenario 10 10 10 50 50 10 63 20),
      (boundingrect (scenario 10 10 10 50 50 10 63 20)
        (snap (scenario 10 10 10 50 50 10 63 20))).minx ≤ w.x ∧
      w.x < (boundingrect (scenario 10 10 10 50 50 10 63 20)
        (snap (scenario 10 10 10 50 50 10 63 20))).maxx ∧
      (boundingrect (scenario 10 10 10 50 50 10 63 20)
        (snap (scenario 10 10 10 50 50 10 63 20))).miny ≤ w.y ∧
      w.y < (boundingrect (scenario 10 10 10 50 50 10 63 20)
        (snap (scenario 10 10 10 50 50 10 63 20))).maxy) := by
  intro h
  have := (h _ mem_fillwrites_s3).2.2.2
  rw [boundingrect_s3_maxy] at this
  simp only at this
  omega

/-- C6 (witness of the amended claim): the written pixel `(10, 19)` of scenario S3. -/
theorem fill_within_boundingrect_s3 :
    ({ x := 10, y := 19, addr := 19 * 64 + 10 } : PixelWrite) ∈
      fillwrites (scenario 10 10 10 50 50 10 63 20) ∧
    ((boundingrect (scenario 10 10 10 50 50 10 63 20)
        (snap (scenario 10 10 10 50 50 10 63 20))).minx ≤ 10 ∧
      10 ≤ (boundingrect (scenario 10 10 10 50 50 10 63 20)
        (snap (scenario 10 10 10 50 50 10 63 20))).maxx ∧
      (boundingrect (scenario 10 10 10 50 50 10 63 20)
        (snap (scenario 10 10 10 50 50 10 63 20))).miny ≤ 19 ∧
      19 ≤ (boundingrect (scenario 10 10 10 50 50 10 63 20)
        (snap (scenario 10 10 10 50 50 10 63 20))).maxy) :=
  ⟨mem_fillwrites_s3,
    fill_within_boundingrect (scenario 10 10 10 50 50 10 63 20) _ mem_fillwrites_s3⟩

/-- C7 (the code at the failing input): with the front-facing triangle
`(10,10), (10,50), (50,10)`, `clipleft = 0`, `clipright = 16`, `cliptop[i] = 0` and
`clipbottom[i] = 64`, the pixel `(16, 12)` passes the three-edge coverage test and the
per-column clip predicate, yet no store of `fill` is at that pixel and its byte keeps the
value 0: the block loop stops at `x < maxx = 16`. -/
theorem fill_misses_clipright_column :
    (scenario 10 10 10 50 50 10 16 64).clipleft ≤ (scenario 10 10 10 50 50 10 16 64).clipright ∧
    (∀ i : Int, (scenario 10 10 10 50 50 10 16 64).cliptop i ≤
      (scenario 10 10 10 50 50 10 16 64).clipbottom i) ∧
    (snap (scenario 10 10 10 50 50 10 16 64)).Covered 16 12 ∧
    Visible (scenario 10 10 10 50 50 10 16 64) 16 12 ∧
    (∀ w ∈ fillwrites (scenario 10 10 10 50 50 10 16 64), ¬ (w.x = 16 ∧ w.y = 12)) ∧
    fill (scenario 10 10 10 50 50 10 16 64) (12 * 64 + 16) = 0 := by
  have hx : ∀ w ∈ fillwrites (scenario 10 10 10 50 50 10 16 64),
      0 ≤ w.x ∧ w.x < 16 ∧ w.addr = w.y * 64 + w.x := by
    intro w hw
    obtain ⟨ht, _, hv, ha⟩ := (mem_fillwrites _ w).mp hw
    simp only [Traversed, snap_scenario, boundingrect_scenario] at ht
    norm_num [ceil16, alignblock, blockcount] at ht
    simp only [Visible, scenario] at hv
    simp only [scenario] at ha
    omega
  refine ⟨by simp only [scenario]; decide, fun i => by simp only [scenario]; decide,
    by rw [covered_front_facing]; decide, by simp only [Visible, scenario]; decide, ?_, ?_⟩
  · intro w hw hxy
    have := hx w hw
    omega
  · rw [fill_apply, if_neg]
    · rfl
    · rintro ⟨w, hw, e⟩
      have := hx w hw
      omega

theorem area2_listed_order (cr cb : Int) :
    (snap (scenario 10 10 50 10 10 50 cr cb)).area2 ≤ 0 := by
  rw [snap_scenario]; decide

/-- C8 (counterexample): scenario S1 with the vertices in the order listed,
`v1 = (10,10)`, `v2 = (50,10)`, `v3 = (10,50)`: the pixel `(10, 10)` is not set to 7
(the triangle has negative orientation for the half-edge tests and nothing is written). -/
theorem fill_s1_listed_order :
    fill (scenario 10 10 50 10 10 50 63 64) (10 * 64 + 10) ≠ 7 := by
  rw [fill_eq_dest_of_nil _ (fillwrites_eq_nil_of_area2_nonpos _ (area2_listed_order 63 64))]
  simp only [scenario]
  decide

/-- C8 (as amended): scenario S1 with the second and third vertex exchanged,
`v1 = (10,10)`, `v2 = (10,50)`, `v3 = (50,10)`: on the zeroed 64x64 framebuffer `fill`
sets to 7 exactly the pixels `(x, y)` with `x ≥ 10`, `y ≥ 10`, `x + y < 60` and leaves
every other pixel 0. -/
theorem fill_s1_front_facing (x y : Int) (hx0 : 0 ≤ x) (hx1 : x < 64) (hy0 : 0 ≤ y)
    (hy1 : y < 64) :
    fill (scenario 10 10 10 50 50 10 63 64) (y * 64 + x) =
      if 10 ≤ x ∧ 10 ≤ y ∧ x + y < 60 then 7 else 0 := by
  rw [fill_apply]
  have hiff : (∃ w ∈ fillwrites (scenario 10 10 10 50 50 10 63 64), w.addr = y * 64 + x) ↔
      (10 ≤ x ∧ 10 ≤ y ∧ x + y < 60) := by
    constructor
    · rintro ⟨w, hw, e⟩
      obtain ⟨_, hc, hv, ha⟩ := (mem_fillwrites _ w).mp hw
      rw [covered_front_facing] at hc
      simp only [Visible, scenario] at hv
      simp only [scenario] at ha
      have ex : w.x = x := by omega
      have ey : w.y = y := by omega
      rw [← ex, ← ey]; exact hc
    · intro h
      refine ⟨{ x := x, y := y, addr := y * 64 + x }, ?_, rfl⟩
      rw [mem_fillwrites]
      refine ⟨?_, ?_, ?_, ?_⟩
      · simp only [Traversed, snap_scenario, boundingrect_scenario]
        norm_num [ceil16, alignblock, blockcount]
        omega
      · rw [covered_front_facing]; exact h
      · simp only [Visible, scenario]; omega
      · simp only [scenario]
  by_cases h : 10 ≤ x ∧ 10 ≤ y ∧ x + y < 60
  · rw [if_pos (hiff.mpr h), if_pos h]
    simp only [scenario]; decide
  · rw [if_neg (fun hw => h (hiff.mp hw)), if_neg h]
    simp only [scenario]

/-- C8 (witness): the corner pixel `(10, 10)` of the 64x64 framebuffer is set to 7. -/
theorem fill_s1_front_facing_corner :
    ((0 : Int) ≤ 10 ∧ (10 : Int) < 64) ∧
      fill (scenario 10 10 10 50 50 10 63 64) (10 * 64 + 10) = 7 := by
  refine ⟨by decide, ?_⟩
  have h := fill_s1_front_facing 10 10 (by decide) (by decide) (by decide) (by decide)
  rw [h]
  decide

end ScreenTriangleDrawer

open TriangleDrawer

namespace TriangleDrawer

variable {α : Type} [LinearOrderedField α]

theorem cullstep_inside (c1 c2 : α) (h1 : 0 ≤ c1) (h2 : 0 ≤ c2) :
    cullstep c1 c2 (some (0, 1)) = some (0, 1) := by
  have hd1 : ¬ (c1 < 0) := not_lt.mpr h1
  have hd2 : ¬ (c2 < 0) := not_lt.mpr h2
  simp [cullstep, cullhalfspace, hd1, hd2]

theorem cullall_inside (v1 v2 : TriVertex α) (h1 : InClipVolume v1) (h2 : InClipVolume v2) :
    cullall v1 v2 = some (0, 1) := by
  obtain ⟨a1, a2, a3, a4, a5, a6⟩ := h1
  obtain ⟨b1, b2, b3, b4, b5, b6⟩ := h2
  unfold cullall
  rw [cullstep_inside _ _ (by linarith) (by linarith),
    cullstep_inside _ _ (by linarith) (by linarith),
    cullstep_inside _ _ (by linarith) (by linarith),
    cullstep_inside _ _ (by linarith) (by linarith),
    cullstep_inside _ _ (by linarith) (by linarith),
    cullstep_inside _ _ (by linarith) (by linarith)]

theorem clipedge_inside (v1 v2 : TriVertex α) (h1 : InClipVolume v1) (h2 : InClipVolume v2)
    (clippedvert : List (TriVertex α)) : clipedge v1 v2 clippedvert = clippedvert ++ [v1] := by
  simp [clipedge, cullall_inside v1 v2 h1 h2]

/-- C17 (unclipped triangles pass through unchanged): when the three vertices all satisfy
`-w ≤ x, y, z ≤ w`, the three `clipedge` calls started from `numclipvert = 0` end with
`numclipvert = 3` and `clippedvert = [v0, v1, v2]`, the input vertices themselves (all
coordinates and varyings), in input order. -/
theorem clipstage_unclipped (v0 v1 v2 : TriVertex α) (h0 : InClipVolume v0)
    (h1 : InClipVolume v1) (h2 : InClipVolume v2) :
    (clipstage v0 v1 v2).length = 3 ∧ clipstage v0 v1 v2 = [v0, v1, v2] := by
  have h : clipstage v0 v1 v2 = [v0, v1, v2] := by
    unfold clipstage
    rw [clipedge_inside v0 v1 h0 h1, clipedge_inside v1 v2 h1 h2, clipedge_inside v2 v0 h2 h0]
    rfl
  exact ⟨by rw [h]; rfl, h⟩

theorem cullhalfspace_tight (c1 c2 t1 t2 t1' t2' : α)
    (h : cullhalfspace c1 c2 t1 t2 = (false, t1', t2')) :
    (t1' = t1 ∨ distAt c1 c2 t1' = 0) ∧ (t2' = t2 ∨ distAt c1 c2 t2' = 0) := by
  unfold distAt
  by_cases ha : c1 * (1 - t1) + c2 * t1 < 0
  · by_cases hb : c1 * (1 - t2) + c2 * t2 < 0
    · simp [cullhalfspace, ha, hb] at h
    · simp only [cullhalfspace, ha, hb, and_false, if_false, if_true, Prod.mk.injEq,
        true_and] at h
      obtain ⟨h1, h2⟩ := h
      refine ⟨?_, Or.inl h2.symm⟩
      have hne : c2 - c1 ≠ 0 := by
        intro e
        have : c2 = c1 := by linarith
        subst this
        apply hb
        have e1 : c2 * (1 - t1) + c2 * t1 = c2 := by ring
        have e2 : c2 * (1 - t2) + c2 * t2 = c2 := by ring
        rw [e1] at ha; rw [e2]; exact ha
      rcases le_total (-c1 / (c2 - c1)) t1 with hle | hle
      · left; rw [← h1]; exact max_eq_right hle
      · right
        rw [← h1, max_eq_left hle]
        field_simp; ring
  · by_cases hb : c1 * (1 - t2) + c2 * t2 < 0
    · simp only [cullhalfspace, ha, hb, false_and, if_false, if_true, Prod.mk.injEq,
        true_and] at h
      obtain ⟨h1, h2⟩ := h
      refine ⟨Or.inl h1.symm, ?_⟩
      have hne : c1 - c2 ≠ 0 := by
        intro e
        have : c1 = c2 := by linarith
        subst this
        apply ha
        have e1 : c1 * (1 - t1) + c1 * t1 = c1 := by ring
        have e2 : c1 * (1 - t2) + c1 * t2 = c1 := by ring
        rw [e2] at hb; rw [e1]; exact hb
      rcases le_total (1 + c2 / (c1 - c2)) t2 with hle | hle
      · right
        rw [← h2, min_eq_left hle]
        field_simp; ring
      · left; rw [← h2]; exact min_eq_right hle
    · simp only [cullhalfspace, ha, hb, and_false, if_false, Prod.mk.injEq,
        true_and] at h
      exact ⟨Or.inl h.1.symm, Or.inl h.2.symm⟩

theorem intervalTight_start : IntervalTight ([] : List (α × α)) (some (0, 1)) := by
  intro t1 t2 h
  simp only [Option.some.injEq, Prod.mk.injEq] at h
  exact ⟨Or.inl h.1.symm, Or.inl h.2.symm⟩

theorem cullstep_tight (c1 c2 : α) (planes : List (α × α)) (st : Option (α × α))
    (h : IntervalTight planes st) : IntervalTight ((c1, c2) :: planes) (cullstep c1 c2 st) := by
  intro t1' t2' hst
  cases st with
  | none => simp [cullstep] at hst
  | some p =>
    obtain ⟨t1, t2⟩ := p
    obtain ⟨ht1, ht2⟩ := h t1 t2 rfl
    rcases hc : cullhalfspace c1 c2 t1 t2 with ⟨b, s1, s2⟩
    cases b with
    | true => simp [cullstep, hc] at hst
    | false =>
      simp only [cullstep, hc, Option.some.injEq, Prod.mk.injEq] at hst
      obtain ⟨e1, e2⟩ := hst
      subst e1; subst e2
      obtain ⟨g1, g2⟩ := cullhalfspace_tight c1 c2 t1 t2 s1 s2 hc
      constructor
      · rcases g1 with g | g
        · rcases ht1 with e | ⟨p, hp, e⟩
          · left; rw [g, e]
          · right; exact ⟨p, List.mem_cons_of_mem _ hp, by rw [g]; exact e⟩
        · right; exact ⟨(c1, c2), List.mem_cons_self _ _, g⟩
      · rcases g2 with g | g
        · rcases ht2 with e | ⟨p, hp, e⟩
          · left; rw [g, e]
          · right; exact ⟨p, List.mem_cons_of_mem _ hp, by rw [g]; exact e⟩
        · right; exact ⟨(c1, c2), List.mem_cons_self _ _, g⟩

theorem cullall_tight (v1 v2 : TriVertex α) (t1 t2 : α) (h : cullall v1 v2 = some (t1, t2)) :
    (t1 = 0 ∨ ∃ p ∈ clipplanes v1 v2, distAt p.1 p.2 t1 = 0) ∧
    (t2 = 1 ∨ ∃ p ∈ clipplanes v1 v2, distAt p.1 p.2 t2 = 0) := by
  have h6 := cullstep_tight (v1.w - v1.z) (v2.w - v2.z) _ _
    (cullstep_tight (v1.z + v1.w) (v2.z + v2.w) _ _
      (cullstep_tight (v1.w - v1.y) (v2.w - v2.y) _ _
        (cullstep_tight (v1.y + v1.w) (v2.y + v2.w) _ _
          (cullstep_tight (v1.w - v1.x) (v2.w - v2.x) _ _
            (cullstep_tight (v1.x + v1.w) (v2.x + v2.w) _ _ intervalTight_start)))))
  obtain ⟨a, b⟩ := h6 t1 t2 h
  have hmem : ∀ p : α × α, p ∈ [(v1.w - v1.z, v2.w - v2.z), (v1.z + v1.w, v2.z + v2.w),
      (v1.w - v1.y, v2.w - v2.y), (v1.y + v1.w, v2.y + v2.w), (v1.w - v1.x, v2.w - v2.x),
      (v1.x + v1.w, v2.x + v2.w)] → p ∈ clipplanes v1 v2 := by
    intro p hp
    simp only [List.mem_cons, List.mem_singleton, List.not_mem_nil, or_false] at hp
    simp only [clipplanes, List.mem_cons, List.mem_singleton, List.not_mem_nil, or_false]
    tauto
  constructor
  · rcases a with e | ⟨p, hp, e⟩
    · exact Or.inl e
    · exact Or.inr ⟨p, hmem p hp, e⟩
  · rcases b with e | ⟨p, hp, e⟩
    · exact Or.inl e
    · exact Or.inr ⟨p, hmem p hp, e⟩

theorem lerpvert_onClipBoundary (v1 v2 : TriVertex α) (t : α)
    (h : ∃ p ∈ clipplanes v1 v2, distAt p.1 p.2 t = 0) : OnClipBoundary (lerpvert v1 v2 t) := by
  obtain ⟨p, hp, e⟩ := h
  simp only [clipplanes, List.mem_cons, List.mem_singleton, List.not_mem_nil, or_false] at hp
  simp only [OnClipBoundary, lerpvert]
  rcases hp with rfl | rfl | rfl | rfl | rfl | rfl <;> simp only [distAt] at e
  · left; linarith
  · right; left; linarith
  · right; right; left; linarith
  · right; right; right; left; linarith
  · right; right; right; right; left; linarith
  · right; right; right; right; right; linarith

theorem cullstep_to_one (c1 c2 t1 : α) (h : 0 ≤ c2) :
    ∃ t1', cullstep c1 c2 (some (t1, 1)) = some (t1', 1) := by
  have hd : ¬ (c2 < 0) := not_lt.mpr h
  by_cases ha : c1 * (1 - t1) + c2 * t1 < 0
  · exact ⟨max (-c1 / (c2 - c1)) t1, by simp [cullstep, cullhalfspace, ha, hd]⟩
  · exact ⟨t1, by simp [cullstep, cullhalfspace, ha, hd]⟩

theorem cullall_to_inside (v1 v2 : TriVertex α) (h : InClipVolume v2) :
    ∃ t1, cullall v1 v2 = some (t1, 1) := by
  obtain ⟨hx1, hx2, hy1, hy2, hz1, hz2⟩ := h
  unfold cullall
  obtain ⟨a, ha⟩ := cullstep_to_one (v1.x + v1.w) (v2.x + v2.w) 0 (by linarith)
  rw [ha]
  obtain ⟨b, hb⟩ := cullstep_to_one (v1.w - v1.x) (v2.w - v2.x) a (by linarith)
  rw [hb]
  obtain ⟨c, hc⟩ := cullstep_to_one (v1.y + v1.w) (v2.y + v2.w) b (by linarith)
  rw [hc]
  obtain ⟨d, hd⟩ := cullstep_to_one (v1.w - v1.y) (v2.w - v2.y) c (by linarith)
  rw [hd]
  obtain ⟨e, he⟩ := cullstep_to_one (v1.z + v1.w) (v2.z + v2.w) d (by linarith)
  rw [he]
  exact cullstep_to_one (v1.w - v1.z) (v2.w - v2.z) e (by linarith)

theorem inClipVolume_of_cullall_zero (v1 v2 : TriVertex α) (t2 : α)
    (h : cullall v1 v2 = some (0, t2)) : InClipVolume v1 := by
  obtain ⟨_, _, _, hp⟩ := cullall_ok v1 v2 0 t2 h
  have hv := lerpvert_inClipVolume v1 v2 0 (fun p hmem => (hp p hmem).1)
  rwa [lerpvert_zero] at hv

/-- An edge from a vertex inside the clip volume to one outside: `clipedge` emits the
first vertex and one new vertex, which is inside the volume and on its boundary. -/
theorem clipedge_in_out (v1 v2 : TriVertex α) (h1 : InClipVolume v1) (h2 : ¬ InClipVolume v2) :
    ∃ n, clipedge v1 v2 [] = [v1, n] ∧ InClipVolume n ∧ OnClipBoundary n := by
  obtain ⟨t2, ht⟩ := cullall_of_inClipVolume v1 v2 h1
  have hne : t2 ≠ 1 := by
    intro e; subst e; exact h2 (inClipVolume_of_cullall_one v1 v2 0 ht)
  refine ⟨lerpvert v1 v2 t2, by simp [clipedge, ht, hne], ?_, ?_⟩
  · obtain ⟨_, _, _, hp⟩ := cullall_ok v1 v2 0 t2 ht
    exact lerpvert_inClipVolume v1 v2 t2 (fun p hmem => (hp p hmem).2)
  · rcases (cullall_tight v1 v2 0 t2 ht).2 with e | e
    · exact absurd e hne
    · exact lerpvert_onClipBoundary v1 v2 t2 e

/-- An edge from a vertex outside the clip volume to one inside: `clipedge` emits one
new vertex, which is inside the volume and on its boundary. -/
theorem clipedge_out_in (v1 v2 : TriVertex α) (h1 : ¬ InClipVolume v1) (h2 : InClipVolume v2) :
    ∃ n, clipedge v1 v2 [] = [n] ∧ InClipVolume n ∧ OnClipBoundary n := by
  obtain ⟨t1, ht⟩ := cullall_to_inside v1 v2 h2
  have hne : t1 ≠ 0 := by
    intro e; subst e; exact h1 (inClipVolume_of_cullall_zero v1 v2 1 ht)
  refine ⟨lerpvert v1 v2 t1, by simp [clipedge, ht, hne], ?_, ?_⟩
  · obtain ⟨_, _, _, hp⟩ := cullall_ok v1 v2 t1 1 ht
    exact lerpvert_inClipVolume v1 v2 t1 (fun p hmem => (hp p hmem).1)
  · rcases (cullall_tight v1 v2 t1 1 ht).1 with e | e
    · exact absurd e hne
    · exact lerpvert_onClipBoundary v1 v2 t1 e

theorem not_inClipVolume_of_w_neg (v : TriVertex α) (h : v.w < 0) : ¬ InClipVolume v := by
  rintro ⟨h1, h2, _⟩
  linarith

/-- C11 (as amended): when exactly one vertex has `w < 0` and the other two are inside
the clip volume, the clip stage produces exactly 4 vertices: the two inside vertices,
unchanged, and two newly generated vertices that are cyclically adjacent in the output
order; each new vertex is inside the clip volume and lies on one of its six bounding
planes. -/
theorem clipstage_one_behind (v0 v1 v2 : TriVertex α)
    (h : (v0.w < 0 ∧ InClipVolume v1 ∧ InClipVolume v2) ∨
      (v1.w < 0 ∧ InClipVolume v0 ∧ InClipVolume v2) ∨
      (v2.w < 0 ∧ InClipVolume v0 ∧ InClipVolume v1)) :
    (clipstage v0 v1 v2).length = 4 ∧
    ∃ n1 n2 : TriVertex α,
      InClipVolume n1 ∧ OnClipBoundary n1 ∧ InClipVolume n2 ∧ OnClipBoundary n2 ∧
      ((v0.w < 0 ∧ clipstage v0 v1 v2 = [n1, v1, v2, n2]) ∨
       (v1.w < 0 ∧ clipstage v0 v1 v2 = [v0, n1, n2, v2]) ∨
       (v2.w < 0 ∧ clipstage v0 v1 v2 = [v0, v1, n1, n2])) := by
  have hs : clipstage v0 v1 v2 =
      clipedge v0 v1 [] ++ clipedge v1 v2 [] ++ clipedge v2 v0 [] := by
    unfold clipstage
    rw [clipedge_eq_append v2 v0, clipedge_eq_append v1 v2]
  rcases h with ⟨hw, i1, i2⟩ | ⟨hw, i0, i2⟩ | ⟨hw, i0, i1⟩
  · have o0 := not_inClipVolume_of_w_neg v0 hw
    obtain ⟨n1, e1, p1, q1⟩ := clipedge_out_in v0 v1 o0 i1
    obtain ⟨n2, e2, p2, q2⟩ := clipedge_in_out v2 v0 i2 o0
    have e : clipstage v0 v1 v2 = [n1, v1, v2, n2] := by
      rw [hs, e1, e2, clipedge_inside v1 v2 i1 i2]; rfl
    exact ⟨by rw [e]; rfl, n1, n2, p1, q1, p2, q2, Or.inl ⟨hw, e⟩⟩
  · have o1 := not_inClipVolume_of_w_neg v1 hw
    obtain ⟨n1, e1, p1, q1⟩ := clipedge_in_out v0 v1 i0 o1
    obtain ⟨n2, e2, p2, q2⟩ := clipedge_out_in v1 v2 o1 i2
    have e : clipstage v0 v1 v2 = [v0, n1, n2, v2] := by
      rw [hs, e1, e2, clipedge_inside v2 v0 i2 i0]; rfl
    exact ⟨by rw [e]; rfl, n1, n2, p1, q1, p2, q2, Or.inr (Or.inl ⟨hw, e⟩)⟩
  · have o2 := not_inClipVolume_of_w_neg v2 hw
    obtain ⟨n1, e1, p1, q1⟩ := clipedge_in_out v1 v2 i1 o2
    obtain ⟨n2, e2, p2, q2⟩ := clipedge_out_in v2 v0 o2 i0
    have e : clipstage v0 v1 v2 = [v0, v1, n1, n2] := by
      rw [hs, e1, e2, clipedge_inside v0 v1 i0 i1]; rfl
    exact ⟨by rw [e]; rfl, n1, n2, p1, q1, p2, q2, Or.inr (Or.inr ⟨hw, e⟩)⟩

end TriangleDrawer

/-- C17 (witness): the triangle `(0,0,0,1)`, `(1,0,0,1)`, `(0,1,0,1)`. -/
theorem clipstage_unclipped_example :
    (clipstage (vert4 0 0 0 1) (vert4 1 0 0 1) (vert4 0 1 0 1)).length = 3 ∧
    clipstage (vert4 0 0 0 1) (vert4 1 0 0 1) (vert4 0 1 0 1) =
      [vert4 0 0 0 1, vert4 1 0 0 1, vert4 0 1 0 1] :=
  clipstage_unclipped (vert4 0 0 0 1) (vert4 1 0 0 1) (vert4 0 1 0 1)
    (by norm_num [InClipVolume, vert4]) (by norm_num [InClipVolume, vert4])
    (by norm_num [InClipVolume, vert4])

section ClipBehindExamples

theorem cullall_behind_edge0 :
    cullall (vert4 0 0 0 2) (vert4 0 1 0 2) = some (0, 1) := by
  norm_num [cullall, cullstep, cullhalfspace, vert4]

theorem cullall_behind_edge1 :
    cullall (vert4 0 1 0 2) (vert4 10 0 0 (-1)) = some (0, 2 / 13) := by
  norm_num [cullall, cullstep, cullhalfspace, vert4]

theorem cullall_behind_edge2 :
    cullall (vert4 10 0 0 (-1)) (vert4 0 0 0 2) = some (11 / 13, 1) := by
  norm_num [cullall, cullstep, cullhalfspace, vert4]

theorem clipstage_behind_example :
    clipstage (vert4 0 0 0 2) (vert4 0 1 0 2) (vert4 10 0 0 (-1)) =
      [vert4 0 0 0 2, vert4 0 1 0 2,
        lerpvert (vert4 0 1 0 2) (vert4 10 0 0 (-1)) (2 / 13),
        lerpvert (vert4 10 0 0 (-1)) (vert4 0 0 0 2) (11 / 13)] := by
  norm_num [clipstage, clipedge, cullall_behind_edge0, cullall_behind_edge1,
    cullall_behind_edge2]

/-- C11 (counterexample): the clip-space triangle `(0,0,0,2)`, `(0,1,0,2)`,
`(10,0,0,-1)` has exactly one vertex with `w < 0` and the other two inside the clip
volume; the clip stage produces 4 vertices, the two new ones being cut off by the plane
`x = w` at `(20/13, 11/13, 0, 20/13)` and `(20/13, 0, 0, 20/13)`, and none of the four
lies on the plane `z = -w`. -/
theorem clipstage_behind_not_near_plane :
    (vert4 10 0 0 (-1)).w < 0 ∧ InClipVolume (vert4 0 0 0 2) ∧ InClipVolume (vert4 0 1 0 2) ∧
    (clipstage (vert4 0 0 0 2) (vert4 0 1 0 2) (vert4 10 0 0 (-1))).length = 4 ∧
    ∀ v ∈ clipstage (vert4 0 0 0 2) (vert4 0 1 0 2) (vert4 10 0 0 (-1)), v.z ≠ -v.w := by
  refine ⟨by norm_num [vert4], by norm_num [InClipVolume, vert4],
    by norm_num [InClipVolume, vert4], by rw [clipstage_behind_example]; rfl, ?_⟩
  intro v hv
  rw [clipstage_behind_example] at hv
  simp only [List.mem_cons, List.mem_singleton, List.not_mem_nil, or_false] at hv
  rcases hv with rfl | rfl | rfl | rfl <;> norm_num [lerpvert, vert4]

/-- C11 (witness of the amended claim): the same triangle. -/
theorem clipstage_one_behind_example :
    (clipstage (vert4 0 0 0 2) (vert4 0 1 0 2) (vert4 10 0 0 (-1))).length = 4 ∧
    ∃ n1 n2 : TriVertex ℚ,
      InClipVolume n1 ∧ OnClipBoundary n1 ∧ InClipVolume n2 ∧ OnClipBoundary n2 ∧
      (((vert4 0 0 0 2).w < 0 ∧
          clipstage (vert4 0 0 0 2) (vert4 0 1 0 2) (vert4 10 0 0 (-1)) =
            [n1, vert4 0 1 0 2, vert4 10 0 0 (-1), n2]) ∨
       ((vert4 0 1 0 2).w < 0 ∧
          clipstage (vert4 0 0 0 2) (vert4 0 1 0 2) (vert4 10 0 0 (-1)) =
            [vert4 0 0 0 2, n1, n2, vert4 10 0 0 (-1)]) ∨
       ((vert4 10 0 0 (-1)).w < 0 ∧
          clipstage (vert4 0 0 0 2) (vert4 0 1 0 2) (vert4 10 0 0 (-1)) =
            [vert4 0 0 0 2, vert4 0 1 0 2, n1, n2])) :=
  clipstage_one_behind (vert4 0 0 0 2) (vert4 0 1 0 2) (vert4 10 0 0 (-1))
    (Or.inr (Or.inr ⟨by norm_num [vert4], by norm_num [InClipVolume, vert4],
      by norm_num [InClipVolume, vert4]⟩))

end ClipBehindExamples

open ScreenTriangleDrawer

namespace ScreenTriangleDrawer

theorem toUInt32_of_range (v : Int) (h0 : 0 ≤ v) (h1 : v < 4294967296) :
    toUInt32 v = v.toNat := by
  unfold toUInt32
  rw [Int.emod_eq_of_lt h0 h1]

/-- For a 32-bit fraction and a texture size in `1..65536` the product in `texpos` does
not wrap and the result is below the texture size. -/
theorem texpos_spec (frac : Nat) (size : Int) (hf : frac < 4294967296) (h1 : 1 ≤ size)
    (h2 : size ≤ 65536) :
    (frac >>> 16) * toUInt32 size < 4294967296 ∧
    texpos frac size = (frac / 65536) * size.toNat / 65536 ∧
    (texpos frac size : Int) < size := by
  have hs : toUInt32 size = size.toNat := toUInt32_of_range size (by omega) (by omega)
  have hg : frac >>> 16 = frac / 65536 := by
    rw [Nat.shiftRight_eq_div_pow]
  have hglt : frac / 65536 < 65536 := by omega
  have hsn : size.toNat ≤ 65536 := by omega
  have hprod : frac / 65536 * size.toNat < 4294967296 := by
    calc frac / 65536 * size.toNat ≤ 65535 * 65536 :=
          Nat.mul_le_mul (by omega) hsn
      _ < 4294967296 := by norm_num
  have hval : texpos frac size = (frac / 65536) * size.toNat / 65536 := by
    unfold texpos
    rw [hs, hg, Nat.mod_eq_of_lt hprod, Nat.shiftRight_eq_div_pow]
  refine ⟨by rw [hs, hg]; exact hprod, hval, ?_⟩
  rw [hval]
  have : frac / 65536 * size.toNat / 65536 < size.toNat := by
    apply Nat.div_lt_of_lt_mul
    calc frac / 65536 * size.toNat < 65536 * size.toNat :=
          Nat.mul_lt_mul_of_pos_right hglt (by omega)
      _ = 65536 * size.toNat := rfl
  omega

/-- C20 (texture reads stay inside the texture): for 32-bit `ufrac`, `vfrac` and texture
sizes in `1..65536`, `upos < textureWidth`, `vpos < textureHeight` and
`uvoffset = upos * textureHeight + vpos < textureWidth * textureHeight`, and none of the
three `uint32_t` computations wraps: the two products and the sum stay below `2^32`, so
the wrapped values are the plain ones. -/
theorem texture_reads_in_range (ufrac vfrac : Nat) (textureWidth textureHeight : Int)
    (hu : ufrac < 4294967296) (hv : vfrac < 4294967296)
    (hw1 : 1 ≤ textureWidth) (hw2 : textureWidth ≤ 65536)
    (hh1 : 1 ≤ textureHeight) (hh2 : textureHeight ≤ 65536) :
    (texpos ufrac textureWidth : Int) < textureWidth ∧
    (texpos vfrac textureHeight : Int) < textureHeight ∧
    (uvoffset (texpos ufrac textureWidth) (texpos vfrac textureHeight) textureHeight : Int)
      < textureWidth * textureHeight ∧
    (ufrac >>> 16) * toUInt32 textureWidth < 4294967296 ∧
    (vfrac >>> 16) * toUInt32 textureHeight < 4294967296 ∧
    texpos ufrac textureWidth * toUInt32 textureHeight + texpos vfrac textureHeight
      < 4294967296 ∧
    (uvoffset (texpos ufrac textureWidth) (texpos vfrac textureHeight) textureHeight : Int)
      = (texpos ufrac textureWidth : Int) * textureHeight + texpos vfrac textureHeight := by
  obtain ⟨pu, _, bu⟩ := texpos_spec ufrac textureWidth hu hw1 hw2
  obtain ⟨pv, _, bv⟩ := texpos_spec vfrac textureHeight hv hh1 hh2
  have hs : toUInt32 textureHeight = textureHeight.toNat :=
    toUInt32_of_range textureHeight (by omega) (by omega)
  have hcast : ((textureHeight.toNat : Nat) : Int) = textureHeight := Int.toNat_of_nonneg (by omega)
  generalize texpos ufrac textureWidth = up at *
  generalize texpos vfrac textureHeight = vp at *
  have hup0 : (0 : Int) ≤ up := Int.natCast_nonneg up
  have hsumZ : (up : Int) * textureHeight + vp < textureWidth * textureHeight := by
    nlinarith
  have hmax : textureWidth * textureHeight ≤ 4294967296 := by nlinarith
  have hsumN : up * textureHeight.toNat + vp < 4294967296 := by
    have : ((up * textureHeight.toNat + vp : Nat) : Int) < 4294967296 := by
      push_cast; rw [hcast]; omega
    exact_mod_cast this
  have hoff : uvoffset up vp textureHeight = up * textureHeight.toNat + vp := by
    unfold uvoffset
    rw [hs, Nat.mod_eq_of_lt hsumN]
  refine ⟨bu, bv, ?_, pu, pv, by rw [hs]; exact hsumN, ?_⟩
  · rw [hoff]; push_cast; rw [hcast]; exact hsumZ
  · rw [hoff]; push_cast; rw [hcast]

/-- C20 (witness): `ufrac = vfrac = 2^32 - 1` with a 65536 x 65536 texture. -/
theorem texture_reads_in_range_max :
    (texpos 4294967295 65536 : Int) < 65536 ∧
    (texpos 4294967295 65536 : Int) < 65536 ∧
    (uvoffset (texpos 4294967295 65536) (texpos 4294967295 65536) 65536 : Int)
      < 65536 * 65536 ∧
    (4294967295 >>> 16) * toUInt32 65536 < 4294967296 ∧
    (4294967295 >>> 16) * toUInt32 65536 < 4294967296 ∧
    texpos 4294967295 65536 * toUInt32 65536 + texpos 4294967295 65536 < 4294967296 ∧
    (uvoffset (texpos 4294967295 65536) (texpos 4294967295 65536) 65536 : Int)
      = (texpos 4294967295 65536 : Int) * 65536 + texpos 4294967295 65536 :=
  texture_reads_in_range 4294967295 4294967295 65536 65536 (by decide) (by decide)
    (by decide) (by decide) (by decide) (by decide)

theorem texfrac_bounds (u : ℚ) :
    texfrac u < 4294967296 ∧ ((texfrac u : Nat) : ℚ) ≤ (u - ⌊u⌋) * 4294967296 ∧
    (u - ⌊u⌋) * 4294967296 < (texfrac u : ℚ) + 1 := by
  have hf0 : 0 ≤ u - ⌊u⌋ := by have := Int.floor_le u; linarith
  have hf1 : u - ⌊u⌋ < 1 := by have := Int.lt_floor_add_one u; linarith
  have hF0 : 0 ≤ ⌊(u - ⌊u⌋) * 4294967296⌋ := Int.floor_nonneg.mpr (by positivity)
  have hF1 : ⌊(u - ⌊u⌋) * 4294967296⌋ < 4294967296 := by
    rw [Int.floor_lt]; push_cast; linarith
  have hval : texfrac u = ⌊(u - ⌊u⌋) * 4294967296⌋.toNat := by
    unfold texfrac; exact toUInt32_of_range _ hF0 hF1
  have hcast : ((texfrac u : Nat) : ℚ) = ((⌊(u - ⌊u⌋) * 4294967296⌋ : Int) : ℚ) := by
    rw [hval]
    have : ((⌊(u - ⌊u⌋) * 4294967296⌋.toNat : Nat) : Int) = ⌊(u - ⌊u⌋) * 4294967296⌋ :=
      Int.toNat_of_nonneg hF0
    exact_mod_cast this
  refine ⟨by rw [hval]; omega, ?_, ?_⟩
  · rw [hcast]; exact Int.floor_le _
  · rw [hcast]; exact Int.lt_floor_add_one _

/-- C13 (as amended): for a texture coordinate `u` with fractional part
`f = u - floor(u)` and `textureWidth` in `1..65535`, the value
`upos = ((ufrac >> 16) * textureWidth) >> 16` is `floor(f * textureWidth)` or
`floor(f * textureWidth) - 1`, never more (and likewise `vpos` with `textureHeight`):
only the upper 16 bits of the fraction enter the product. -/
theorem texpos_near_floor (u : ℚ) (textureWidth : Int) (h1 : 1 ≤ textureWidth)
    (h2 : textureWidth ≤ 65535) :
    (texpos (texfrac u) textureWidth : Int) = ⌊(u - ⌊u⌋) * textureWidth⌋ ∨
    (texpos (texfrac u) textureWidth : Int) = ⌊(u - ⌊u⌋) * textureWidth⌋ - 1 := by
  obtain ⟨hF, hlo, hhi⟩ := texfrac_bounds u
  obtain ⟨_, hval, _⟩ := texpos_spec (texfrac u) textureWidth hF h1 (by omega)
  generalize texfrac u = F at *
  generalize u - ⌊u⌋ = f at *
  have hw : ((textureWidth.toNat : Nat) : ℚ) = (textureWidth : ℚ) := by
    have : ((textureWidth.toNat : Nat) : Int) = textureWidth := Int.toNat_of_nonneg (by omega)
    exact_mod_cast this
  have hwpos : (0 : ℚ) < textureWidth := by exact_mod_cast (by omega : (0 : Int) < textureWidth)
  have hwle : (textureWidth : ℚ) ≤ 65536 := by exact_mod_cast (by omega : textureWidth ≤ 65536)
  -- g = F / 65536 brackets f * 65536
  have hg1 : ((F / 65536 : Nat) : ℚ) * 65536 ≤ F := by
    have : F / 65536 * 65536 ≤ F := Nat.div_mul_le_self F 65536
    exact_mod_cast this
  have hg2 : (F : ℚ) + 1 ≤ (((F / 65536 : Nat) : ℚ) + 1) * 65536 := by
    have : F + 1 ≤ (F / 65536 + 1) * 65536 := by omega
    exact_mod_cast this
  -- p = g * W / 65536 brackets g * W / 65536
  have hp1 : ((F / 65536 * textureWidth.toNat / 65536 : Nat) : ℚ) * 65536
      ≤ ((F / 65536 : Nat) : ℚ) * textureWidth := by
    have : F / 65536 * textureWidth.toNat / 65536 * 65536 ≤ F / 65536 * textureWidth.toNat :=
      Nat.div_mul_le_self _ 65536
    have h' : ((F / 65536 * textureWidth.toNat / 65536 * 65536 : Nat) : ℚ)
        ≤ ((F / 65536 * textureWidth.toNat : Nat) : ℚ) := by exact_mod_cast this
    push_cast at h'; rw [hw] at h'; exact h'
  have hp2 : ((F / 65536 : Nat) : ℚ) * textureWidth + 1
      ≤ (((F / 65536 * textureWidth.toNat / 65536 : Nat) : ℚ) + 1) * 65536 := by
    have : F / 65536 * textureWidth.toNat + 1
        ≤ (F / 65536 * textureWidth.toNat / 65536 + 1) * 65536 := by omega
    have h' : ((F / 65536 * textureWidth.toNat + 1 : Nat) : ℚ)
        ≤ (((F / 65536 * textureWidth.toNat / 65536 + 1) * 65536 : Nat) : ℚ) := by
      exact_mod_cast this
    push_cast at h'; rw [hw] at h'; exact h'
  rw [hval]
  generalize F / 65536 * textureWidth.toNat / 65536 = p at *
  generalize F / 65536 = g at *
  have hupper : ((p : Int) : ℚ) ≤ f * textureWidth := by
    push_cast
    have : (g : ℚ) ≤ f * 65536 := by linarith
    nlinarith
  have hlower : f * textureWidth < ((p : Int) : ℚ) + 2 := by
    push_cast
    have : f * 65536 < (g : ℚ) + 1 := by linarith
    nlinarith
  have hle : (p : Int) ≤ ⌊f * textureWidth⌋ := Int.le_floor.mpr hupper
  have hge : ⌊f * (textureWidth : ℚ)⌋ < (p : Int) + 2 := by
    rw [Int.floor_lt]; push_cast; exact hlower
  omega

/-- C13 (witness of the amended claim): `u = 43691/131072`, `textureWidth = 3`. -/
theorem texpos_near_floor_dyadic :
    (texpos (texfrac (43691 / 131072)) 3 : Int) =
        ⌊((43691 / 131072 : ℚ) - ⌊(43691 / 131072 : ℚ)⌋) * (3 : Int)⌋ ∨
    (texpos (texfrac (43691 / 131072)) 3 : Int) =
        ⌊((43691 / 131072 : ℚ) - ⌊(43691 / 131072 : ℚ)⌋) * (3 : Int)⌋ - 1 :=
  texpos_near_floor (43691 / 131072) 3 (by decide) (by decide)

theorem texfrac_dyadic : texfrac (43691 / 131072) = 1431666688 := by
  have h0 : ⌊(43691 / 131072 : ℚ)⌋ = 0 := by
    rw [Int.floor_eq_iff]; constructor <;> norm_num
  have h1 : ⌊((43691 / 131072 : ℚ) - ((0 : Int) : ℚ)) * 4294967296⌋ = 1431666688 := by
    rw [Int.floor_eq_iff]; constructor <;> norm_num
  unfold texfrac
  rw [h0, h1]
  decide

/-- C13 (counterexample): for `u = 43691/131072` (a value a `float` holds exactly, so
`f = u`, just above `1/3`, and `ufrac = 1431666688`) and `textureWidth = 3` the code
computes `ufrac >> 16 = 21845` and `upos = (21845 * 3) >> 16 = 0`, while
`floor(f * textureWidth) = floor(131073/131072) = 1`. -/
theorem texpos_dyadic_not_floor :
    texpos (texfrac (43691 / 131072)) 3 = 0 ∧
    ⌊((43691 / 131072 : ℚ) - ⌊(43691 / 131072 : ℚ)⌋) * (3 : Int)⌋ = 1 ∧
    (texpos (texfrac (43691 / 131072)) 3 : Int) ≠
      ⌊((43691 / 131072 : ℚ) - ⌊(43691 / 131072 : ℚ)⌋) * (3 : Int)⌋ := by
  have h0 : ⌊(43691 / 131072 : ℚ)⌋ = 0 := by
    rw [Int.floor_eq_iff]; constructor <;> norm_num
  have hp : texpos (texfrac (43691 / 131072)) 3 = 0 := by
    rw [texfrac_dyadic]; decide
  have hfl : ⌊((43691 / 131072 : ℚ) - ⌊(43691 / 131072 : ℚ)⌋) * (3 : Int)⌋ = 1 := by
    rw [h0, Int.floor_eq_iff]; constructor <;> norm_num
  refine ⟨hp, hfl, ?_⟩
  rw [hp, hfl]; decide

end ScreenTriangleDrawer

open ScreenTriangleDrawer

namespace ScreenTriangleDrawer

section Gradients

variable {α : Type} [Field α]

/-- The plane built from `gradx` and `grady` takes the values `c0`, `c1`, `c2` at the
three vertices when the common denominator is not zero. -/
theorem gradplane_vertices (x0 y0 x1 y1 x2 y2 c0 c1 c2 : α)
    (hdet : (x1 - x2) * (y0 - y2) - (x0 - x2) * (y1 - y2) ≠ 0) :
    gradplane x0 y0 x1 y1 x2 y2 c0 c1 c2 x0 y0 = c0 ∧
    gradplane x0 y0 x1 y1 x2 y2 c0 c1 c2 x1 y1 = c1 ∧
    gradplane x0 y0 x1 y1 x2 y2 c0 c1 c2 x2 y2 = c2 := by
  refine ⟨?_, ?_, ?_⟩
  · simp only [gradplane, sub_self, mul_zero, add_zero]
  · simp only [gradplane, gradx, grady]
    have key : ((c1 - c2) * (y0 - y2) - (c0 - c2) * (y1 - y2)) * (x1 - x0)
        - ((c1 - c2) * (x0 - x2) - (c0 - c2) * (x1 - x2)) * (y1 - y0)
        = (c1 - c0) * ((x1 - x2) * (y0 - y2) - (x0 - x2) * (y1 - y2)) := by ring
    generalize (x1 - x2) * (y0 - y2) - (x0 - x2) * (y1 - y2) = D at hdet key
    generalize (c1 - c2) * (y0 - y2) - (c0 - c2) * (y1 - y2) = tx at key
    generalize (c1 - c2) * (x0 - x2) - (c0 - c2) * (x1 - x2) = ty at key
    have e : c0 + tx / D * (x1 - x0) + ty / -D * (y1 - y0)
        = c0 + (tx * (x1 - x0) - ty * (y1 - y0)) / D := by
      rw [div_neg]; ring
    rw [e, key, mul_div_cancel_right₀ _ hdet]
    ring
  · simp only [gradplane, gradx, grady]
    have key : ((c1 - c2) * (y0 - y2) - (c0 - c2) * (y1 - y2)) * (x2 - x0)
        - ((c1 - c2) * (x0 - x2) - (c0 - c2) * (x1 - x2)) * (y2 - y0)
        = (c2 - c0) * ((x1 - x2) * (y0 - y2) - (x0 - x2) * (y1 - y2)) := by ring
    generalize (x1 - x2) * (y0 - y2) - (x0 - x2) * (y1 - y2) = D at hdet key
    generalize (c1 - c2) * (y0 - y2) - (c0 - c2) * (y1 - y2) = tx at key
    generalize (c1 - c2) * (x0 - x2) - (c0 - c2) * (x1 - x2) = ty at key
    have e : c0 + tx / D * (x2 - x0) + ty / -D * (y2 - y0)
        = c0 + (tx * (x2 - x0) - ty * (y2 - y0)) / D := by
      rw [div_neg]; ring
    rw [e, key, mul_div_cancel_right₀ _ hdet]
    ring

end Gradients

/-- C18 (gradient planes interpolate the vertices): when the determinant
`(x1-x2)(y0-y2) - (x0-x2)(y1-y2)` of the three vertices of `args` is not zero, then for
all per-vertex values `c0, c1, c2` the plane
`p(x, y) = c0 + gradx * (x - x0) + grady * (y - y0)` takes the value `c0` at `(x0, y0)`,
`c1` at `(x1, y1)` and `c2` at `(x2, y2)`, and the seeds `startW` and `startVarying[i]`
of `draw` are the values at `(minx, miny)` of the planes of `w` and of `varying[i] * w`. -/
theorem gradplane_interpolates (args : ScreenTriangleDrawerArgs) (minx miny : Int)
    (hdet : (args.v2.x - args.v3.x) * (args.v1.y - args.v3.y)
      - (args.v1.x - args.v3.x) * (args.v2.y - args.v3.y) ≠ 0) :
    (∀ c0 c1 c2 : ℚ,
      gradplane args.v1.x args.v1.y args.v2.x args.v2.y args.v3.x args.v3.y c0 c1 c2
        args.v1.x args.v1.y = c0 ∧
      gradplane args.v1.x args.v1.y args.v2.x args.v2.y args.v3.x args.v3.y c0 c1 c2
        args.v2.x args.v2.y = c1 ∧
      gradplane args.v1.x args.v1.y args.v2.x args.v2.y args.v3.x args.v3.y c0 c1 c2
        args.v3.x args.v3.y = c2) ∧
    (gradientsetup args minx miny).startW =
      gradplane args.v1.x args.v1.y args.v2.x args.v2.y args.v3.x args.v3.y
        args.v1.w args.v2.w args.v3.w (minx : ℚ) (miny : ℚ) ∧
    ∀ i, (gradientsetup args minx miny).startVarying i =
      gradplane args.v1.x args.v1.y args.v2.x args.v2.y args.v3.x args.v3.y
        (args.v1.varying i * args.v1.w) (args.v2.varying i * args.v2.w)
        (args.v3.varying i * args.v3.w) (minx : ℚ) (miny : ℚ) :=
  ⟨fun c0 c1 c2 => gradplane_vertices _ _ _ _ _ _ c0 c1 c2 hdet, rfl, fun _ => rfl⟩

/-- C18 (witness): the triangle of scenario S1, `(10,10)`, `(50,10)`, `(10,50)`, with the
values `3, 5, 7` and the block corner `(8, 8)`: the plane takes the value `5` at the second
vertex. -/
theorem gradplane_interpolates_s1 :
    gradplane (10 : ℚ) 10 50 10 10 50 3 5 7 50 10 = 5 := by
  have h := (gradplane_interpolates (scenario 10 10 50 10 10 50 63 64) 8 8
    (by norm_num [scenario, vert4])).1 3 5 7
  simpa [scenario, vert4] using h.2.1

theorem map_pixel_drawacceptcols (args : ScreenTriangleDrawerArgs) (row buffer : Int)
    (step : Fin NumVarying → ℚ) (n : Nat) (ix : Int) (varying : Fin NumVarying → ℚ) :
    (drawacceptcols args row buffer step n ix varying).map TexelWrite.pixel =
      acceptcols row buffer n ix := by
  induction n generalizing ix varying with
  | zero => rfl
  | succ n ih => simp only [drawacceptcols, acceptcols, List.map_cons, ih, TexelWrite.pixel]

theorem map_pixel_drawacceptrows (args : ScreenTriangleDrawerArgs) (b : BlockVaryings)
    (x y : Int) (n : Nat) (iy buffer : Int) :
    (drawacceptrows args b x y n iy buffer).map TexelWrite.pixel =
      acceptrows args.pitch x y n iy buffer := by
  induction n generalizing iy buffer with
  | zero => rfl
  | succ n ih =>
    simp only [drawacceptrows, acceptrows, List.map_append, ih, map_pixel_drawacceptcols]

theorem map_pixel_drawpartialcols (args : ScreenTriangleDrawerArgs) (s : Snapped)
    (row buffer : Int) (step : Fin NumVarying → ℚ) (n : Nat) (ix CX1 CX2 CX3 : Int)
    (varying : Fin NumVarying → ℚ) :
    (drawpartialcols args s row buffer step n ix CX1 CX2 CX3 varying).map TexelWrite.pixel =
      partialcols args s row buffer n ix CX1 CX2 CX3 := by
  induction n generalizing ix CX1 CX2 CX3 varying with
  | zero => rfl
  | succ n ih =>
    simp only [drawpartialcols, partialcols, List.map_append, ih]
    split_ifs <;> simp [TexelWrite.pixel]

theorem map_pixel_drawpartialrows (args : ScreenTriangleDrawerArgs) (s : Snapped)
    (b : BlockVaryings) (x y : Int) (n : Nat) (iy CY1 CY2 CY3 buffer : Int) :
    (drawpartialrows args s b x y n iy CY1 CY2 CY3 buffer).map TexelWrite.pixel =
      partialrows args s x y n iy CY1 CY2 CY3 buffer := by
  induction n generalizing iy CY1 CY2 CY3 buffer with
  | zero => rfl
  | succ n ih =>
    simp only [drawpartialrows, partialrows, List.map_append, ih, map_pixel_drawpartialcols]

theorem map_pixel_drawblock (args : ScreenTriangleDrawerArgs) (s : Snapped)
    (g : GradientSetup) (minx miny x y dest : Int) :
    (drawblock args s g minx miny x y dest).map TexelWrite.pixel =
      fillblock args s x y dest := by
  unfold drawblock fillblock
  simp only
  split_ifs
  · rfl
  · exact map_pixel_drawacceptrows _ _ _ _ _ _ _
  · exact map_pixel_drawpartialrows _ _ _ _ _ _ _ _ _ _ _

theorem map_pixel_drawblockcols (args : ScreenTriangleDrawerArgs) (s : Snapped)
    (g : GradientSetup) (minx miny y dest : Int) (n : Nat) (x : Int) :
    (drawblockcols args s g minx miny y dest n x).map TexelWrite.pixel =
      blockcols args s y dest n x := by
  induction n generalizing x with
  | zero => rfl
  | succ n ih =>
    simp only [drawblockcols, blockcols, List.map_append, ih, map_pixel_drawblock]

theorem map_pixel_drawblockrows (args : ScreenTriangleDrawerArgs) (s : Snapped)
    (g : GradientSetup) (minx maxx miny : Int) (n : Nat) (y dest : Int) :
    (drawblockrows args s g minx maxx miny n y dest).map TexelWrite.pixel =
      blockrows args s minx maxx n y dest := by
  induction n generalizing y dest with
  | zero => rfl
  | succ n ih =>
    simp only [drawblockrows, blockrows, List.map_append, ih, map_pixel_drawblockcols]

theorem map_pixel_drawwrites (args : ScreenTriangleDrawerArgs) :
    (drawwrites args).map TexelWrite.pixel = fillwrites args := by
  unfold drawwrites fillwrites
  simp only
  split_ifs
  · rfl
  · exact map_pixel_drawblockrows _ _ _ _ _ _ _ _ _

theorem foldl_storetexel_apply (tex : Int → Int) (l : List TexelWrite) (fb : Int → Int)
    (a : Int) (h : ∀ w ∈ l, w.addr ≠ a) : (l.foldl (storetexel tex) fb) a = fb a := by
  induction l generalizing fb with
  | nil => rfl
  | cons w l ih =>
    rw [List.foldl_cons, ih _ (fun u hu => h u (List.mem_cons_of_mem _ hu))]
    simp only [storetexel]
    rw [if_neg (fun e => h w (List.mem_cons_self _ _) e.symm)]

/-- C19 (textured and flat rasterizers cover the same pixels): the stores of `draw`,
reduced to their positions, are the stores of `fill`, in the same order; so a
framebuffer offset is written by `draw` exactly when it is written by `fill`, and both
calls leave every other byte unchanged. -/
theorem draw_fill_same_positions (args : ScreenTriangleDrawerArgs) :
    (drawwrites args).map TexelWrite.pixel = fillwrites args ∧
    (∀ a : Int, (∃ w ∈ drawwrites args, w.addr = a) ↔ (∃ w ∈ fillwrites args, w.addr = a)) ∧
    (∀ a : Int, (¬ ∃ w ∈ fillwrites args, w.addr = a) →
      draw args a = args.dest a ∧ fill args a = args.dest a) := by
  have hmap := map_pixel_drawwrites args
  have hiff : ∀ a : Int,
      (∃ w ∈ drawwrites args, w.addr = a) ↔ (∃ w ∈ fillwrites args, w.addr = a) := by
    intro a
    constructor
    · rintro ⟨w, hw, e⟩
      refine ⟨w.pixel, ?_, e⟩
      rw [← hmap]; exact List.mem_map_of_mem _ hw
    · rintro ⟨w, hw, e⟩
      rw [← hmap, List.mem_map] at hw
      obtain ⟨u, hu, rfl⟩ := hw
      exact ⟨u, hu, e⟩
  refine ⟨hmap, hiff, ?_⟩
  intro a hna
  constructor
  · apply foldl_storetexel_apply
    intro w hw e
    exact hna ((hiff a).mp ⟨w, hw, e⟩)
  · rw [fill_apply, if_neg hna]

end ScreenTriangleDrawer

open ScreenTriangleDrawer

namespace ScreenTriangleDrawer

/-- C15 (block traversal equals per-pixel evaluation): for every block origin `(x, y)`
the stores of the block are exactly the pixels `(x + j, y + i)`, `i, j < 8`, at which the
three half-edge functions `Ck + DXk * (py << 4) - DYk * (px << 4)` are strictly positive
and the per-column clip predicate holds; a block skipped by the trivial reject has no
covered pixel, a block taken by the trivial accept has all 64 pixels covered and
visible, and the accumulators `CYk + i * FDXk - j * FDYk` of the partial loop are the
directly evaluated half-edge functions. -/
theorem fillblock_per_pixel (args : ScreenTriangleDrawerArgs) (s : Snapped) (x y dest : Int) :
    (∀ w : PixelWrite, w ∈ fillblock args s x y dest ↔
      ∃ i j : Nat, i < 8 ∧ j < 8 ∧
        w = { x := x + j, y := y + i, addr := dest + i * args.pitch + (x + j) } ∧
        s.Covered (x + j) (y + i) ∧ Visible args (x + j) (y + i)) ∧
    ((blockmask s.e12 x y = 0 ∨ blockmask s.e23 x y = 0 ∨ blockmask s.e31 x y = 0) →
      fillblock args s x y dest = [] ∧
      ∀ i j : Nat, i < 8 → j < 8 → ¬ s.Covered (x + j) (y + i)) ∧
    ((blockmask s.e12 x y = 15 ∧ blockmask s.e23 x y = 15 ∧ blockmask s.e31 x y = 15 ∧
        clipcountloop args y 8 x 0 = 0) →
      ∀ i j : Nat, i < 8 → j < 8 → s.Covered (x + j) (y + i) ∧ Visible args (x + j) (y + i)) ∧
    (∀ i j : Int,
      s.e12.eval (x * 16) (y * 16) + i * s.e12.FDX - j * s.e12.FDY
        = s.e12.atPixel (x + j) (y + i) ∧
      s.e23.eval (x * 16) (y * 16) + i * s.e23.FDX - j * s.e23.FDY
        = s.e23.atPixel (x + j) (y + i) ∧
      s.e31.eval (x * 16) (y * 16) + i * s.e31.FDX - j * s.e31.FDY
        = s.e31.atPixel (x + j) (y + i)) := by
  refine ⟨fun w => mem_fillblock args s x y dest w, ?_, ?_, ?_⟩
  · intro hrej
    refine ⟨by simp only [fillblock]; rw [if_pos hrej], ?_⟩
    rintro i j hi hj ⟨c1, c2, c3⟩
    rcases hrej with h | h | h
    · rw [blockmask_eq_zero] at h
      have := atPixel_nonpos_of_corners s.e12 x y i j hi hj h.1 h.2.1 h.2.2.1 h.2.2.2
      omega
    · rw [blockmask_eq_zero] at h
      have := atPixel_nonpos_of_corners s.e23 x y i j hi hj h.1 h.2.1 h.2.2.1 h.2.2.2
      omega
    · rw [blockmask_eq_zero] at h
      have := atPixel_nonpos_of_corners s.e31 x y i j hi hj h.1 h.2.1 h.2.2.1 h.2.2.2
      omega
  · rintro ⟨ha, hb, hc, hclip⟩ i j hi hj
    rw [blockmask_eq_full] at ha hb hc
    rw [clipcountloop_eq_zero] at hclip
    refine ⟨⟨?_, ?_, ?_⟩, ?_⟩
    · exact atPixel_pos_of_corners s.e12 x y i j hi hj ha.1 ha.2.1 ha.2.2.1 ha.2.2.2
    · exact atPixel_pos_of_corners s.e23 x y i j hi hj hb.1 hb.2.1 hb.2.2.1 hb.2.2.2
    · exact atPixel_pos_of_corners s.e31 x y i j hi hj hc.1 hc.2.1 hc.2.2.1 hc.2.2.2
    · have := hclip.2 j hj
      simp only [Visible]
      omega
  · intro i j
    exact ⟨eval_step s.e12 x y i j, eval_step s.e23 x y i j, eval_step s.e31 x y i j⟩

theorem clipcountloop_eq_countP (args : ScreenTriangleDrawerArgs) (y : Int) (n : Nat)
    (ix : Int) (c : Nat) :
    clipcountloop args y n ix c =
      c + (List.range n).countP (fun j : Nat => decide
        (args.clipleft > ix + j ∨ args.clipright < ix + j ∨ args.cliptop (ix + j) > y ∨
          args.clipbottom (ix + j) ≤ y + 8 - 1)) := by
  induction n generalizing ix c with
  | zero => simp [clipcountloop]
  | succ n ih =>
    rw [clipcountloop, ih, List.range_succ_eq_map, List.countP_cons, List.countP_map]
    have hfun : ((fun j : Nat => decide
        (args.clipleft > ix + j ∨ args.clipright < ix + j ∨ args.cliptop (ix + j) > y ∨
          args.clipbottom (ix + j) ≤ y + 8 - 1)) ∘ Nat.succ)
        = (fun j : Nat => decide
        (args.clipleft > ix + 1 + j ∨ args.clipright < ix + 1 + j ∨
          args.cliptop (ix + 1 + j) > y ∨ args.clipbottom (ix + 1 + j) ≤ y + 8 - 1)) := by
      funext j
      simp only [Function.comp, Nat.succ_eq_add_one]
      rw [show ix + ((j + 1 : Nat) : Int) = ix + 1 + j by push_cast; ring]
    rw [hfun]
    simp only [Nat.cast_zero, add_zero]
    by_cases hc : args.clipleft > ix ∨ args.clipright < ix ∨ args.cliptop ix > y ∨
        args.clipbottom ix ≤ y + 8 - 1
    · simp only [hc, if_true, decide_True]; omega
    · simp only [hc, if_false, decide_False]; simp

/-- The block test of one column agrees with the per-pixel test: the column is counted
exactly when `visible` fails in at least one of the eight rows. -/
theorem column_clipped_iff (args : ScreenTriangleDrawerArgs) (ix y : Int) :
    (args.clipleft > ix ∨ args.clipright < ix ∨ args.cliptop ix > y ∨
        args.clipbottom ix ≤ y + 8 - 1) ↔
      ∃ i : Nat, i < 8 ∧ ¬ Visible args ix (y + i) := by
  simp only [Visible]
  constructor
  · intro h
    by_cases hb : args.clipbottom ix ≤ y + 8 - 1
    · exact ⟨7, by omega, by push_cast; omega⟩
    · exact ⟨0, by omega, by push_cast; omega⟩
  · rintro ⟨i, hi, hv⟩
    omega

/-- C16 (the block clip test agrees with the per-pixel clip test): `clipcount` is the
number of columns `x + j`, `j < 8`, for which the per-pixel `visible` predicate fails in
at least one row `y + i`, `i < 8`; in particular `clipcount == 0` exactly when all 64
pixels of the block are visible under the half-open window `[cliptop, clipbottom)`. -/
theorem clipcount_per_pixel (args : ScreenTriangleDrawerArgs) (x y : Int) :
    clipcountloop args y 8 x 0 =
      (List.range 8).countP
        (fun j : Nat => decide (∃ i : Nat, i < 8 ∧ ¬ Visible args (x + j) (y + i))) ∧
    (clipcountloop args y 8 x 0 = 0 ↔
      ∀ i j : Nat, i < 8 → j < 8 → Visible args (x + j) (y + i)) := by
  constructor
  · rw [clipcountloop_eq_countP, Nat.zero_add]
    congr 1
    funext j
    exact decide_eq_decide.mpr (column_clipped_iff args (x + j) y)
  · rw [clipcountloop_eq_zero]
    constructor
    · rintro ⟨_, h⟩ i j hi hj
      by_contra hv
      exact h j hj ((column_clipped_iff args (x + j) y).mpr ⟨i, hi, hv⟩)
    · intro h
      refine ⟨rfl, ?_⟩
      intro j hj hc
      obtain ⟨i, hi, hv⟩ := (column_clipped_iff args (x + j) y).mp hc
      exact hv (h i j hi hj)

end ScreenTriangleDrawer


namespace TriMatrix

variable {α : Type} [CommRing α]

theorem rotate_mul_rotate_neg (cosf sinf : α → α) (t x y z : α)
    (hcos : cosf (-t) = cosf t) (hsin : sinf (-t) = -sinf t)
    (hT : cosf t ^ 2 + sinf t ^ 2 = 1) (hU : x ^ 2 + y ^ 2 + z ^ 2 = 1) :
    (rotate cosf sinf t x y z).mul (rotate cosf sinf (-t) x y z) = identity := by
  unfold mul identity
  congr 1
  funext i
  simp only [entry, rotate, hcos, hsin]
  generalize cosf t = c at hT
  generalize sinf t = s at hT
  fin_cases i
  · simp; linear_combination (x ^ 2 * (1 - c) ^ 2 + s ^ 2) * hU + (1 - x ^ 2) * hT
  · simp; linear_combination (x * y * (1 - c) ^ 2) * hU - (x * y) * hT
  · simp; linear_combination (x * z * (1 - c) ^ 2) * hU - (x * z) * hT
  · simp
  · simp; linear_combination (x * y * (1 - c) ^ 2) * hU - (x * y) * hT
  · simp; linear_combination (y ^ 2 * (1 - c) ^ 2 + s ^ 2) * hU + (1 - y ^ 2) * hT
  · simp; linear_combination (y * z * (1 - c) ^ 2) * hU - (y * z) * hT
  · simp
  · simp; linear_combination (x * z * (1 - c) ^ 2) * hU - (x * z) * hT
  · simp; linear_combination (y * z * (1 - c) ^ 2) * hU - (y * z) * hT
  · simp; linear_combination (z ^ 2 * (1 - c) ^ 2 + s ^ 2) * hU + (1 - z ^ 2) * hT
  · simp
  · simp
  · simp
  · simp
  · simp

theorem identity_mulVertex {α : Type} [CommRing α] (v : TriVertex α) :
    (identity : TriMatrix α).mulVertex v = v := by
  have e : ∀ c r : Fin 4, (identity : TriMatrix α).entry c r = if c = r then 1 else 0 := by
    intro c r
    fin_cases c <;> fin_cases r <;> rfl
  ext i <;> simp [mulVertex, e]

end TriMatrix

open TriangleDrawer ScreenTriangleDrawer

namespace ScreenTriangleDrawer

theorem covered_rotate (X1 Y1 X2 Y2 X3 Y3 px py : Int) :
    ({ X1 := X3, Y1 := Y3, X2 := X1, Y2 := Y1, X3 := X2, Y3 := Y2 } : Snapped).Covered px py ↔
      ({ X1 := X1, Y1 := Y1, X2 := X2, Y2 := Y2, X3 := X3, Y3 := Y3 } : Snapped).Covered px py := by
  simp only [Snapped.Covered, Snapped.e12, Snapped.e23, Snapped.e31]
  tauto

/-- The stores of `fill` do not depend on the framebuffer content, and they are the
same (as a set) when the three vertices are rotated. -/
theorem mem_fillwrites_rotate (args args' : ScreenTriangleDrawerArgs)
    (hp : args'.pitch = args.pitch) (hl : args'.clipleft = args.clipleft)
    (hr : args'.clipright = args.clipright) (ht : args'.cliptop = args.cliptop)
    (hb : args'.clipbottom = args.clipbottom)
    (h1 : args'.v1 = args.v3) (h2 : args'.v2 = args.v1) (h3 : args'.v3 = args.v2)
    (w : PixelWrite) : w ∈ fillwrites args' ↔ w ∈ fillwrites args := by
  rw [mem_fillwrites, mem_fillwrites]
  have hs : snap args' =
      { X1 := (snap args).X3
        Y1 := (snap args).Y3
        X2 := (snap args).X1
        Y2 := (snap args).Y1
        X3 := (snap args).X2
        Y3 := (snap args).Y2 } := by
    simp only [snap, h1, h2, h3]
  have hv : Visible args' w.x w.y ↔ Visible args w.x w.y := by
    simp only [Visible, hl, hr, ht, hb]
  have hbr : boundingrect args' (snap args') = boundingrect args (snap args) := by
    rw [hs]
    simp only [boundingrect, hl, hr, ht, hb]
    have e1 : min (min (snap args).X3 (snap args).X1) (snap args).X2
        = min (min (snap args).X1 (snap args).X2) (snap args).X3 := by omega
    have e2 : max (max (snap args).X3 (snap args).X1) (snap args).X2
        = max (max (snap args).X1 (snap args).X2) (snap args).X3 := by omega
    have e3 : min (min (snap args).Y3 (snap args).Y1) (snap args).Y2
        = min (min (snap args).Y1 (snap args).Y2) (snap args).Y3 := by omega
    have e4 : max (max (snap args).Y3 (snap args).Y1) (snap args).Y2
        = max (max (snap args).Y1 (snap args).Y2) (snap args).Y3 := by omega
    rw [e1, e2, e3, e4]
  have htr : Traversed args' w.x w.y ↔ Traversed args w.x w.y := by
    simp only [Traversed, hbr]
  have hc : (snap args').Covered w.x w.y ↔ (snap args).Covered w.x w.y := by
    rw [hs]
    exact covered_rotate _ _ _ _ _ _ _ _
  rw [htr, hc, hv, hp]

theorem fill_rotate (args args' : ScreenTriangleDrawerArgs)
    (hd : args'.dest = args.dest) (hc : args'.solidcolor = args.solidcolor)
    (hp : args'.pitch = args.pitch) (hl : args'.clipleft = args.clipleft)
    (hr : args'.clipright = args.clipright) (ht : args'.cliptop = args.cliptop)
    (hb : args'.clipbottom = args.clipbottom)
    (h1 : args'.v1 = args.v3) (h2 : args'.v2 = args.v1) (h3 : args'.v3 = args.v2) :
    ScreenTriangleDrawer.fill args' = ScreenTriangleDrawer.fill args := by
  funext a
  rw [fill_apply, fill_apply, hd, hc]
  have : (∃ w ∈ fillwrites args', w.addr = a) ↔ (∃ w ∈ fillwrites args, w.addr = a) := by
    constructor
    · rintro ⟨w, hw, e⟩
      exact ⟨w, (mem_fillwrites_rotate args args' hp hl hr ht hb h1 h2 h3 w).mp hw, e⟩
    · rintro ⟨w, hw, e⟩
      exact ⟨w, (mem_fillwrites_rotate args args' hp hl hr ht hb h1 h2 h3 w).mpr hw, e⟩
  by_cases h : ∃ w ∈ fillwrites args, w.addr = a
  · rw [if_pos h, if_pos (this.mpr h)]
  · rw [if_neg h, if_neg (fun h' => h (this.mp h'))]

/-- A triangle whose first two vertices coincide leaves the framebuffer unchanged. -/
theorem fill_repeated_vertex (args : ScreenTriangleDrawerArgs) (h : args.v1 = args.v2) :
    ScreenTriangleDrawer.fill args = args.dest := by
  apply fill_eq_dest_of_nil
  apply fillwrites_eq_nil_of_area2_nonpos
  have hx : (snap args).X1 = (snap args).X2 := by simp only [snap, h]
  have hy : (snap args).Y1 = (snap args).Y2 := by simp only [snap, h]
  rw [area2_eq_cross, hx, hy]
  simp

end ScreenTriangleDrawer

namespace TriangleDrawer

theorem fill_drawargs_repeated (dest : Int → Int) (pitch clipleft clipright : Int)
    (cliptop clipbottom : Int → Int) (texture : Option (Int × Int × (Int → Int)))
    (solidcolor : Int) (p q : TriVertex ℚ) :
    ScreenTriangleDrawer.fill (drawargs dest pitch clipleft clipright cliptop clipbottom
      texture solidcolor p p q) = dest :=
  ScreenTriangleDrawer.fill_repeated_vertex _ rfl

theorem fill_drawargs_rotate (dest : Int → Int) (pitch clipleft clipright : Int)
    (cliptop clipbottom : Int → Int) (texture : Option (Int × Int × (Int → Int)))
    (solidcolor : Int) (p1 p2 p3 : TriVertex ℚ) :
    ScreenTriangleDrawer.fill (drawargs dest pitch clipleft clipright cliptop clipbottom
      texture solidcolor p1 p2 p3) =
    ScreenTriangleDrawer.fill (drawargs dest pitch clipleft clipright cliptop clipbottom
      texture solidcolor p2 p3 p1) :=
  ScreenTriangleDrawer.fill_rotate _ _ rfl rfl rfl rfl rfl rfl rfl rfl rfl rfl

theorem fanccw_three (drawfunc : ScreenTriangleDrawerArgs → Int → Int)
    (mkargs : (Int → Int) → TriVertex ℚ → TriVertex ℚ → TriVertex ℚ → ScreenTriangleDrawerArgs)
    (p0 p1 p2 : TriVertex ℚ) (fb : Int → Int) :
    fanccw drawfunc mkargs [p0, p1, p2] 2 3 fb =
      drawfunc (mkargs (drawfunc (mkargs fb p2 p2 p1)) p2 p1 p0) := rfl

theorem fancw_three (drawfunc : ScreenTriangleDrawerArgs → Int → Int)
    (mkargs : (Int → Int) → TriVertex ℚ → TriVertex ℚ → TriVertex ℚ → ScreenTriangleDrawerArgs)
    (p0 p1 p2 : TriVertex ℚ) (fb : Int → Int) :
    fancw drawfunc mkargs [p0, p1, p2] 1 2 fb = drawfunc (mkargs fb p0 p1 p2) := rfl

theorem fanccw_four (drawfunc : ScreenTriangleDrawerArgs → Int → Int)
    (mkargs : (Int → Int) → TriVertex ℚ → TriVertex ℚ → TriVertex ℚ → ScreenTriangleDrawerArgs)
    (p0 p1 p2 p3 : TriVertex ℚ) (fb : Int → Int) :
    fanccw drawfunc mkargs [p0, p1, p2, p3] 3 4 fb =
      drawfunc (mkargs (drawfunc (mkargs (drawfunc (mkargs fb p3 p3 p2)) p3 p2 p1)) p3 p1 p0) :=
  rfl

theorem fancw_four (drawfunc : ScreenTriangleDrawerArgs → Int → Int)
    (mkargs : (Int → Int) → TriVertex ℚ → TriVertex ℚ → TriVertex ℚ → ScreenTriangleDrawerArgs)
    (p0 p1 p2 p3 : TriVertex ℚ) (fb : Int → Int) :
    fancw drawfunc mkargs [p0, p1, p2, p3] 2 2 fb =
      drawfunc (mkargs (drawfunc (mkargs fb p0 p1 p2)) p0 p2 p3) := rfl

/-- One triangle through `draw_any`, given the vertices the viewport loop leaves. -/
theorem draw_any_one (view : ViewState ℚ) (dc_destorg : Int → Int) (dc_pitch : Int)
    (objectToWorld : TriMatrix ℚ) (a b c : TriVertex ℚ) (ccw : Bool)
    (clipleft clipright : Int) (cliptop clipbottom : Int → Int)
    (texture : Option (Int × Int × (Int → Int))) (solidcolor : Int)
    (drawfunc : ScreenTriangleDrawerArgs → Int → Int) (l : List (TriVertex ℚ))
    (h : screenverts objectToWorld view a b c = l) :
    draw_any view dc_destorg dc_pitch objectToWorld [a, b, c] 3 ccw clipleft clipright
        cliptop clipbottom texture solidcolor drawfunc =
      if ccw = true then
        fanccw drawfunc (fun dest v1 v2 v3 => drawargs dest dc_pitch clipleft clipright cliptop
          clipbottom texture solidcolor v1 v2 v3) l (l.length - 1) l.length dc_destorg
      else
        fancw drawfunc (fun dest v1 v2 v3 => drawargs dest dc_pitch clipleft clipright cliptop
          clipbottom texture solidcolor v1 v2 v3) l (l.length - 2) 2 dc_destorg := by
  subst h
  rfl

/-- C12 (as amended): when the three vertices are inside the clip volume after the
vertex shader, so that the clip stage passes them through, `TriangleDrawer::fill` with
`ccw = true` on `(a, b, c)` leaves the framebuffer in the same state as with
`ccw = false` on `(a, c, b)`, for every matrix, view state, framebuffer, pitch, clip
arrays and `solidcolor`. -/
theorem fill_winding_unclipped (view : ViewState ℚ) (dc_destorg : Int → Int) (dc_pitch : Int)
    (objectToWorld : TriMatrix ℚ) (a b c : TriVertex ℚ) (clipleft clipright : Int)
    (cliptop clipbottom : Int → Int) (solidcolor : Int)
    (ha : InClipVolume (vertexshader objectToWorld view a))
    (hb : InClipVolume (vertexshader objectToWorld view b))
    (hc : InClipVolume (vertexshader objectToWorld view c)) :
    TriangleDrawer.fill view dc_destorg dc_pitch objectToWorld [a, b, c] 3 true clipleft
        clipright cliptop clipbottom solidcolor =
      TriangleDrawer.fill view dc_destorg dc_pitch objectToWorld [a, c, b] 3 false clipleft
        clipright cliptop clipbottom solidcolor := by
  have e1 : screenverts objectToWorld view a b c =
      [viewportmap view (vertexshader objectToWorld view a),
        viewportmap view (vertexshader objectToWorld view b),
        viewportmap view (vertexshader objectToWorld view c)] := by
    simp only [screenverts, clipfrontend, clipstage, clipedge_inside _ _ ha hb,
      clipedge_inside _ _ hb hc, clipedge_inside _ _ hc ha, List.nil_append, List.cons_append,
      List.map_cons, List.map_nil]
  have e2 : screenverts objectToWorld view a c b =
      [viewportmap view (vertexshader objectToWorld view a),
        viewportmap view (vertexshader objectToWorld view c),
        viewportmap view (vertexshader objectToWorld view b)] := by
    simp only [screenverts, clipfrontend, clipstage, clipedge_inside _ _ ha hc,
      clipedge_inside _ _ hc hb, clipedge_inside _ _ hb ha, List.nil_append, List.cons_append,
      List.map_cons, List.map_nil]
  unfold TriangleDrawer.fill
  rw [draw_any_one _ _ _ _ _ _ _ _ _ _ _ _ _ _ _ _ e1, draw_any_one _ _ _ _ _ _ _ _ _ _ _ _ _ _ _ _ e2]
  rw [if_pos rfl, if_neg (by decide)]
  have l3 : ∀ p0 p1 p2 : TriVertex ℚ, [p0, p1, p2].length = 3 := fun _ _ _ => rfl
  rw [l3, l3, fanccw_three, fancw_three]
  rw [fill_drawargs_repeated]
  exact (fill_drawargs_rotate _ _ _ _ _ _ _ _ _ _ _).symm

end TriangleDrawer


section FanExample

open TriangleDrawer ScreenTriangleDrawer

theorem vertexshader_exampleview (x y z : ℚ) :
    vertexshader TriMatrix.identity exampleview (vert4 x y z 1) =
      vert4 (x / 2) (z / 2) ((65541 * y - 655360) / 65531) y := by
  unfold vertexshader
  rw [TriMatrix.identity_mulVertex]
  ext i <;> simp [exampleview, vert4] <;> ring

theorem shade_fanA : vertexshader TriMatrix.identity exampleview fanA =
    vert4 6160 (-48768) (3229205120 / 65531) 49280 := by
  rw [fanA, vertexshader_exampleview]; norm_num

theorem shade_fanB : vertexshader TriMatrix.identity exampleview fanB =
    vert4 (-6545 / 2) (-49664) (3229205120 / 65531) 49280 := by
  rw [fanB, vertexshader_exampleview]; norm_num

theorem shade_fanC : vertexshader TriMatrix.identity exampleview fanC =
    vert4 (385 / 2) (-49232) (3229205120 / 65531) 49280 := by
  rw [fanC, vertexshader_exampleview]; norm_num

theorem cullall_fanAB :
    cullall (vert4 6160 (-48768) (3229205120 / 65531) 49280)
      (vert4 (-6545 / 2) (-49664) (3229205120 / 65531) 49280) = some (0, 4 / 7) := by
  norm_num [cullall, cullstep, cullhalfspace, vert4]

theorem cullall_fanBC :
    cullall (vert4 (-6545 / 2) (-49664) (3229205120 / 65531) 49280)
      (vert4 (385 / 2) (-49232) (3229205120 / 65531) 49280) = some (8 / 9, 1) := by
  norm_num [cullall, cullstep, cullhalfspace, vert4]

theorem cullall_fanCA :
    cullall (vert4 (385 / 2) (-49232) (3229205120 / 65531) 49280)
      (vert4 6160 (-48768) (3229205120 / 65531) 49280) = some (0, 1) := by
  norm_num [cullall, cullstep, cullhalfspace, vert4]

theorem cullall_fanAC :
    cullall (vert4 6160 (-48768) (3229205120 / 65531) 49280)
      (vert4 (385 / 2) (-49232) (3229205120 / 65531) 49280) = some (0, 1) := by
  norm_num [cullall, cullstep, cullhalfspace, vert4]

theorem cullall_fanCB :
    cullall (vert4 (385 / 2) (-49232) (3229205120 / 65531) 49280)
      (vert4 (-6545 / 2) (-49664) (3229205120 / 65531) 49280) = some (0, 1 / 9) := by
  norm_num [cullall, cullstep, cullhalfspace, vert4]

theorem cullall_fanBA :
    cullall (vert4 (-6545 / 2) (-49664) (3229205120 / 65531) 49280)
      (vert4 6160 (-48768) (3229205120 / 65531) 49280) = some (3 / 7, 1) := by
  norm_num [cullall, cullstep, cullhalfspace, vert4]

theorem screenverts_fan_abc :
    screenverts TriMatrix.identity exampleview fanA fanB fanC =
      [vert4 40 (765 / 16) (5045633 / 5045887) (1 / 49280),
        vert4 33 (769 / 16) (5045633 / 5045887) (1 / 49280),
        vert4 (127 / 4) (769 / 16) (5045633 / 5045887) (1 / 49280),
        vert4 (129 / 4) (6149 / 128) (5045633 / 5045887) (1 / 49280)] := by
  simp only [screenverts, clipfrontend, shade_fanA, shade_fanB, shade_fanC, clipstage, clipedge,
    cullall_fanAB, cullall_fanBC, cullall_fanCA]
  norm_num [viewportmap, lerpvert, vert4, exampleview]

theorem screenverts_fan_acb :
    screenverts TriMatrix.identity exampleview fanA fanC fanB =
      [vert4 40 (765 / 16) (5045633 / 5045887) (1 / 49280),
        vert4 (129 / 4) (6149 / 128) (5045633 / 5045887) (1 / 49280),
        vert4 (127 / 4) (769 / 16) (5045633 / 5045887) (1 / 49280),
        vert4 33 (769 / 16) (5045633 / 5045887) (1 / 49280)] := by
  simp only [screenverts, clipfrontend, shade_fanA, shade_fanB, shade_fanC, clipstage, clipedge,
    cullall_fanAC, cullall_fanCB, cullall_fanBA]
  norm_num [viewportmap, lerpvert, vert4, exampleview]

theorem cround_eq (q : ℚ) (n : Int) (h0 : 0 ≤ q) (h1 : (n : ℚ) ≤ q + 1 / 2)
    (h2 : q + 1 / 2 < n + 1) : cround q = n := by
  unfold cround
  rw [if_pos h0, Int.floor_eq_iff]
  exact ⟨h1, h2⟩

theorem snap_drawargs (dest : Int → Int) (pitch clipleft clipright : Int)
    (cliptop clipbottom : Int → Int) (texture : Option (Int × Int × (Int → Int)))
    (solidcolor : Int) (v1 v2 v3 : TriVertex ℚ) :
    snap (drawargs dest pitch clipleft clipright cliptop clipbottom texture solidcolor
      v1 v2 v3) =
      { X1 := cround (16 * v1.x), Y1 := cround (16 * v1.y), X2 := cround (16 * v2.x),
        Y2 := cround (16 * v2.y), X3 := cround (16 * v3.x), Y3 := cround (16 * v3.y) } := rfl

theorem boundingrect_drawargs_const (dest : Int → Int) (pitch clipleft clipright t b : Int)
    (texture : Option (Int × Int × (Int → Int))) (solidcolor : Int) (v1 v2 v3 : TriVertex ℚ)
    (s : Snapped) :
    boundingrect (drawargs dest pitch clipleft clipright (fun _ => t) (fun _ => b) texture
      solidcolor v1 v2 v3) s =
      { clipymin := t
        clipymax := b
        minx := max (ceil16 (min (min s.X1 s.X2) s.X3)) clipleft
        maxx := min (ceil16 (max (max s.X1 s.X2) s.X3)) clipright
        miny := max (ceil16 (min (min s.Y1 s.Y2) s.Y3)) t
        maxy := min (ceil16 (max (max s.Y1 s.Y2) s.Y3)) (b - 1) } := by
  simp only [boundingrect, drawargs, clipscan_const]

theorem cround_fan :
    cround (16 * 40) = 640 ∧ cround (16 * (765 / 16)) = 765 ∧ cround (16 * 33) = 528 ∧
    cround (16 * (769 / 16)) = 769 ∧ cround (16 * (127 / 4)) = 508 ∧
    cround (16 * (129 / 4)) = 516 ∧ cround (16 * (6149 / 128)) = 769 := by
  refine ⟨?_, ?_, ?_, ?_, ?_, ?_, ?_⟩ <;> apply cround_eq <;> norm_num

theorem snap_fan_CN2N1 (fb : Int → Int) :
    snap (drawargs fb 64 0 63 (fun _ => 0) (fun _ => 64) none 7
      (vert4 (129 / 4) (6149 / 128) (5045633 / 5045887) (1 / 49280))
      (vert4 (127 / 4) (769 / 16) (5045633 / 5045887) (1 / 49280))
      (vert4 33 (769 / 16) (5045633 / 5045887) (1 / 49280))) =
      { X1 := 516, Y1 := 769, X2 := 508, Y2 := 769, X3 := 528, Y3 := 769 } := by
  obtain ⟨h1, h2, h3, h4, h5, h6, h7⟩ := cround_fan
  simp only [snap_drawargs, vert4, h1, h2, h3, h4, h5, h6, h7]

theorem snap_fan_CN1A (fb : Int → Int) :
    snap (drawargs fb 64 0 63 (fun _ => 0) (fun _ => 64) none 7
      (vert4 (129 / 4) (6149 / 128) (5045633 / 5045887) (1 / 49280))
      (vert4 33 (769 / 16) (5045633 / 5045887) (1 / 49280))
      (vert4 40 (765 / 16) (5045633 / 5045887) (1 / 49280))) =
      { X1 := 516, Y1 := 769, X2 := 528, Y2 := 769, X3 := 640, Y3 := 765 } := by
  obtain ⟨h1, h2, h3, h4, h5, h6, h7⟩ := cround_fan
  simp only [snap_drawargs, vert4, h1, h2, h3, h4, h5, h6, h7]

theorem snap_fan_AN2N1 (fb : Int → Int) :
    snap (drawargs fb 64 0 63 (fun _ => 0) (fun _ => 64) none 7
      (vert4 40 (765 / 16) (5045633 / 5045887) (1 / 49280))
      (vert4 (127 / 4) (769 / 16) (5045633 / 5045887) (1 / 49280))
      (vert4 33 (769 / 16) (5045633 / 5045887) (1 / 49280))) =
      { X1 := 640, Y1 := 765, X2 := 508, Y2 := 769, X3 := 528, Y3 := 769 } := by
  obtain ⟨h1, h2, h3, h4, h5, h6, h7⟩ := cround_fan
  simp only [snap_drawargs, vert4, h1, h2, h3, h4, h5, h6, h7]

theorem fill_fan_CN2N1 (fb : Int → Int) :
    ScreenTriangleDrawer.fill (drawargs fb 64 0 63 (fun _ => 0) (fun _ => 64) none 7
      (vert4 (129 / 4) (6149 / 128) (5045633 / 5045887) (1 / 49280))
      (vert4 (127 / 4) (769 / 16) (5045633 / 5045887) (1 / 49280))
      (vert4 33 (769 / 16) (5045633 / 5045887) (1 / 49280))) = fb := by
  rw [fill_eq_dest_of_nil]
  · rfl
  · apply fillwrites_eq_nil_of_area2_nonpos
    rw [snap_fan_CN2N1]
    decide

theorem fill_fan_CN1A (fb : Int → Int) :
    ScreenTriangleDrawer.fill (drawargs fb 64 0 63 (fun _ => 0) (fun _ => 64) none 7
      (vert4 (129 / 4) (6149 / 128) (5045633 / 5045887) (1 / 49280))
      (vert4 33 (769 / 16) (5045633 / 5045887) (1 / 49280))
      (vert4 40 (765 / 16) (5045633 / 5045887) (1 / 49280))) 3106 = fb 3106 := by
  rw [fill_apply, if_neg]
  · rfl
  · rintro ⟨w, hw, ha⟩
    rw [mem_fillwrites] at hw
    obtain ⟨_, hcov, hvis, haddr⟩ := hw
    rw [snap_fan_CN1A] at hcov
    simp only [Visible, drawargs] at hvis haddr
    have hx : w.x = 34 := by omega
    have hy : w.y = 48 := by omega
    rw [hx, hy] at hcov
    revert hcov
    decide

theorem fill_fan_AN2N1 (fb : Int → Int) :
    ScreenTriangleDrawer.fill (drawargs fb 64 0 63 (fun _ => 0) (fun _ => 64) none 7
      (vert4 40 (765 / 16) (5045633 / 5045887) (1 / 49280))
      (vert4 (127 / 4) (769 / 16) (5045633 / 5045887) (1 / 49280))
      (vert4 33 (769 / 16) (5045633 / 5045887) (1 / 49280))) 3106 = 7 := by
  rw [fill_apply, if_pos]
  · rfl
  · refine ⟨⟨34, 48, 3106⟩, (mem_fillwrites _ _).mpr ⟨?_, ?_, ?_, ?_⟩, rfl⟩
    · unfold Traversed
      rw [boundingrect_drawargs_const, snap_fan_AN2N1]
      decide
    · rw [snap_fan_AN2N1]
      decide
    · simp only [Visible, drawargs]
      decide
    · simp only [drawargs]
      decide

/-- C12 (counterexample): with the identity matrix, the view state `exampleview`, a
zeroed framebuffer of pitch 64, `clipleft = 0`, `clipright = 63`, `cliptop[x] = 0`,
`clipbottom[x] = 64` and `solidcolor = 7`, `TriangleDrawer::fill` with `ccw = true` on
`(fanA, fanB, fanC)` leaves byte 3106 (pixel `(34, 48)`) at 0, and with `ccw = false` on
`(fanA, fanC, fanB)` stores 7 there. Vertex `fanB` is below the plane `y = -w`, the clip
stage gives four vertices, which snap to `A = (640, 765)`, `N1 = (528, 769)`,
`N2 = (508, 769)`, `C = (516, 769)` in 1/16 pixels; the first call fans from `C`
(triangles `C C N2`, `C N2 N1`, `C N1 A`), the second from `A` (triangles `A C N2`,
`A N2 N1`), and only `A N2 N1` covers the pixel. -/
theorem fill_winding_clipped_differs :
    TriangleDrawer.fill exampleview (fun _ => 0) 64 TriMatrix.identity [fanA, fanB, fanC] 3
        true 0 63 (fun _ => 0) (fun _ => 64) 7 3106 = 0 ∧
    TriangleDrawer.fill exampleview (fun _ => 0) 64 TriMatrix.identity [fanA, fanC, fanB] 3
        false 0 63 (fun _ => 0) (fun _ => 64) 7 3106 = 7 := by
  have l4 : ∀ p0 p1 p2 p3 : TriVertex ℚ, [p0, p1, p2, p3].length = 4 := fun _ _ _ _ => rfl
  constructor
  · unfold TriangleDrawer.fill
    rw [draw_any_one _ _ _ _ _ _ _ _ _ _ _ _ _ _ _ _ screenverts_fan_abc, if_pos rfl, l4,
      fanccw_four, fill_drawargs_repeated, fill_fan_CN2N1, fill_fan_CN1A]
  · unfold TriangleDrawer.fill
    rw [draw_any_one _ _ _ _ _ _ _ _ _ _ _ _ _ _ _ _ screenverts_fan_acb, if_neg (by decide), l4,
      fancw_four, fill_fan_AN2N1]

theorem cround_paint :
    cround (16 * 12) = 192 ∧ cround (16 * 4) = 64 ∧ cround (16 * 52) = 832 ∧
    cround (16 * 44) = 704 := by
  refine ⟨?_, ?_, ?_, ?_⟩ <;> apply cround_eq <;> norm_num

theorem cullall_paintAB :
    cullall (vert4 (-3850) 10240 (806809760 / 65531) 12320)
      (vert4 3850 10240 (806809760 / 65531) 12320) = some (0, 1) := by
  norm_num [cullall, cullstep, cullhalfspace, vert4]

theorem cullall_paintBC :
    cullall (vert4 3850 10240 (806809760 / 65531) 12320)
      (vert4 (-3850) (-10240) (806809760 / 65531) 12320) = some (0, 1) := by
  norm_num [cullall, cullstep, cullhalfspace, vert4]

theorem cullall_paintCA :
    cullall (vert4 (-3850) (-10240) (806809760 / 65531) 12320)
      (vert4 (-3850) 10240 (806809760 / 65531) 12320) = some (0, 1) := by
  norm_num [cullall, cullstep, cullhalfspace, vert4]

theorem screenverts_paint_abc :
    screenverts TriMatrix.identity exampleview (vert4 (-7700) 12320 20480 1)
        (vert4 7700 12320 20480 1) (vert4 (-7700) 12320 (-20480) 1) =
      [vert4 12 4 (5042561 / 5045887) (1 / 12320),
        vert4 52 4 (5042561 / 5045887) (1 / 12320),
        vert4 12 44 (5042561 / 5045887) (1 / 12320)] := by
  have ha : vertexshader TriMatrix.identity exampleview (vert4 (-7700) 12320 20480 1) =
      vert4 (-3850) 10240 (806809760 / 65531) 12320 := by
    rw [vertexshader_exampleview]; norm_num
  have hb : vertexshader TriMatrix.identity exampleview (vert4 7700 12320 20480 1) =
      vert4 3850 10240 (806809760 / 65531) 12320 := by
    rw [vertexshader_exampleview]; norm_num
  have hc : vertexshader TriMatrix.identity exampleview (vert4 (-7700) 12320 (-20480) 1) =
      vert4 (-3850) (-10240) (806809760 / 65531) 12320 := by
    rw [vertexshader_exampleview]; norm_num
  simp only [screenverts, clipfrontend, ha, hb, hc, clipstage, clipedge, cullall_paintAB,
    cullall_paintBC, cullall_paintCA]
  norm_num [viewportmap, vert4, exampleview]

theorem snap_paint_CBA (fb : Int → Int) :
    snap (drawargs fb 64 0 63 (fun _ => 0) (fun _ => 64) none 7
      (vert4 12 44 (5042561 / 5045887) (1 / 12320))
      (vert4 52 4 (5042561 / 5045887) (1 / 12320))
      (vert4 12 4 (5042561 / 5045887) (1 / 12320))) =
      { X1 := 192, Y1 := 704, X2 := 832, Y2 := 64, X3 := 192, Y3 := 64 } := by
  obtain ⟨h1, h2, h3, h4⟩ := cround_paint
  simp only [snap_drawargs, vert4, h1, h2, h3, h4]

theorem fill_paint_CBA (fb : Int → Int) :
    ScreenTriangleDrawer.fill (drawargs fb 64 0 63 (fun _ => 0) (fun _ => 64) none 7
      (vert4 12 44 (5042561 / 5045887) (1 / 12320))
      (vert4 52 4 (5042561 / 5045887) (1 / 12320))
      (vert4 12 4 (5042561 / 5045887) (1 / 12320))) 333 = 7 := by
  rw [fill_apply, if_pos]
  · rfl
  · refine ⟨⟨13, 5, 333⟩, (mem_fillwrites _ _).mpr ⟨?_, ?_, ?_, ?_⟩, rfl⟩
    · unfold Traversed
      rw [boundingrect_drawargs_const, snap_paint_CBA]
      decide
    · rw [snap_paint_CBA]
      decide
    · simp only [Visible, drawargs]
      decide
    · simp only [drawargs]
      decide

/-- C12 (witness of the amended claim): with the identity matrix, `exampleview`, a
zeroed framebuffer of pitch 64, the clip window `0..63 x [0, 64)` and `solidcolor = 7`,
the triangle `a = (-7700, 12320, 20480)`, `b = (7700, 12320, 20480)`,
`c = (-7700, 12320, -20480)` is inside the clip volume and maps to the screen points
`(12, 4)`, `(52, 4)`, `(12, 44)`; both calls leave the same framebuffer, and both paint:
byte 333 (pixel `(13, 5)`) is 7 after each of them. -/
theorem fill_winding_unclipped_example :
    TriangleDrawer.fill exampleview (fun _ => 0) 64 TriMatrix.identity
        [vert4 (-7700) 12320 20480 1, vert4 7700 12320 20480 1, vert4 (-7700) 12320 (-20480) 1]
        3 true 0 63 (fun _ => 0) (fun _ => 64) 7 =
      TriangleDrawer.fill exampleview (fun _ => 0) 64 TriMatrix.identity
        [vert4 (-7700) 12320 20480 1, vert4 (-7700) 12320 (-20480) 1, vert4 7700 12320 20480 1]
        3 false 0 63 (fun _ => 0) (fun _ => 64) 7 ∧
    TriangleDrawer.fill exampleview (fun _ => 0) 64 TriMatrix.identity
        [vert4 (-7700) 12320 20480 1, vert4 7700 12320 20480 1, vert4 (-7700) 12320 (-20480) 1]
        3 true 0 63 (fun _ => 0) (fun _ => 64) 7 333 = 7 ∧
    TriangleDrawer.fill exampleview (fun _ => 0) 64 TriMatrix.identity
        [vert4 (-7700) 12320 20480 1, vert4 (-7700) 12320 (-20480) 1, vert4 7700 12320 20480 1]
        3 false 0 63 (fun _ => 0) (fun _ => 64) 7 333 = 7 := by
  have heq := TriangleDrawer.fill_winding_unclipped exampleview (fun _ => 0) 64
    TriMatrix.identity (vert4 (-7700) 12320 20480 1) (vert4 7700 12320 20480 1)
    (vert4 (-7700) 12320 (-20480) 1) 0 63 (fun _ => 0) (fun _ => 64) 7
    (by rw [vertexshader_exampleview]; norm_num [InClipVolume, vert4])
    (by rw [vertexshader_exampleview]; norm_num [InClipVolume, vert4])
    (by rw [vertexshader_exampleview]; norm_num [InClipVolume, vert4])
  have hpaint : TriangleDrawer.fill exampleview (fun _ => 0) 64 TriMatrix.identity
      [vert4 (-7700) 12320 20480 1, vert4 7700 12320 20480 1, vert4 (-7700) 12320 (-20480) 1]
      3 true 0 63 (fun _ => 0) (fun _ => 64) 7 333 = 7 := by
    have l3 : ∀ p0 p1 p2 : TriVertex ℚ, [p0, p1, p2].length = 3 := fun _ _ _ => rfl
    unfold TriangleDrawer.fill
    rw [draw_any_one _ _ _ _ _ _ _ _ _ _ _ _ _ _ _ _ screenverts_paint_abc, if_pos rfl, l3,
      fanccw_three, fill_paint_CBA]
  refine ⟨heq, hpaint, ?_⟩
  rw [← heq]
  exact hpaint

end FanExample


namespace TriMatrix

/-- C14 (rotation inverse): over the reals, with `cosf` and `sinf` the real cosine and
sine, for every angle `t` and every axis with `x^2 + y^2 + z^2 = 1` the product
`rotate(t, x, y, z) * rotate(-t, x, y, z)` is `identity()`, and applying that product to
any vertex returns the vertex. -/
theorem rotate_inverse (t x y z : ℝ) (h : x ^ 2 + y ^ 2 + z ^ 2 = 1) :
    (rotate Real.cos Real.sin t x y z).mul (rotate Real.cos Real.sin (-t) x y z) = identity ∧
    ∀ v : TriVertex ℝ,
      ((rotate Real.cos Real.sin t x y z).mul
        (rotate Real.cos Real.sin (-t) x y z)).mulVertex v = v := by
  have e := rotate_mul_rotate_neg Real.cos Real.sin t x y z (Real.cos_neg t) (Real.sin_neg t)
    (Real.cos_sq_add_sin_sq t) h
  refine ⟨e, fun v => ?_⟩
  rw [e, identity_mulVertex]

/-- C14 (witness): scenario S6, `rotate(π/2, 0,0,1) * rotate(-π/2, 0,0,1)` applied to
the vertex `(1, 0, 0, 1)` yields `(1, 0, 0, 1)`. -/
theorem rotate_inverse_quarter_turn :
    ((rotate Real.cos Real.sin (Real.pi / 2) 0 0 1).mul
      (rotate Real.cos Real.sin (-(Real.pi / 2)) 0 0 1)).mulVertex ⟨1, 0, 0, 1, fun _ => 0⟩ =
      ⟨1, 0, 0, 1, fun _ => 0⟩ :=
  (rotate_inverse (Real.pi / 2) 0 0 1 (by norm_num)).2 ⟨1, 0, 0, 1, fun _ => 0⟩

end TriMatrix

open ScreenTriangleDrawer

namespace ScreenTriangleDrawer

/-- C21 (back-facing triangles are culled by the rasterizer): with `S` the sum
`(DY12*X1 - DX12*Y1) + (DY23*X2 - DX23*Y2) + (DY31*X3 - DX31*Y3)` of the half-edge
constants before the fill-convention correction, `S ≤ 0` implies that `fill` makes no
store and returns the framebuffer unchanged, and every store of `fill` implies
`S ≥ 1`, whatever the clip arrays are. -/
theorem fill_culls_back_facing (args : ScreenTriangleDrawerArgs) :
    (((snap args).e12.DY * (snap args).X1 - (snap args).e12.DX * (snap args).Y1) +
        ((snap args).e23.DY * (snap args).X2 - (snap args).e23.DX * (snap args).Y2) +
        ((snap args).e31.DY * (snap args).X3 - (snap args).e31.DX * (snap args).Y3) ≤ 0 →
      fillwrites args = [] ∧ fill args = args.dest) ∧
    (∀ w ∈ fillwrites args,
      1 ≤ ((snap args).e12.DY * (snap args).X1 - (snap args).e12.DX * (snap args).Y1) +
        ((snap args).e23.DY * (snap args).X2 - (snap args).e23.DX * (snap args).Y2) +
        ((snap args).e31.DY * (snap args).X3 - (snap args).e31.DX * (snap args).Y3)) := by
  have key : ((snap args).e12.DY * (snap args).X1 - (snap args).e12.DX * (snap args).Y1) +
      ((snap args).e23.DY * (snap args).X2 - (snap args).e23.DX * (snap args).Y2) +
      ((snap args).e31.DY * (snap args).X3 - (snap args).e31.DX * (snap args).Y3)
      = (snap args).area2 := by
    simp only [Snapped.e12, Snapped.e23, Snapped.e31, halfedge, Snapped.area2]
  rw [key]
  constructor
  · intro h
    have hnil := fillwrites_eq_nil_of_area2_nonpos args h
    exact ⟨hnil, fill_eq_dest_of_nil args hnil⟩
  · intro w hw
    exact area2_pos_of_covered _ _ _ ((mem_fillwrites args w).mp hw).2.1

/-- C21 (witness): scenario S1 in the listed vertex order `(10,10)`, `(50,10)`,
`(10,50)`: the sum of the half-edge constants is `-409600` and nothing is written. -/
theorem fill_culls_back_facing_s1 :
    fillwrites (scenario 10 10 50 10 10 50 63 64) = [] ∧
      fill (scenario 10 10 50 10 10 50 63 64) = (scenario 10 10 50 10 10 50 63 64).dest :=
  (fill_culls_back_facing (scenario 10 10 50 10 10 50 63 64)).1
    (by rw [snap_scenario]; decide)

end ScreenTriangleDrawer

open ScreenTriangleDrawer

namespace ScreenTriangleDrawer

theorem mem_clipscanreads (n : Nat) (i : Int) (r : ClipRead) :
    r ∈ clipscanreads n i ↔ i ≤ r.index ∧ r.index < i + n := by
  induction n generalizing i with
  | zero =>
    simp only [clipscanreads, List.not_mem_nil, Nat.cast_zero, add_zero, false_iff]
    omega
  | succ n ih =>
    simp only [clipscanreads, List.mem_cons, ih, Nat.cast_succ]
    constructor
    · rintro (rfl | rfl | h)
      · simp only; omega
      · simp only; omega
      · omega
    · intro h
      by_cases e : r.index = i
      · cases r with
        | mk b idx =>
          simp only at e
          subst e
          cases b
          · exact Or.inl rfl
          · exact Or.inr (Or.inl rfl)
      · exact Or.inr (Or.inr (by omega))

theorem mem_boundingreads (args : ScreenTriangleDrawerArgs)
    (hclip : args.clipleft ≤ args.clipright) (r : ClipRead) :
    r ∈ boundingreads args ↔ args.clipleft ≤ r.index ∧ r.index ≤ args.clipright := by
  simp only [boundingreads, List.mem_cons, mem_clipscanreads]
  have hn : (((args.clipright - args.clipleft).toNat : Nat) : Int) =
      args.clipright - args.clipleft := Int.toNat_of_nonneg (by omega)
  rw [hn]
  constructor
  · rintro (rfl | rfl | h)
    · simp only; omega
    · simp only; omega
    · omega
  · intro h
    by_cases e : r.index = args.clipleft
    · cases r with
      | mk b idx =>
        simp only at e
        subst e
        cases b
        · exact Or.inl rfl
        · exact Or.inr (Or.inl rfl)
    · exact Or.inr (Or.inr (by omega))

theorem clipcounttestreads_range (args : ScreenTriangleDrawerArgs) (y ix : Int) (r : ClipRead)
    (h : r ∈ clipcounttestreads args y ix) :
    args.clipleft ≤ r.index ∧ r.index ≤ args.clipright := by
  unfold clipcounttestreads at h
  split_ifs at h with h1 h2 h3
  · simp at h
  · simp at h
  · simp only [List.mem_singleton] at h
    subst h
    simp only
    omega
  · simp only [List.mem_cons, List.mem_singleton, List.not_mem_nil, or_false] at h
    rcases h with rfl | rfl <;> simp only <;> omega

theorem clipcountreads_range (args : ScreenTriangleDrawerArgs) (y : Int) (n : Nat) (ix : Int)
    (r : ClipRead) (h : r ∈ clipcountreads args y n ix) :
    args.clipleft ≤ r.index ∧ r.index ≤ args.clipright := by
  induction n generalizing ix with
  | zero => simp [clipcountreads] at h
  | succ n ih =>
    simp only [clipcountreads, List.mem_append] at h
    rcases h with h | h
    · exact clipcounttestreads_range args y ix r h
    · exact ih (ix + 1) h

theorem visiblereads_range (args : ScreenTriangleDrawerArgs) (ix row : Int) (r : ClipRead)
    (h : r ∈ visiblereads args ix row) :
    args.clipleft ≤ r.index ∧ r.index ≤ args.clipright := by
  unfold visiblereads at h
  split_ifs at h with h1 h2 h3
  · simp only [List.mem_cons, List.mem_singleton, List.not_mem_nil, or_false] at h
    rcases h with rfl | rfl <;> simp only <;> omega
  · simp only [List.mem_singleton] at h
    subst h
    simp only
    omega
  · simp at h
  · simp at h

theorem partialcolsreads_range (args : ScreenTriangleDrawerArgs) (row : Int) (n : Nat)
    (ix : Int) (r : ClipRead) (h : r ∈ partialcolsreads args row n ix) :
    args.clipleft ≤ r.index ∧ r.index ≤ args.clipright := by
  induction n generalizing ix with
  | zero => simp [partialcolsreads] at h
  | succ n ih =>
    simp only [partialcolsreads, List.mem_append] at h
    rcases h with h | h
    · exact visiblereads_range args ix row r h
    · exact ih (ix + 1) h

theorem partialrowsreads_range (args : ScreenTriangleDrawerArgs) (x y : Int) (n : Nat)
    (iy : Int) (r : ClipRead) (h : r ∈ partialrowsreads args x y n iy) :
    args.clipleft ≤ r.index ∧ r.index ≤ args.clipright := by
  induction n generalizing iy with
  | zero => simp [partialrowsreads] at h
  | succ n ih =>
    simp only [partialrowsreads, List.mem_append] at h
    rcases h with h | h
    · exact partialcolsreads_range args _ 8 x r h
    · exact ih (iy + 1) h

theorem fillblockreads_range (args : ScreenTriangleDrawerArgs) (s : Snapped) (x y : Int)
    (r : ClipRead) (h : r ∈ fillblockreads args s x y) :
    args.clipleft ≤ r.index ∧ r.index ≤ args.clipright := by
  unfold fillblockreads at h
  simp only at h
  split_ifs at h with h1 h2
  · simp at h
  · simp only [List.append_nil] at h
    exact clipcountreads_range args y 8 x r h
  · simp only [List.mem_append] at h
    rcases h with h | h
    · exact clipcountreads_range args y 8 x r h
    · exact partialrowsreads_range args x y 8 0 r h

theorem blockcolsreads_range (args : ScreenTriangleDrawerArgs) (s : Snapped) (y : Int)
    (n : Nat) (x : Int) (r : ClipRead) (h : r ∈ blockcolsreads args s y n x) :
    args.clipleft ≤ r.index ∧ r.index ≤ args.clipright := by
  induction n generalizing x with
  | zero => simp [blockcolsreads] at h
  | succ n ih =>
    simp only [blockcolsreads, List.mem_append] at h
    rcases h with h | h
    · exact fillblockreads_range args s x y r h
    · exact ih (x + 8) h

theorem blockrowsreads_range (args : ScreenTriangleDrawerArgs) (s : Snapped) (minx maxx : Int)
    (n : Nat) (y : Int) (r : ClipRead) (h : r ∈ blockrowsreads args s minx maxx n y) :
    args.clipleft ≤ r.index ∧ r.index ≤ args.clipright := by
  induction n generalizing y with
  | zero => simp [blockrowsreads] at h
  | succ n ih =>
    simp only [blockrowsreads, List.mem_append] at h
    rcases h with h | h
    · exact blockcolsreads_range args s y _ minx r h
    · exact ih (y + 8) h

/-- C22 (clip arrays are only read in range): when `clipleft ≤ clipright`, every index
at which `fill` reads `cliptop` or `clipbottom` (bounding rectangle scan, `clipcount`
loop, per-pixel `visible` test) lies in `[clipleft, clipright]`, although the block
origins are rounded down to a multiple of 8 and the blocks extend past `maxx`; and
every index of `[clipleft, clipright]` is read in both arrays, so the range is the
smallest one. -/
theorem fill_clip_reads_in_range (args : ScreenTriangleDrawerArgs)
    (hclip : args.clipleft ≤ args.clipright) :
    (∀ r ∈ fillreads args, args.clipleft ≤ r.index ∧ r.index ≤ args.clipright) ∧
    (∀ (b : Bool) (i : Int), args.clipleft ≤ i → i ≤ args.clipright →
      { bottom := b, index := i } ∈ fillreads args) := by
  constructor
  · intro r h
    unfold fillreads at h
    simp only [List.mem_append] at h
    rcases h with h | h
    · exact (mem_boundingreads args hclip r).mp h
    · split_ifs at h with hbox
      · simp at h
      · exact blockrowsreads_range args _ _ _ _ _ r h
  · intro b i h1 h2
    unfold fillreads
    simp only [List.mem_append]
    exact Or.inl ((mem_boundingreads args hclip _).mpr ⟨h1, h2⟩)

/-- C22 (witness): the front-facing triangle of scenario S1 with `clipright = 20`: the
block columns start at `x = 8` and `x = 16`, the second one spans the columns `16..23`,
and all reads are at indices `0..20`. -/
theorem fill_clip_reads_in_range_s20 :
    ((0 : Int) ≤ 20) ∧
    (∀ r ∈ fillreads (scenario 10 10 10 50 50 10 20 64), 0 ≤ r.index ∧ r.index ≤ 20) :=
  ⟨by decide, (fill_clip_reads_in_range (scenario 10 10 10 50 50 10 20 64) (by decide)).1⟩

end ScreenTriangleDrawer
